import Mathlib

/-!
# Shallow embedding of `enc/strings.c` (Thor encoder parameter handling)

The development models the configuration reader, the argument parser, the
registry of `parse_config_params`, the Y4M header probe and the checks of
`check_parameters`, and proves properties of them.

Conventions of the embedding:

* a C string is a `List Char` without the terminating NUL (and without NUL
  inside); a file is the `List Char` of its bytes;
* `int` is `Int` restricted to `[-2^31, 2^31)`, conversions wrap (`to_int`);
  `long` is 64 bits wide (LP64), `strtol` saturates at its limits;
* `malloc` succeeds;
* a computation returns `none` when the C program has no defined result there:
  a store past the end of a local buffer or of the array of an integer list, a
  read of a buffer cell that was
  never written, a remainder or a shift that C leaves undefined, or an include
  nesting deeper than the given bound;
* `MAX_REF_FRAMES`, `MAX_SB_SIZE` and `log2i`, which `check_parameters` uses and
  the file does not define, are parameters.
-/

namespace Thor

/-! ## Characters and numeric conversion -/

/-- The terminating character of a C string. -/
def NUL : Char := '\x00'

/-- C `isspace` in the "C" locale: space, `\t`, `\n`, `\v`, `\f`, `\r`. -/
def isspace (c : Char) : Bool :=
  c = ' ' || c = '\t' || c = '\n' || c = '\x0b' || c = '\x0c' || c = '\r'

/-- C `isdigit`. -/
def isdigit (c : Char) : Bool := 48 ≤ c.toNat && c.toNat ≤ 57

def LONG_MAX : Int := 2 ^ 63 - 1
def LONG_MIN : Int := -(2 ^ 63)
def INT_MAX : Int := 2 ^ 31 - 1
def INT_MIN : Int := -(2 ^ 31)

/-- Conversion of an integer value to `int` (two's complement wrap-around). -/
def to_int (v : Int) : Int := (v + 2 ^ 31) % 2 ^ 32 - 2 ^ 31

/-- The digit phase of `strtol`: reads decimal digits from the front of the
character sequence, returning the accumulated magnitude and the number of
digits read.  The sequence must contain the character that stops the scan;
running off its end is a read of undefined memory (`none`). -/
def strtol_digits : List Char → Nat → Nat → Option (Nat × Nat)
  | [], _, _ => none
  | c :: cs, acc, k =>
    if isdigit c then strtol_digits cs (acc * 10 + (c.toNat - 48)) (k + 1)
    else some (acc, k)

/-- The sign and digit phases of `strtol`.  The second component is the number
of characters consumed, `0` when there is no digit (no conversion). -/
def strtol_sign : List Char → Option (Int × Nat)
  | [] => none
  | c :: cs =>
    if c = '-' then
      match strtol_digits cs 0 0 with
      | none => none
      | some (v, k) => if k = 0 then some (0, 0) else some (max LONG_MIN (-(v : Int)), k + 1)
    else if c = '+' then
      match strtol_digits cs 0 0 with
      | none => none
      | some (v, k) => if k = 0 then some (0, 0) else some (min LONG_MAX (v : Int), k + 1)
    else
      match strtol_digits (c :: cs) 0 0 with
      | none => none
      | some (v, k) => if k = 0 then some (0, 0) else some (min LONG_MAX (v : Int), k)

/-- Whitespace skipping of `strtol`, `k` counts the characters skipped. -/
def strtol_from : List Char → Nat → Option (Int × Nat)
  | [], _ => none
  | c :: cs, k =>
    if isspace c then strtol_from cs (k + 1)
    else
      match strtol_sign (c :: cs) with
      | none => none
      | some (v, m) => if m = 0 then some (0, 0) else some (v, k + m)

/-- C `strtol(s, &end, 10)` on the memory starting at `s`: the `long` result and
`end - s`.  When no digits are found the result is `0` and `end = s`. -/
def strtol (s : List Char) : Option (Int × Nat) := strtol_from s 0

/-- C `atoi` on a C string: `(int) strtol(s, NULL, 10)`. -/
def atoi (s : List Char) : Int :=
  match strtol (s ++ [NUL]) with
  | some (v, _) => to_int v
  | none => 0

/-- An integer written in decimal, as `printf("%d")` writes it. -/
def int_token (a : Int) : List Char :=
  if a < 0 then '-' :: Nat.toDigits 10 a.natAbs else Nat.toDigits 10 a.natAbs

/-- Numeric value of a digit string. -/
def dval (ds : List Char) : Nat := ds.foldl (fun a c => a * 10 + (c.toNat - 48)) 0

/-! ## The parameter structure and the registry -/

/-- String members of `enc_params` (type `char *`). -/
inductive StrField
  | infilestr | outfilestr | reconfilestr | statfilestr
  deriving DecidableEq, Repr

/-- Integer members of `enc_params` (type `int`). -/
inductive IntField
  | file_headerlen | frame_headerlen | num_frames | skip | width | height | qp | log2_sb_size
  | enable_tb_split | enable_pb_split | max_num_ref | HQperiod | num_reorder_pics
  | dyadic_coding | interp_ref | dqpP | dqpB | dqpB0 | dqpB1 | dqpB2 | dqpB3 | dqpI
  | intra_period | intra_rdo | max_delta_qp | delta_qp_step | encoder_speed | sync | deblocking
  | cdef | clpf | snrcalc | use_block_contexts | enable_bipred | bitrate | max_qp | min_qp
  | max_qpI | min_qpI | qmtx | qmtx_offset | subsample | max_clpf_strength | cfl_intra
  | cfl_inter | bitdepth | frame_bitdepth | input_bitdepth | aspectnum | aspectden
  deriving DecidableEq, Repr

/-- Floating point members of `enc_params` (type `float`). -/
inductive FloatField
  | frame_rate | lambda_coeffI | lambda_coeffP | lambda_coeffB | lambda_coeffB0 | lambda_coeffB1
  | lambda_coeffB2 | lambda_coeffB3 | early_skip_thr | mqpP | mqpB | mqpB0 | mqpB1 | mqpB2 | mqpB3
  deriving DecidableEq, Repr

/-- A `float` value, kept as the expression that produced it: the zero of
`memset`, `(float)atof(s)` of a token, or `(float)den/num` of two `int`s. -/
inductive FloatVal
  | zero
  | atof (s : List Char)
  | div (den num : Int)
  deriving DecidableEq, Repr

/-- The structure `enc_params` as `strings.c` uses it: its members are the ones
the registry of `parse_config_params` and the header probe name, with the types
the registry casts their addresses to (the declaration itself is in `global.h`).
`intlists` stands for the arrays of `int` that entries of type `ARG_INTLIST`
point to: array `a` at index `i`, index 0 holding the element count.  The size
of such an array is not known to `parse_params`; it is part of the destination
of the registry entry (`Dest.intlist`). -/
structure enc_params where
  strs : StrField → Option (List Char)
  ints : IntField → Int
  floats : FloatField → FloatVal
  intlists : Nat → Nat → Int

/-- The `void *value` of a registry entry: `NULL` or the address of a member;
`intlist a cap` is the address of the array `a` of `cap` elements of type `int`. -/
inductive Dest
  | null
  | str (f : StrField)
  | int (f : IntField)
  | float (f : FloatField)
  | intlist (a cap : Nat)
  deriving DecidableEq, Repr

def MAX_PARAMS : Nat := 200

def ARG_FILENAME : Nat := 0
def ARG_INTEGER : Nat := 1
def ARG_FLOAT : Nat := 2
def ARG_NONE : Nat := 3
def ARG_INTLIST : Nat := 4
def ARG_FLOATLIST : Nat := 5

/-- One entry of `param_list`. -/
structure param_desc where
  name : List Char
  default_string : Option (List Char)
  type : Nat
  value : Dest
  deriving DecidableEq, Repr

/-- The structure after `memset(params, 0, sizeof(enc_params))`. -/
def zero_params : enc_params :=
  { strs := fun _ => none, ints := fun _ => 0, floats := fun _ => FloatVal.zero,
    intlists := fun _ _ => 0 }

def set_int (p : enc_params) (f : IntField) (v : Int) : enc_params :=
  { p with ints := Function.update p.ints f v }

def set_float (p : enc_params) (f : FloatField) (v : FloatVal) : enc_params :=
  { p with floats := Function.update p.floats f v }

def set_str (p : enc_params) (f : StrField) (v : List Char) : enc_params :=
  { p with strs := Function.update p.strs f (some v) }

def set_elem (p : enc_params) (a i : Nat) (v : Int) : enc_params :=
  { p with intlists := Function.update p.intlists a (Function.update (p.intlists a) i v) }

/-- The store `*((int *)value + i) = v`; `none` when `value` is not the address
of an `int` or of an array of `int`, and when the index `i` lies past the end of
the `int` or of the array. -/
def store_int (d : Dest) (i : Nat) (v : Int) (p : enc_params) : Option enc_params :=
  match d with
  | Dest.int f => if i = 0 then some (set_int p f v) else none
  | Dest.intlist a cap => if i < cap then some (set_elem p a i v) else none
  | _ => none

/-- The store `*((float *)value) = v`. -/
def store_float (d : Dest) (v : FloatVal) (p : enc_params) : Option enc_params :=
  match d with
  | Dest.float f => some (set_float p f v)
  | _ => none

/-- The store `*((char **)value) = strcpy(malloc(..), s)`, after freeing the old string. -/
def store_str (d : Dest) (s : List Char) (p : enc_params) : Option enc_params :=
  match d with
  | Dest.str f => some (set_str p f s)
  | _ => none

/-! ## `read_config_file` -/

/-- The conversion `fscanf(f, " %[\"]", b)`: skips white space, then stores the
run of double quotes that follows in `b[10]`.  Gives the return value (`-1` is
`EOF`) and the rest of the stream; `none` when the run does not fit in `b`. -/
def scan_quotes (f : List Char) : Option (Int × List Char) :=
  let f1 := f.dropWhile isspace
  let q := f1.takeWhile (fun c => c = '"')
  if f1 = [] then some (-1, f1)
  else if q = [] then some (0, f1)
  else if 10 ≤ q.length then none
  else some (1, f1.drop q.length)

/-- The conversion `fscanf(f, " %1999s", a)`: return value, contents of `a`, rest. -/
def scan_word (f : List Char) : Int × List Char × List Char :=
  let f1 := f.dropWhile isspace
  let a := (f1.takeWhile (fun c => !isspace c)).take 1999
  if f1 = [] then (-1, [], f1) else (1, a, f1.drop a.length)

/-- The conversion `fscanf(f, "%[^\n]", a)` into `a[2000]`: the rest of the
stream, `none` when the characters read do not fit in `a`. -/
def scan_line (f : List Char) : Option (List Char) :=
  let a := f.takeWhile (fun c => c ≠ '\n')
  if 2000 ≤ a.length then none else some (f.drop a.length)

/-- The conversion `fscanf(f, "%[^\",\n]", a)` into `a[2000]`: return value,
contents of `a`, rest; `none` when the characters read do not fit in `a`. -/
def scan_quoted (f : List Char) : Option (Int × List Char × List Char) :=
  let a := f.takeWhile (fun c => c ≠ '"' ∧ c ≠ ',' ∧ c ≠ '\n')
  if 2000 ≤ a.length then none
  else if f = [] then some (-1, [], f)
  else if a = [] then some (0, [], f)
  else some (1, a, f.drop a.length)

/-- The directive `fscanf(f, "\"")`: consumes one double quote if it is next. -/
def scan_close : List Char → List Char
  | c :: cs => if c = '"' then cs else c :: cs
  | [] => []

/-- The C string held by a character array: everything before the first NUL. -/
def strcpy (a : List Char) : List Char := a.takeWhile (fun c => c ≠ NUL)

/-- The `while (n <= MAX_PARAMS)` loop of `read_config_file`; every iteration
that does not leave the loop consumes a character, the first argument bounds
the number of iterations. -/
def read_loop : Nat → List Char → Nat → List (Option (List Char)) →
    Option (List (Option (List Char)) × Nat)
  | 0, _, _, _ => none
  | fuel + 1, f, n, argv =>
    if n ≤ MAX_PARAMS then
      match scan_quotes f with
      | none => none
      | some (ret2, f1) =>
        if ret2 = 0 then
          match scan_word f1 with
          | (ret, a, f2) =>
            if ret < 1 ∨ ret = -1 then some (argv, n)
            else if a.head? = some ';' then
              match scan_line f2 with
              | none => none
              | some f3 => read_loop fuel f3 n argv
            else read_loop fuel f2 (n + 1) (argv.set n (some (strcpy a)))
        else
          match scan_quoted f1 with
          | none => none
          | some (ret, a, f2) =>
            if ret < 1 ∨ ret = -1 then some (argv, n)
            else read_loop fuel (scan_close f2) (n + 1) (argv.set n (some (strcpy a)))
    else some (argv, n)

/-- The function `read_config_file` on the contents of the file: the array
`argv` of `MAX_PARAMS+1` slots (`none` is `NULL`) and `*num_of_params`. -/
def read_config_file (f : List Char) : Option (List (Option (List Char)) × Nat) :=
  read_loop (f.length + 1) f 1 (List.replicate (MAX_PARAMS + 1) none)

/-! ## `parse_params` -/

/-- The search loop of `parse_params`: the first entry whose name equals the
token (`strcmp(argv[i], list->params[j].name) == 0`), `none` when `j` reaches
`list->num`. -/
def find_param (list : List param_desc) (a : List Char) : Option param_desc :=
  list.find? (fun d => decide (a = d.name))

/-- The delimiters `", "` of the integer list. -/
def is_delim (c : Char) : Bool := c = ',' || c = ' '

/-- One call of `strtok(.., ", ")` on the rest of the string: the token and the
rest after the delimiter that ends it, `none` for `NULL`. -/
def strtok (s : List Char) : Option (List Char × List Char) :=
  let s1 := s.dropWhile is_delim
  if s1 = [] then none
  else some (s1.takeWhile (fun c => !is_delim c), (s1.dropWhile (fun c => !is_delim c)).drop 1)

/-- The loop `while ((tmp = strtok(NULL, ", ")) != NULL) value[cnt++] = atoi(tmp)`;
the first argument bounds the number of iterations. -/
def intlist_loop : Nat → List Char → Dest → Nat → enc_params → Option (Nat × enc_params)
  | 0, _, _, _, _ => none
  | fuel + 1, s, d, cnt, p =>
    match strtok s with
    | none => some (cnt, p)
    | some (tmp, s1) =>
      match store_int d cnt (atoi tmp) p with
      | none => none
      | some p1 => intlist_loop fuel s1 d (cnt + 1) p1

/-- The `case ARG_INTLIST` body on the value token: return value of the case
(`-1` when the first `strtok` gives `NULL`, `0` when the case reaches `break`). -/
def parse_intlist (d : Dest) (v : List Char) (p : enc_params) : Option (Int × enc_params) :=
  match strtok v with
  | none => some (-1, p)
  | some (tmp, s1) =>
    match store_int d 1 (atoi tmp) p with
    | none => none
    | some p1 =>
      match intlist_loop (s1.length + 1) s1 d 2 p1 with
      | none => none
      | some (cnt, p2) =>
        match store_int d 0 (((cnt : Nat) : Int) - 1) p2 with
        | none => none
        | some p3 => some (0, p3)

/-- The strings `argv[1] .. argv[argc-1]`; `none` when one of them is `NULL` or
lies outside the array. -/
def argv_tokens (argc : Nat) (argv : List (Option (List Char))) : Option (List (List Char)) :=
  if argc ≤ argv.length then ((argv.take argc).drop 1).foldr
    (fun o acc => match o, acc with
      | some t, some l => some (t :: l)
      | _, _ => none) (some [])
  else none

/-- The body of the `for` loop of `parse_params` for the flag token `a = argv[i]`;
`val` is the token `argv[i+1]`, `none` when `i+1 == argc`.  `fs` is the file
system seen by `fopen` (`none`: the file cannot be opened) and `inc` stands for
the recursive call `parse_params(num_file_params, file_params, params, list)`.
The result is `-1` when the body executes `return -1` and `0` when it reaches
the end of the `switch`, whether the body advanced `i` over `val`, and the
parameter structure as the body leaves it. -/
def parse_arg (fs : List Char → Option (List Char))
    (inc : Nat → List (Option (List Char)) → enc_params → Option (Int × enc_params))
    (list : List param_desc) (a : List Char) (val : Option (List Char)) (p : enc_params) :
    Option (Int × Bool × enc_params) :=
  match find_param list a with
  | none => some (-1, false, p)
  | some d =>
    if d.type = ARG_FILENAME then
      match val with
      | none => some (-1, true, p)
      | some v =>
        if a = "-cf".toList then
          match fs v with
          | none => some (-1, true, p)
          | some content =>
            match read_config_file content with
            | none => none
            | some (file_params, num_file_params) =>
              match inc num_file_params file_params p with
              | none => none
              | some (r, p1) => if r < 0 then some (-1, true, p1) else some (0, true, p1)
        else
          match store_str d.value v p with
          | none => none
          | some p1 => some (0, true, p1)
    else if d.type = ARG_INTLIST then
      match val with
      | none => some (-1, true, p)
      | some v =>
        match parse_intlist d.value v p with
        | none => none
        | some (r, p1) => some (r, true, p1)
    else if d.type = ARG_INTEGER then
      match val with
      | none => some (-1, true, p)
      | some v =>
        match store_int d.value 0 (atoi v) p with
        | none => none
        | some p1 => some (0, true, p1)
    else if d.type = ARG_FLOAT then
      match val with
      | none => some (-1, true, p)
      | some v =>
        match store_float d.value (FloatVal.atof v) p with
        | none => none
        | some p1 => some (0, true, p1)
    else if d.type = ARG_NONE then
      match store_int d.value 0 1 p with
      | none => none
      | some p1 => some (0, false, p1)
    else some (0, false, p)

/-- The `for (i = 1; i < argc; i++)` loop of `parse_params` over the tokens
`argv[i] .. argv[argc-1]`: the return value together with the parameter
structure as the call leaves it. -/
def parse_loop (fs : List Char → Option (List Char))
    (inc : Nat → List (Option (List Char)) → enc_params → Option (Int × enc_params))
    (list : List param_desc) : List (List Char) → enc_params → Option (Int × enc_params)
  | [], p => some (0, p)
  | [a], p =>
    match parse_arg fs inc list a none p with
    | none => none
    | some (r, _, p1) => if r < 0 then some (-1, p1) else some (0, p1)
  | a :: v :: rest, p =>
    match parse_arg fs inc list a (some v) p with
    | none => none
    | some (r, used, p1) =>
      if r < 0 then some (-1, p1)
      else if used then parse_loop fs inc list rest p1
      else parse_loop fs inc list (v :: rest) p1

/-- The function `parse_params`.  The first argument bounds the nesting of
config files: with bound `0` an include that reaches the recursive call has no
result, with bound `k+1` the included file is parsed with bound `k`. -/
def parse_params (fs : List Char → Option (List Char)) : Nat → Nat →
    List (Option (List Char)) → enc_params → List param_desc → Option (Int × enc_params)
  | 0, argc, argv, params, list =>
    match argv_tokens argc argv with
    | none => none
    | some ts => parse_loop fs (fun _ _ _ => none) list ts params
  | depth + 1, argc, argv, params, list =>
    match argv_tokens argc argv with
    | none => none
    | some ts => parse_loop fs (fun n av q => parse_params fs depth n av q list) list ts params

/-- The recursive call `parse_params(num_file_params, file_params, params, list)`
as the loop of a call with nesting bound `depth` sees it. -/
def include_call (fs : List Char → Option (List Char)) (list : List param_desc) :
    Nat → Nat → List (Option (List Char)) → enc_params → Option (Int × enc_params)
  | 0 => fun _ _ _ => none
  | depth + 1 => fun n av q => parse_params fs depth n av q list

/-! ## The registry of `parse_config_params` -/

/-- The entries registered before the `#if CDEF` block, in registration order. -/
def param_table_head : List param_desc :=
  [ ⟨"-cf".toList, none, ARG_FILENAME, Dest.null⟩,
    ⟨"-if".toList, none, ARG_FILENAME, Dest.str StrField.infilestr⟩,
    ⟨"-ph".toList, (some "0".toList), ARG_INTEGER, Dest.int IntField.file_headerlen⟩,
    ⟨"-fh".toList, (some "0".toList), ARG_INTEGER, Dest.int IntField.frame_headerlen⟩,
    ⟨"-of".toList, none, ARG_FILENAME, Dest.str StrField.outfilestr⟩,
    ⟨"-rf".toList, none, ARG_FILENAME, Dest.str StrField.reconfilestr⟩,
    ⟨"-stat".toList, none, ARG_FILENAME, Dest.str StrField.statfilestr⟩,
    ⟨"-n".toList, (some "600".toList), ARG_INTEGER, Dest.int IntField.num_frames⟩,
    ⟨"-skip".toList, (some "0".toList), ARG_INTEGER, Dest.int IntField.skip⟩,
    ⟨"-width".toList, (some "1920".toList), ARG_INTEGER, Dest.int IntField.width⟩,
    ⟨"-height".toList, (some "1080".toList), ARG_INTEGER, Dest.int IntField.height⟩,
    ⟨"-qp".toList, (some "32".toList), ARG_INTEGER, Dest.int IntField.qp⟩,
    ⟨"-log2_sb_size".toList, (some "7".toList), ARG_INTEGER, Dest.int IntField.log2_sb_size⟩,
    ⟨"-f".toList, (some "60".toList), ARG_FLOAT, Dest.float FloatField.frame_rate⟩,
    ⟨"-lambda_coeffI".toList, (some "1.0".toList), ARG_FLOAT, Dest.float FloatField.lambda_coeffI⟩,
    ⟨"-lambda_coeffP".toList, (some "1.0".toList), ARG_FLOAT, Dest.float FloatField.lambda_coeffP⟩,
    ⟨"-lambda_coeffB".toList, (some "1.0".toList), ARG_FLOAT, Dest.float FloatField.lambda_coeffB⟩,
    ⟨"-lambda_coeffB0".toList, (some "1.0".toList), ARG_FLOAT, Dest.float FloatField.lambda_coeffB0⟩,
    ⟨"-lambda_coeffB1".toList, (some "1.0".toList), ARG_FLOAT, Dest.float FloatField.lambda_coeffB1⟩,
    ⟨"-lambda_coeffB2".toList, (some "1.0".toList), ARG_FLOAT, Dest.float FloatField.lambda_coeffB2⟩,
    ⟨"-lambda_coeffB3".toList, (some "1.0".toList), ARG_FLOAT, Dest.float FloatField.lambda_coeffB3⟩,
    ⟨"-early_skip_thr".toList, (some "0.0".toList), ARG_FLOAT, Dest.float FloatField.early_skip_thr⟩,
    ⟨"-enable_tb_split".toList, (some "0".toList), ARG_INTEGER, Dest.int IntField.enable_tb_split⟩,
    ⟨"-enable_pb_split".toList, (some "0".toList), ARG_INTEGER, Dest.int IntField.enable_pb_split⟩,
    ⟨"-max_num_ref".toList, (some "1".toList), ARG_INTEGER, Dest.int IntField.max_num_ref⟩,
    ⟨"-HQperiod".toList, (some "1".toList), ARG_INTEGER, Dest.int IntField.HQperiod⟩,
    ⟨"-num_reorder_pics".toList, (some "0".toList), ARG_INTEGER, Dest.int IntField.num_reorder_pics⟩,
    ⟨"-dyadic_coding".toList, (some "1".toList), ARG_INTEGER, Dest.int IntField.dyadic_coding⟩,
    ⟨"-interp_ref".toList, (some "0".toList), ARG_INTEGER, Dest.int IntField.interp_ref⟩,
    ⟨"-dqpP".toList, (some "0".toList), ARG_INTEGER, Dest.int IntField.dqpP⟩,
    ⟨"-dqpB".toList, (some "0".toList), ARG_INTEGER, Dest.int IntField.dqpB⟩,
    ⟨"-dqpB0".toList, (some "0".toList), ARG_INTEGER, Dest.int IntField.dqpB0⟩,
    ⟨"-dqpB1".toList, (some "0".toList), ARG_INTEGER, Dest.int IntField.dqpB1⟩,
    ⟨"-dqpB2".toList, (some "0".toList), ARG_INTEGER, Dest.int IntField.dqpB2⟩,
    ⟨"-dqpB3".toList, (some "0".toList), ARG_INTEGER, Dest.int IntField.dqpB3⟩,
    ⟨"-mqpP".toList, (some "1.0".toList), ARG_FLOAT, Dest.float FloatField.mqpP⟩,
    ⟨"-mqpB".toList, (some "1.0".toList), ARG_FLOAT, Dest.float FloatField.mqpB⟩,
    ⟨"-mqpB0".toList, (some "1.0".toList), ARG_FLOAT, Dest.float FloatField.mqpB0⟩,
    ⟨"-mqpB1".toList, (some "1.0".toList), ARG_FLOAT, Dest.float FloatField.mqpB1⟩,
    ⟨"-mqpB2".toList, (some "1.0".toList), ARG_FLOAT, Dest.float FloatField.mqpB2⟩,
    ⟨"-mqpB3".toList, (some "1.0".toList), ARG_FLOAT, Dest.float FloatField.mqpB3⟩,
    ⟨"-dqpI".toList, (some "0".toList), ARG_INTEGER, Dest.int IntField.dqpI⟩,
    ⟨"-intra_period".toList, (some "0".toList), ARG_INTEGER, Dest.int IntField.intra_period⟩,
    ⟨"-intra_rdo".toList, (some "0".toList), ARG_INTEGER, Dest.int IntField.intra_rdo⟩,
    ⟨"-max_delta_qp".toList, (some "0".toList), ARG_INTEGER, Dest.int IntField.max_delta_qp⟩,
    ⟨"-delta_qp_step".toList, (some "1".toList), ARG_INTEGER, Dest.int IntField.delta_qp_step⟩,
    ⟨"-encoder_speed".toList, (some "0".toList), ARG_INTEGER, Dest.int IntField.encoder_speed⟩,
    ⟨"-sync".toList, (some "0".toList), ARG_INTEGER, Dest.int IntField.sync⟩,
    ⟨"-deblocking".toList, (some "1".toList), ARG_INTEGER, Dest.int IntField.deblocking⟩ ]

/-- The entry registered only when the macro `CDEF` is non-zero. -/
def param_table_cdef : param_desc :=
  ⟨"-cdef".toList, (some "2".toList), ARG_INTEGER, Dest.int IntField.cdef⟩

/-- The entries registered after the `#if CDEF` block, in registration order. -/
def param_table_tail : List param_desc :=
  [ ⟨"-clpf".toList, (some "0".toList), ARG_INTEGER, Dest.int IntField.clpf⟩,
    ⟨"-snrcalc".toList, (some "1".toList), ARG_INTEGER, Dest.int IntField.snrcalc⟩,
    ⟨"-use_block_contexts".toList, (some "0".toList), ARG_INTEGER, Dest.int IntField.use_block_contexts⟩,
    ⟨"-enable_bipred".toList, (some "0".toList), ARG_INTEGER, Dest.int IntField.enable_bipred⟩,
    ⟨"-bitrate".toList, (some "0".toList), ARG_INTEGER, Dest.int IntField.bitrate⟩,
    ⟨"-max_qp".toList, (some "51".toList), ARG_INTEGER, Dest.int IntField.max_qp⟩,
    ⟨"-min_qp".toList, (some "1".toList), ARG_INTEGER, Dest.int IntField.min_qp⟩,
    ⟨"-max_qpI".toList, (some "32".toList), ARG_INTEGER, Dest.int IntField.max_qpI⟩,
    ⟨"-min_qpI".toList, (some "32".toList), ARG_INTEGER, Dest.int IntField.min_qpI⟩,
    ⟨"-qmtx".toList, (some "0".toList), ARG_INTEGER, Dest.int IntField.qmtx⟩,
    ⟨"-qmtx_offset".toList, (some "0".toList), ARG_INTEGER, Dest.int IntField.qmtx_offset⟩,
    ⟨"-subsample".toList, (some "420".toList), ARG_INTEGER, Dest.int IntField.subsample⟩,
    ⟨"-max_clpf_strength".toList, (some "4".toList), ARG_INTEGER, Dest.int IntField.max_clpf_strength⟩,
    ⟨"-enable_cfl_intra".toList, (some "1".toList), ARG_INTEGER, Dest.int IntField.cfl_intra⟩,
    ⟨"-enable_cfl_inter".toList, (some "0".toList), ARG_INTEGER, Dest.int IntField.cfl_inter⟩,
    ⟨"-bitdepth".toList, (some "8".toList), ARG_INTEGER, Dest.int IntField.bitdepth⟩,
    ⟨"-frame_bitdepth".toList, (some "8".toList), ARG_INTEGER, Dest.int IntField.frame_bitdepth⟩,
    ⟨"-input_bitdepth".toList, (some "8".toList), ARG_INTEGER, Dest.int IntField.input_bitdepth⟩ ]

/-- The `param_list` built by the `add_param_to_list` calls of
`parse_config_params`.  The macro `CDEF` comes from a header that is not part
of the sources at hand and is a parameter. -/
def param_table (CDEF : Bool) : List param_desc :=
  param_table_head ++ (if CDEF then [param_table_cdef] else []) ++ param_table_tail

/-- The array `default_argv` from index 1 on: name and default string of every
entry that has a default, in registration order. -/
def default_args : List param_desc → List (Option (List Char))
  | [] => []
  | d :: l =>
    match d.default_string with
    | none => default_args l
    | some s => some d.name :: some s :: default_args l

/-! ## The Y4M header probe of `parse_config_params` -/

/-- The defined cells of `buf` after `fread(buf, 1, 256, infile)` on a file with
the given contents and `buf[255] = 0`, from index 0 on.  Cells past the end of
this sequence are indeterminate (or outside the array). -/
def fread_buf (data : List Char) : List Char :=
  if 255 ≤ data.length then data.take 255 ++ [NUL] else data

/-- The comparison `strncmp(s, pat, pat.length) == 0` for a pattern without NUL
on the memory starting at `s`; `none` when it reads an undefined cell. -/
def strncmp_eq : List Char → List Char → Option Bool
  | _, [] => some true
  | [], _ :: _ => none
  | c :: cs, d :: ds => if c = d then strncmp_eq cs ds else some false

/-- The loop `while (buf[pos] != '\n' && buf[pos++] != ' ');` on `buf + pos`:
the final `pos` and `buf + pos`. -/
def skip_field_unguarded : List Char → Nat → Option (Nat × List Char)
  | [], _ => none
  | c :: cs, pos =>
    if c = '\n' then some (pos, c :: cs)
    else if c = ' ' then some (pos + 1, cs)
    else skip_field_unguarded cs (pos + 1)

/-- The loop `while (pos < len && buf[pos] != '\n' && buf[pos++] != ' ');`. -/
def skip_field (len : Nat) : List Char → Nat → Option (Nat × List Char)
  | [], pos => if pos < len then none else some (pos, [])
  | c :: cs, pos =>
    if pos < len then
      if c = '\n' then some (pos, c :: cs)
      else if c = ' ' then some (pos + 1, cs)
      else skip_field len cs (pos + 1)
    else some (pos, c :: cs)

/-- The loop `while (buf[pos] != ' ' && buf[pos] != '\n' && pos < len) pos++;`. -/
def skip_unknown (len : Nat) : List Char → Nat → Option (Nat × List Char)
  | [], _ => none
  | c :: cs, pos =>
    if c ≠ ' ' ∧ c ≠ '\n' ∧ pos < len then skip_unknown len cs (pos + 1)
    else some (pos, c :: cs)

/-- The `case` bodies of the header loop: `c` is the field letter `buf[pos-1]`,
`cur` is `buf + pos`.  The result is `none` for a read of an undefined cell,
`some none` for `return NULL`, and otherwise the new `pos`, `buf + pos` and
parameters. -/
def y4m_field (len : Nat) (c : Char) (cur : List Char) (pos : Nat) (p : enc_params) :
    Option (Option (Nat × List Char × enc_params)) :=
  if c = 'W' then
    match strtol cur with
    | none => none
    | some (v, k) =>
      match skip_field_unguarded (cur.drop k) (pos + k) with
      | none => none
      | some (pos1, cur1) => some (some (pos1, cur1, set_int p IntField.width (to_int v)))
  else if c = 'H' then
    match strtol cur with
    | none => none
    | some (v, k) =>
      match skip_field len (cur.drop k) (pos + k) with
      | none => none
      | some (pos1, cur1) => some (some (pos1, cur1, set_int p IntField.height (to_int v)))
  else if c = 'F' then
    match strtol cur with
    | none => none
    | some (den, k) =>
      match strtol (cur.drop (k + 1)) with
      | none => none
      | some (num, k1) =>
        match skip_field_unguarded (cur.drop (k + 1 + k1 + 1)) (pos + (k + 1 + k1 + 1)) with
        | none => none
        | some (pos1, cur1) =>
          some (some (pos1, cur1,
            set_float p FloatField.frame_rate (FloatVal.div (to_int den) (to_int num))))
  else if c = 'I' then
    match cur with
    | [] => none
    | b :: _ =>
      if b ≠ 'p' then some none
      else
        match skip_field len cur pos with
        | none => none
        | some (pos1, cur1) => some (some (pos1, cur1, p))
  else if c = 'C' then
    match strncmp_eq cur "mono".toList with
    | none => none
    | some ismono =>
      match (if ismono then some ((400 : Int), 4) else strtol cur) with
      | none => none
      | some (v, k) =>
        let p1 := set_int p IntField.subsample (to_int v)
        match cur.drop k with
        | [] => none
        | b :: cs =>
          if b = 'p' then
            match strtol cs with
            | none => none
            | some (bd, _) =>
              let p2 := set_int p1 IntField.input_bitdepth (to_int bd)
              let p3 := if to_int bd > 8 then set_int p2 IntField.frame_bitdepth 16 else p2
              match skip_field len cs (pos + k + 1) with
              | none => none
              | some (pos1, cur1) => some (some (pos1, cur1, p3))
          else
            match skip_field len (b :: cs) (pos + k) with
            | none => none
            | some (pos1, cur1) => some (some (pos1, cur1, p1))
  else if c = 'A' then
    match strtol cur with
    | none => none
    | some (an, k) =>
      match strtol (cur.drop (k + 1)) with
      | none => none
      | some (ad, k1) =>
        match skip_field len (cur.drop (k + 1 + k1)) (pos + (k + 1 + k1)) with
        | none => none
        | some (pos1, cur1) =>
          some (some (pos1, cur1,
            set_int (set_int p IntField.aspectnum (to_int an)) IntField.aspectden (to_int ad)))
  else
    match skip_unknown len cur pos with
    | none => none
    | some (pos1, cur1) => some (some (pos1, cur1, p))

/-- The loop `while (pos < len && buf[pos] != '\n') switch (buf[pos++])`, `cur`
is `buf + pos`; every iteration advances `pos`, the first argument bounds the
number of iterations. -/
def y4m_loop (len : Nat) : Nat → List Char → Nat → enc_params →
    Option (Option (Nat × List Char × enc_params))
  | 0, _, _, _ => none
  | fuel + 1, cur, pos, p =>
    if pos < len then
      match cur with
      | [] => none
      | c :: cs =>
        if c = '\n' then some (some (pos, cur, p))
        else
          match y4m_field len c cs (pos + 1) p with
          | none => none
          | some none => some none
          | some (some (pos1, cur1, p1)) => y4m_loop len fuel cur1 pos1 p1
    else some (some (pos, cur, p))

/-- The block of `parse_config_params` that follows a successful `fopen` of the
input file, on the contents of that file: `none` for a read of an undefined
cell of `buf`, `some none` for `return NULL`, else the parameters returned. -/
def y4m_probe (data : List Char) (p : enc_params) : Option (Option enc_params) :=
  let buf := fread_buf data
  let len := min 256 data.length
  match strncmp_eq buf "YUV4MPEG2 ".toList with
  | none => none
  | some false => some (some p)
  | some true =>
    match y4m_loop len 256 (buf.drop 10) 10 p with
    | none => none
    | some none => some none
    | some (some (pos, cur, p1)) =>
      match strncmp_eq cur "\nFRAME\n".toList with
      | none => none
      | some false => some none
      | some true =>
        some (some (set_int (set_int p1 IntField.file_headerlen ((pos : Int) + 1))
          IntField.frame_headerlen 6))

/-- The function `parse_config_params`: `some none` is the return value `NULL`,
`none` is the absence of a defined result.  `depth` bounds the nesting of
config files (see `parse_params`); `fopen` of the `NULL` input file name is
taken to fail. -/
def parse_config_params (CDEF : Bool) (fs : List Char → Option (List Char)) (depth : Nat)
    (argc : Nat) (argv : List (Option (List Char))) : Option (Option enc_params) :=
  let params := set_int (set_int zero_params IntField.aspectnum 1) IntField.aspectden 1
  let list := param_table CDEF
  let default_argv := none :: default_args list
  let default_argc := default_argv.length
  match parse_params fs depth default_argc default_argv params list with
  | none => none
  | some (_, params1) =>
    match parse_params fs depth argc argv params1 list with
    | none => none
    | some (r, params2) =>
      if r < 0 then some none
      else
        match params2.strs StrField.infilestr with
        | none => some (some params2)
        | some path =>
          match fs path with
          | none => some (some params2)
          | some data => y4m_probe data params2

/-! ## Notions used to state the properties -/

/-- The tokens of a sequence of `-flag value` pairs. -/
def pair_tokens : List (List Char × List Char) → List (List Char)
  | [] => []
  | x :: l => x.1 :: x.2 :: pair_tokens l

/-- The value of the last pair of the sequence whose flag satisfies `P`. -/
def last_by {α : Type} (P : List Char → Bool) : List (List Char × α) → Option α
  | [] => none
  | x :: l =>
    match last_by P l with
    | some t => some t
    | none => if P x.1 then some x.2 else none

/-- The value of the last pair of the sequence that names the flag `nm`. -/
def last_value {α : Type} (nm : List Char) (pairs : List (List Char × α)) : Option α :=
  last_by (fun a => decide (a = nm)) pairs

/-- The token is the name of a registered entry of kind Integer whose
destination is an `int` member. -/
def is_int_flag (list : List param_desc) (nm : List Char) : Bool :=
  match find_param list nm with
  | some d =>
    decide (d.type = ARG_INTEGER) &&
      (match d.value with
       | Dest.int _ => true
       | _ => false)
  | none => false

/-- The token is the name of a registered entry of kind Integer or Float whose
destination is a member of the matching type. -/
def is_value_flag (list : List param_desc) (nm : List Char) : Bool :=
  match find_param list nm with
  | some d =>
    (decide (d.type = ARG_INTEGER) &&
      (match d.value with
       | Dest.int _ => true
       | _ => false)) ||
    (decide (d.type = ARG_FLOAT) &&
      (match d.value with
       | Dest.float _ => true
       | _ => false))
  | none => false

/-- The assignment that one `-flag value` pair of kind Integer or Float makes. -/
def assign (list : List param_desc) (p : enc_params) (x : List Char × List Char) : enc_params :=
  match find_param list x.1 with
  | some d =>
    if d.type = ARG_INTEGER then
      match d.value with
      | Dest.int f => set_int p f (atoi x.2)
      | _ => p
    else if d.type = ARG_FLOAT then
      match d.value with
      | Dest.float f => set_float p f (FloatVal.atof x.2)
      | _ => p
    else p
  | none => p

/-- The flag names an Integer entry whose destination is the member `f`. -/
def hits (list : List param_desc) (f : IntField) (nm : List Char) : Bool :=
  match find_param list nm with
  | some d => decide (d.type = ARG_INTEGER) && decide (d.value = Dest.int f)
  | none => false

/-- The name and default string of every entry that has a default. -/
def default_pairs : List param_desc → List (List Char × List Char)
  | [] => []
  | d :: l =>
    match d.default_string with
    | none => default_pairs l
    | some s => (d.name, s) :: default_pairs l

/-- The argument vector of a command line: the program name and the arguments. -/
def command_line (args : List (List Char)) : List (Option (List Char)) :=
  some "enc".toList :: args.map some

/-- The parameter structure of `parse_config_params` before any parsing:
all zero, with `aspectnum = aspectden = 1`. -/
def initial_params : enc_params :=
  set_int (set_int zero_params IntField.aspectnum 1) IntField.aspectden 1

/-- The parameter structure of `parse_config_params` after the pass over the
defaults of the registry. -/
def default_params (CDEF : Bool) : enc_params :=
  (default_pairs (param_table CDEF)).foldl (assign (param_table CDEF)) initial_params

/-- The text made of the given words, each preceded by its separator, and a
trailer: `sep1 word1 sep2 word2 ... sepk wordk trail`. -/
def words_text : List (List Char × List Char) → List Char → List Char
  | [], trail => trail
  | x :: l, trail => x.1 ++ x.2 ++ words_text l trail

/-- The array `argv` after storing the given strings in the slots `n`, `n+1`, ... -/
def set_slots (argv : List (Option (List Char))) (n : Nat) :
    List (List Char) → List (Option (List Char))
  | [] => argv
  | w :: ws => set_slots (argv.set n (some w)) (n + 1) ws

/-- A word of a config text: 1 to 1999 characters, none of them white space or
NUL, the first one neither `;` nor a double quote. -/
def is_word (w : List Char) : Prop :=
  w ≠ [] ∧ w.length ≤ 1999 ∧ (∀ c ∈ w, isspace c = false ∧ c ≠ NUL) ∧
    w.head? ≠ some ';' ∧ w.head? ≠ some '"'

instance : DecidablePred is_word := fun w => by
  unfold is_word
  infer_instance

/-- The text is empty or begins with white space. -/
def ws_start (r : List Char) : Prop := ∀ c, r.head? = some c → isspace c = true

/-- The kinds of registry entry that consume the token after the flag. -/
def takes_value (t : Nat) : Prop :=
  t = ARG_FILENAME ∨ t = ARG_INTLIST ∨ t = ARG_INTEGER ∨ t = ARG_FLOAT

/-- A file system with the file `f` holding `5`, the file `g` holding `-width`
and the file `file.cfg` holding `-width 200`. -/
def example_fs (path : List Char) : Option (List Char) :=
  if path = "f".toList then some "5".toList
  else if path = "g".toList then some "-width".toList
  else if path = "file.cfg".toList then some "-width 200".toList
  else none

/-- Decimal numbers joined by commas into one token. -/
def comma_join : List Nat → List Char
  | [] => []
  | [v] => Nat.toDigits 10 v
  | v :: w :: l => Nat.toDigits 10 v ++ ',' :: comma_join (w :: l)

/-- The integer list slot `a` after storing the given values from index `cnt` on. -/
def write_vals (p : enc_params) (a cnt : Nat) : List Nat → enc_params
  | [] => p
  | v :: l => write_vals (set_elem p a cnt (v : Int)) a (cnt + 1) l

/-- The header line `YUV4MPEG2 W<w> H<h> F<a>:<b> Ip A<n>:<d> C<c>` with decimal fields. -/
def y4m_header (w h fa fb an ad c : Nat) : List Char :=
  "YUV4MPEG2 W".toList ++ (Nat.toDigits 10 w ++ (" H".toList ++ (Nat.toDigits 10 h ++
    (" F".toList ++ (Nat.toDigits 10 fa ++ (":".toList ++ (Nat.toDigits 10 fb ++
    (" Ip A".toList ++ (Nat.toDigits 10 an ++ (":".toList ++ (Nat.toDigits 10 ad ++
    (" C".toList ++ Nat.toDigits 10 c))))))))))))

/-- A file system with the input file `in.y4m`: the header line of the witness,
the frame marker and four bytes of data. -/
def example_y4m_fs (path : List Char) : Option (List Char) :=
  if path = "in.y4m".toList then
    some "YUV4MPEG2 W176 H144 F25:1 Ip A1:1 C420\nFRAME\nabcd".toList
  else none

/-- The text made of comments: each item is the white space before a `;` and
the rest of the line after it; `trail` is the white space at the end. -/
def comment_text : List (List Char × List Char) → List Char → List Char
  | [], trail => trail
  | x :: l, trail => x.1 ++ ';' :: x.2 ++ comment_text l trail

/-- The text is empty or begins with a newline. -/
def nl_start (r : List Char) : Prop := ∀ c, r.head? = some c → c = '\n'

/-! ## `check_parameters` -/

/-- The calls of `fatalerror` in `check_parameters`, in source order. -/
inductive Diag
  | num_frames | width_height | max_num_ref | max_delta_qp | HQperiod | subgop | dyadic
  | reorder_ref | intra_period | sync | bitrate | log2_sb_size | qmtx_offset | interp_ref
  | subsample | bitdepth | input_bitdepth
  deriving DecidableEq, Repr

/-- The text that the call passes to `fatalerror`. -/
def Diag.message : Diag → String
  | Diag.num_frames => "Number of frames must be positive"
  | Diag.width_height => "Width and height must be a multiple of 8\n"
  | Diag.max_num_ref => "This number of max reference frames is not supported \n"
  | Diag.max_delta_qp => "max_delta_qp too large\n"
  | Diag.HQperiod => "HQperiod too large"
  | Diag.subgop => "Subgop length (num_reorder_pics+1) must divide HQperiod.\n"
  | Diag.dyadic => "num_reorder_pics+1 must be a power of 2 with dyadic coding.\n"
  | Diag.reorder_ref => "More than one reference frame required for reordered pictures.\n"
  | Diag.intra_period =>
    "Intra period must be a multiple of the subgroup size (num_reorder_pics+1).\n"
  | Diag.sync => "Sync requires encoder_speed=2\n"
  | Diag.bitrate => "Current rate control doesn't work with frame reordering\n"
  | Diag.log2_sb_size => "Illegal value for log2_sb_size\n"
  | Diag.qmtx_offset => "qmtrx_offset must be a value from -32 to 31\n"
  | Diag.interp_ref => "interp_ref=2 only supported with dyadic coding\n"
  | Diag.subsample => "Illegal value for subsample.  Only 444, 422, 420 and 400 supported.\n"
  | Diag.bitdepth => "Illegal value for bitdepth.  Only 8, 10 and 12 supported.\n"
  | Diag.input_bitdepth =>
    "Illegal value for input_bitdepth.  Only 8, 10 and 12 supported.\n"

/-- Modelled from the spec: `fatalerror`, which is not part of the sources at
hand, writes its message and ends the process ("aborts the process with a
specific diagnostic message"); a call is the final result `Except.error d`. -/
def fatalerror (d : Diag) : Option (Except Diag enc_params) := some (Except.error d)

/-- The operator `a % b` of C on `int` (truncated division); `none` where C
leaves it undefined: a zero divisor, and `INT_MIN % -1`. -/
def c_rem (a b : Int) : Option Int :=
  if b = 0 then none
  else if a = INT_MIN ∧ b = -1 then none
  else some (Int.tmod a b)

/-- The shift `1 << k` of C on `int`; `none` where C leaves it undefined: a
negative count, or a result that `int` cannot hold. -/
def shl_one (k : Int) : Option Int :=
  if 0 ≤ k ∧ k ≤ 30 then some (2 ^ k.toNat) else none

/-- The condition of the sixth `if` of `check_parameters`,
`num_reorder_pics > 0 && HQperiod > 1 && (HQperiod % (num_reorder_pics+1)) != 0`:
the remainder is evaluated only when the first two conjuncts hold. -/
def subgop_cond (params : enc_params) : Option Bool :=
  if params.ints IntField.num_reorder_pics > 0 ∧ params.ints IntField.HQperiod > 1 then
    match c_rem (params.ints IntField.HQperiod) (params.ints IntField.num_reorder_pics + 1) with
    | none => none
    | some r => some (decide (r ≠ 0))
  else some false

/-- The block `if (params->dyadic_coding) ...` of `check_parameters`; `log2i`
is not part of the sources at hand and is a parameter.  The warning written to
the standard output is not part of the result. -/
def check_dyadic (log2i : Int → Int) (params : enc_params) : Option (Except Diag enc_params) :=
  if params.ints IntField.dyadic_coding ≠ 0 then
    if params.ints IntField.num_reorder_pics = 2 then
      some (Except.ok (set_int params IntField.dyadic_coding 0))
    else
      match shl_one (log2i (params.ints IntField.num_reorder_pics + 1)) with
      | none => none
      | some v =>
        if params.ints IntField.num_reorder_pics + 1 ≠ v then fatalerror Diag.dyadic
        else some (Except.ok params)
  else some (Except.ok params)

/-- The statements of `check_parameters` that follow the dyadic block, from
`if (params->num_reorder_pics > 0 && params->max_num_ref < 2)` to the end. -/
def check_tail (MAX_SB_SIZE : Int) (params : enc_params) : Option (Except Diag enc_params) :=
  if params.ints IntField.num_reorder_pics > 0 ∧ params.ints IntField.max_num_ref < 2 then
    fatalerror Diag.reorder_ref
  else
    match c_rem (params.ints IntField.intra_period)
      (params.ints IntField.num_reorder_pics + 1) with
    | none => none
    | some r =>
      if r ≠ 0 then fatalerror Diag.intra_period
      else if params.ints IntField.sync ≠ 0 ∧ params.ints IntField.encoder_speed < 2 then
        fatalerror Diag.sync
      else if params.ints IntField.bitrate > 0 ∧ params.ints IntField.num_reorder_pics > 0 then
        fatalerror Diag.bitrate
      else if params.ints IntField.log2_sb_size < 6 ∨
          params.ints IntField.log2_sb_size > MAX_SB_SIZE then
        fatalerror Diag.log2_sb_size
      else if params.ints IntField.qmtx ≠ 0 ∧
          (params.ints IntField.qmtx_offset < -32 ∨ params.ints IntField.qmtx_offset > 31) then
        fatalerror Diag.qmtx_offset
      else if params.ints IntField.interp_ref = 2 ∧ params.ints IntField.dyadic_coding = 0 ∧
          params.ints IntField.num_reorder_pics ≠ 2 then
        fatalerror Diag.interp_ref
      else if params.ints IntField.subsample ≠ 420 ∧ params.ints IntField.subsample ≠ 444 ∧
          params.ints IntField.subsample ≠ 422 ∧ params.ints IntField.subsample ≠ 400 then
        fatalerror Diag.subsample
      else if params.ints IntField.bitdepth ≠ 8 ∧ params.ints IntField.bitdepth ≠ 10 ∧
          params.ints IntField.bitdepth ≠ 12 then
        fatalerror Diag.bitdepth
      else if params.ints IntField.input_bitdepth ≠ 8 ∧
          params.ints IntField.input_bitdepth ≠ 10 ∧
          params.ints IntField.input_bitdepth ≠ 12 then
        fatalerror Diag.input_bitdepth
      else if params.ints IntField.bitdepth > 8 then
        some (Except.ok (set_int params IntField.frame_bitdepth 16))
      else some (Except.ok params)

/-- The function `check_parameters`.  The constants `MAX_REF_FRAMES` and
`MAX_SB_SIZE` and the function `log2i` are not part of the sources at hand and
are parameters.  The result is `none` where an operation has no defined result
(see `c_rem`, `shl_one`), `Except.error d` for the call of `fatalerror` with the
message of `d`, and `Except.ok` with the structure at the return.  The sum
`num_reorder_pics+1` is exact (C leaves it undefined for `INT_MAX`). -/
def check_parameters (MAX_REF_FRAMES MAX_SB_SIZE : Int) (log2i : Int → Int)
    (params : enc_params) : Option (Except Diag enc_params) :=
  if params.ints IntField.num_frames ≤ 0 then fatalerror Diag.num_frames
  else if Int.tmod (params.ints IntField.width) 8 ≠ 0 ∨
      Int.tmod (params.ints IntField.height) 8 ≠ 0 then
    fatalerror Diag.width_height
  else if params.ints IntField.max_num_ref < 1 ∨ params.ints IntField.max_num_ref > 4 then
    fatalerror Diag.max_num_ref
  else if params.ints IntField.max_delta_qp ≥ 8 then fatalerror Diag.max_delta_qp
  else if params.ints IntField.HQperiod ≥ MAX_REF_FRAMES then fatalerror Diag.HQperiod
  else
    match subgop_cond params with
    | none => none
    | some true => fatalerror Diag.subgop
    | some false =>
      match check_dyadic log2i params with
      | none => none
      | some (Except.error d) => some (Except.error d)
      | some (Except.ok params1) => check_tail MAX_SB_SIZE params1

/-! ## The checks of `check_parameters` as conditions on the structure -/

/-- The condition, on the structure handed to `check_parameters`, under which
the check with diagnostic `d` is violated. -/
def violated (MAX_REF_FRAMES MAX_SB_SIZE : Int) (log2i : Int → Int) (p : enc_params) :
    Diag → Prop
  | Diag.num_frames => p.ints IntField.num_frames ≤ 0
  | Diag.width_height => ¬ (8 : Int) ∣ p.ints IntField.width ∨ ¬ (8 : Int) ∣ p.ints IntField.height
  | Diag.max_num_ref => p.ints IntField.max_num_ref < 1 ∨ 4 < p.ints IntField.max_num_ref
  | Diag.max_delta_qp => 8 ≤ p.ints IntField.max_delta_qp
  | Diag.HQperiod => MAX_REF_FRAMES ≤ p.ints IntField.HQperiod
  | Diag.subgop => 0 < p.ints IntField.num_reorder_pics ∧ 1 < p.ints IntField.HQperiod ∧
      ¬ (p.ints IntField.num_reorder_pics + 1) ∣ p.ints IntField.HQperiod
  | Diag.dyadic => p.ints IntField.dyadic_coding ≠ 0 ∧ p.ints IntField.num_reorder_pics ≠ 2 ∧
      shl_one (log2i (p.ints IntField.num_reorder_pics + 1)) ≠
        some (p.ints IntField.num_reorder_pics + 1)
  | Diag.reorder_ref => 0 < p.ints IntField.num_reorder_pics ∧ p.ints IntField.max_num_ref < 2
  | Diag.intra_period =>
      ¬ (p.ints IntField.num_reorder_pics + 1) ∣ p.ints IntField.intra_period
  | Diag.sync => p.ints IntField.sync ≠ 0 ∧ p.ints IntField.encoder_speed < 2
  | Diag.bitrate => 0 < p.ints IntField.bitrate ∧ 0 < p.ints IntField.num_reorder_pics
  | Diag.log2_sb_size => p.ints IntField.log2_sb_size < 6 ∨ MAX_SB_SIZE < p.ints IntField.log2_sb_size
  | Diag.qmtx_offset => p.ints IntField.qmtx ≠ 0 ∧
      (p.ints IntField.qmtx_offset < -32 ∨ 31 < p.ints IntField.qmtx_offset)
  | Diag.interp_ref => p.ints IntField.interp_ref = 2 ∧ p.ints IntField.dyadic_coding = 0 ∧
      p.ints IntField.num_reorder_pics ≠ 2
  | Diag.subsample => p.ints IntField.subsample ∉ ([420, 444, 422, 400] : List Int)
  | Diag.bitdepth => p.ints IntField.bitdepth ∉ ([8, 10, 12] : List Int)
  | Diag.input_bitdepth => p.ints IntField.input_bitdepth ∉ ([8, 10, 12] : List Int)

/-- The diagnostics in source order. -/
def Diag.order : List Diag :=
  [Diag.num_frames, Diag.width_height, Diag.max_num_ref, Diag.max_delta_qp, Diag.HQperiod,
   Diag.subgop, Diag.dyadic, Diag.reorder_ref, Diag.intra_period, Diag.sync, Diag.bitrate,
   Diag.log2_sb_size, Diag.qmtx_offset, Diag.interp_ref, Diag.subsample, Diag.bitdepth,
   Diag.input_bitdepth]

/-- The place of a diagnostic in the source order. -/
def Diag.index (d : Diag) : Nat := Diag.order.indexOf d

/-- The structure at the return of `check_parameters`, as the text describes
it: `dyadic_coding` cleared when it was set with `num_reorder_pics = 2`, and
`frame_bitdepth` forced to 16 when `bitdepth` exceeds 8. -/
def normalized (p : enc_params) : enc_params :=
  let p1 := if p.ints IntField.dyadic_coding ≠ 0 ∧ p.ints IntField.num_reorder_pics = 2 then
    set_int p IntField.dyadic_coding 0 else p
  if p.ints IntField.bitdepth > 8 then set_int p1 IntField.frame_bitdepth 16 else p1

/-- The remainder `intra_period % (num_reorder_pics+1)` has a defined value. -/
def rem_defined (p : enc_params) : Prop :=
  p.ints IntField.num_reorder_pics + 1 ≠ 0 ∧
    ¬ (p.ints IntField.intra_period = INT_MIN ∧ p.ints IntField.num_reorder_pics + 1 = -1)

/-- The structure of the defaults with `dyadic_coding = 0` and
`num_reorder_pics = -1` (command line `-dyadic_coding 0 -num_reorder_pics -1`). -/
def minus_one_params (CDEF : Bool) : enc_params :=
  set_int (set_int (default_params CDEF) IntField.dyadic_coding 0) IntField.num_reorder_pics (-1)

/-- The structure of the defaults with `num_reorder_pics = 2` and
`max_num_ref = 2`. -/
def reorder_two_params (CDEF : Bool) : enc_params :=
  set_int (set_int (default_params CDEF) IntField.num_reorder_pics 2) IntField.max_num_ref 2

/-- The structure of the defaults with `bitrate = -1`, `num_reorder_pics = 1`,
`max_num_ref = 2` and `dyadic_coding = 0`. -/
def negative_bitrate_params (CDEF : Bool) : enc_params :=
  set_int (set_int (set_int (set_int (default_params CDEF) IntField.bitrate (-1))
    IntField.num_reorder_pics 1) IntField.max_num_ref 2) IntField.dyadic_coding 0

/-- The structure of the defaults with `bitdepth = 10`. -/
def ten_bit_params (CDEF : Bool) : enc_params :=
  set_int (default_params CDEF) IntField.bitdepth 10

/-- The structure of the defaults with `num_reorder_pics = 2`, `max_num_ref = 2`
and `bitdepth = 10`. -/
def reorder_two_ten_bit_params (CDEF : Bool) : enc_params :=
  set_int (reorder_two_params CDEF) IntField.bitdepth 10

/-- The exact value of a symbolic `float`: the quotient `den/num` of the two
integers for `(float)den/num` with a non-zero `num`; the value of `atof` and a
division by zero are not modelled. -/
def FloatVal.exact : FloatVal → Option ℚ
  | FloatVal.zero => some 0
  | FloatVal.atof _ => none
  | FloatVal.div den num => if num = 0 then none else some ((den : ℚ) / (num : ℚ))

/-- A file system with the input file `in.y4m` whose header line has the field
`Ii` after the frame rate field. -/
def interlaced_y4m_fs (path : List Char) : Option (List Char) :=
  if path = "in.y4m".toList then
    some "YUV4MPEG2 W176 H144 F25:1 Ii A1:1 C420\nFRAME\nabcd".toList
  else none

/-- A file system with the input file `in.y4m` of 12 bytes, `YUV4MPEG2 W1`. -/
def short_y4m_fs (path : List Char) : Option (List Char) :=
  if path = "in.y4m".toList then some "YUV4MPEG2 W1".toList else none

/-- The tokens that the conversions of `read_config_file` find in a text when
their number is not limited, in order: up to the end of the text (`true`), or
up to the first conversion whose characters do not fit in `a` or `b`
(`false`).  The first argument bounds the number of iterations. -/
def token_stream : Nat → List Char → List (List Char) × Bool
  | 0, _ => ([], false)
  | fuel + 1, f =>
    match scan_quotes f with
    | none => ([], false)
    | some (ret2, f1) =>
      if ret2 = 0 then
        match scan_word f1 with
        | (ret, a, f2) =>
          if ret < 1 ∨ ret = -1 then ([], true)
          else if a.head? = some ';' then
            match scan_line f2 with
            | none => ([], false)
            | some f3 => token_stream fuel f3
          else (strcpy a :: (token_stream fuel f2).1, (token_stream fuel f2).2)
      else
        match scan_quoted f1 with
        | none => ([], false)
        | some (ret, a, f2) =>
          if ret < 1 ∨ ret = -1 then ([], true)
          else (strcpy a :: (token_stream fuel (scan_close f2)).1,
            (token_stream fuel (scan_close f2)).2)

/-- The tokens that a config text holds (see `token_stream`). -/
def tokens (f : List Char) : List (List Char) × Bool := token_stream (f.length + 1) f

/-! # Theorems -/

/-! ### Round trip of decimal notation through `strtol` and `atoi` -/

theorem digitChar_isdigit (d : Nat) (h : d < 10) :
    isdigit d.digitChar = true ∧ d.digitChar.toNat - 48 = d := by
  interval_cases d <;> decide

theorem isdigit_not_special (c : Char) (h : isdigit c = true) :
    isspace c = false ∧ c ≠ '-' ∧ c ≠ '+' ∧ c ≠ '\n' ∧ c ≠ ' ' ∧ c ≠ ':' ∧ c ≠ 'p' ∧ c ≠ NUL
      ∧ c ≠ ',' := by
  simp only [isdigit, Bool.and_eq_true, decide_eq_true_eq] at h
  have key : ∀ d : Char, d.toNat < 48 ∨ 57 < d.toNat → c ≠ d := by
    intro d hd hcd
    subst hcd
    omega
  refine ⟨?_, key _ (by decide), key _ (by decide), key _ (by decide), key _ (by decide),
    key _ (by decide), key _ (by decide), key _ (by decide), key _ (by decide)⟩
  simp only [isspace, Bool.or_eq_false_iff, decide_eq_false_iff_not]
  exact ⟨⟨⟨⟨⟨key _ (by decide), key _ (by decide)⟩, key _ (by decide)⟩, key _ (by decide)⟩,
    key _ (by decide)⟩, key _ (by decide)⟩

theorem dval_append_single (xs : List Char) (c : Char) :
    dval (xs ++ [c]) = dval xs * 10 + (c.toNat - 48) := by
  simp [dval, List.foldl_append]

theorem toDigitsCore_append (fuel n : Nat) (acc : List Char) :
    Nat.toDigitsCore 10 fuel n acc = Nat.toDigitsCore 10 fuel n [] ++ acc := by
  induction fuel generalizing n acc with
  | zero => simp [Nat.toDigitsCore]
  | succ f ih =>
    simp only [Nat.toDigitsCore]
    split
    · simp
    · rw [ih (n / 10) ((n % 10).digitChar :: acc), ih (n / 10) [(n % 10).digitChar]]
      simp

theorem toDigitsCore_spec (fuel n : Nat) (h : n < fuel) :
    (∀ c ∈ Nat.toDigitsCore 10 fuel n [], isdigit c = true) ∧
    dval (Nat.toDigitsCore 10 fuel n []) = n ∧ Nat.toDigitsCore 10 fuel n [] ≠ [] := by
  induction fuel generalizing n with
  | zero => omega
  | succ f ih =>
    have hd := digitChar_isdigit (n % 10) (Nat.mod_lt _ (by decide))
    simp only [Nat.toDigitsCore]
    split
    · rename_i h0
      refine ⟨by simpa using hd.1, ?_, by simp⟩
      have : dval [(n % 10).digitChar] = (n % 10).digitChar.toNat - 48 := by simp [dval]
      rw [this, hd.2]
      omega
    · rename_i h0
      have hlt : n / 10 < f := by omega
      obtain ⟨h1, h2, h3⟩ := ih (n / 10) hlt
      rw [toDigitsCore_append]
      refine ⟨?_, ?_, by simp⟩
      · intro c hc
        rcases List.mem_append.1 hc with hc | hc
        · exact h1 c hc
        · simp only [List.mem_singleton] at hc
          rw [hc]
          exact hd.1
      · rw [dval_append_single, h2, hd.2]
        omega

theorem toDigits_spec (n : Nat) :
    (∀ c ∈ Nat.toDigits 10 n, isdigit c = true) ∧ dval (Nat.toDigits 10 n) = n ∧
      Nat.toDigits 10 n ≠ [] :=
  toDigitsCore_spec (n + 1) n (Nat.lt_succ_self n)

theorem strtol_digits_append (ds rest : List Char) (hd : ∀ c ∈ ds, isdigit c = true)
    (acc k : Nat) :
    strtol_digits (ds ++ rest) acc k =
      strtol_digits rest (ds.foldl (fun a c => a * 10 + (c.toNat - 48)) acc) (k + ds.length) := by
  induction ds generalizing acc k with
  | nil => simp
  | cons d ds ih =>
    have h1 : isdigit d = true := hd d (List.mem_cons_self _ _)
    have h2 : ∀ c ∈ ds, isdigit c = true := fun c hc => hd c (List.mem_cons_of_mem _ hc)
    rw [List.cons_append]
    simp only [strtol_digits, h1, if_true, List.foldl_cons, List.length_cons]
    rw [ih h2]
    congr 1
    omega

/-- The conversion `strtol` reads back a decimal number that is followed by a non-digit. -/
theorem strtol_toDigits (n : Nat) (c : Char) (rest : List Char) (hc : isdigit c = false) :
    strtol (Nat.toDigits 10 n ++ c :: rest) =
      some (min LONG_MAX (n : Int), (Nat.toDigits 10 n).length) := by
  obtain ⟨h1, h2, h3⟩ := toDigits_spec n
  have hrun := strtol_digits_append (Nat.toDigits 10 n) (c :: rest) h1 0 0
  have hfold : (Nat.toDigits 10 n).foldl (fun a c => a * 10 + (c.toNat - 48)) 0 = n := h2
  rw [hfold] at hrun
  cases hds : Nat.toDigits 10 n with
  | nil => exact absurd hds h3
  | cons d ds =>
    rw [hds] at hrun h1
    obtain ⟨hs, hm, hp, _⟩ := isdigit_not_special d (h1 d (List.mem_cons_self _ _))
    simp only [List.cons_append] at hrun
    rw [List.cons_append]
    simp only [strtol, strtol_from, hs, strtol_sign, hm, hp, if_false, Bool.false_eq_true]
    rw [hrun]
    simp [strtol_digits, hc]

/-- The conversion `strtol` reads back a negative decimal number. -/
theorem strtol_neg_toDigits (n : Nat) (c : Char) (rest : List Char) (hc : isdigit c = false) :
    strtol ('-' :: (Nat.toDigits 10 n ++ c :: rest)) =
      some (max LONG_MIN (-(n : Int)), (Nat.toDigits 10 n).length + 1) := by
  obtain ⟨h1, h2, h3⟩ := toDigits_spec n
  have hrun := strtol_digits_append (Nat.toDigits 10 n) (c :: rest) h1 0 0
  have hfold : (Nat.toDigits 10 n).foldl (fun a c => a * 10 + (c.toNat - 48)) 0 = n := h2
  rw [hfold] at hrun
  have hlen : (Nat.toDigits 10 n).length ≠ 0 := by
    intro h0
    exact h3 (List.length_eq_zero.1 h0)
  have hsp : isspace '-' = false := by decide
  simp only [strtol, strtol_from, hsp, strtol_sign, if_true, hrun]
  simp [strtol_digits, hc, hlen]

theorem to_int_of_range (a : Int) (h1 : INT_MIN ≤ a) (h2 : a ≤ INT_MAX) : to_int a = a := by
  simp only [INT_MIN, INT_MAX] at h1 h2
  simp only [to_int]
  omega

/-- The conversion `atoi` reads back every `int` written in decimal. -/
theorem atoi_int_token (a : Int) (h1 : INT_MIN ≤ a) (h2 : a ≤ INT_MAX) :
    atoi (int_token a) = a := by
  have hn : isdigit NUL = false := by decide
  have g1 := h1
  have g2 := h2
  simp only [INT_MIN, INT_MAX] at g1 g2
  by_cases ha : a < 0
  · have h := strtol_neg_toDigits a.natAbs NUL [] hn
    simp only [atoi, int_token, ha, if_true, List.cons_append, h]
    have e : max LONG_MIN (-((a.natAbs : Nat) : Int)) = a := by
      simp only [LONG_MIN]
      omega
    rw [e]
    exact to_int_of_range a h1 h2
  · have h := strtol_toDigits a.natAbs NUL [] hn
    simp only [atoi, int_token, ha, if_false, h]
    have e : min LONG_MAX ((a.natAbs : Nat) : Int) = a := by
      simp only [LONG_MAX]
      omega
    rw [e]
    exact to_int_of_range a h1 h2

/-! ### The argument loop -/

theorem argv_tokens_map_some (o : Option (List Char)) (l : List (List Char)) :
    argv_tokens (l.length + 1) (o :: l.map some) = some l := by
  have h : ∀ l : List (List Char), (l.map some).foldr
      (fun o acc => match o, acc with
        | some t, some l => some (t :: l)
        | _, _ => none) (some []) = some l := by
    intro l
    induction l with
    | nil => rfl
    | cons a t ih => simp only [List.map_cons, List.foldr_cons, ih]
  simp only [argv_tokens, List.length_cons, List.length_map, le_refl, if_true]
  rw [List.take_of_length_le (by simp)]
  exact h l

/-- A loop body that ends without error and without a value token does the
same whatever token follows the flag. -/
theorem parse_arg_none (fs : List Char → Option (List Char))
    (inc : Nat → List (Option (List Char)) → enc_params → Option (Int × enc_params))
    (list : List param_desc) (a : List Char) (p q : enc_params) (r : Int) (u : Bool)
    (h : parse_arg fs inc list a none p = some (r, u, q)) (hr : ¬ r < 0) (val : Option (List Char)) :
    parse_arg fs inc list a val p = some (r, false, q) := by
  unfold parse_arg at h ⊢
  cases hf : find_param list a with
  | none =>
    simp only [hf, Option.some.injEq, Prod.mk.injEq] at h
    omega
  | some d =>
    simp only [hf] at h ⊢
    by_cases h0 : d.type = ARG_FILENAME
    · rw [if_pos h0] at h
      simp only [Option.some.injEq, Prod.mk.injEq] at h
      omega
    rw [if_neg h0] at h ⊢
    by_cases h4 : d.type = ARG_INTLIST
    · rw [if_pos h4] at h
      simp only [Option.some.injEq, Prod.mk.injEq] at h
      omega
    rw [if_neg h4] at h ⊢
    by_cases h1 : d.type = ARG_INTEGER
    · rw [if_pos h1] at h
      simp only [Option.some.injEq, Prod.mk.injEq] at h
      omega
    rw [if_neg h1] at h ⊢
    by_cases h2 : d.type = ARG_FLOAT
    · rw [if_pos h2] at h
      simp only [Option.some.injEq, Prod.mk.injEq] at h
      omega
    rw [if_neg h2] at h ⊢
    by_cases h3 : d.type = ARG_NONE
    · rw [if_pos h3] at h ⊢
      cases hs : store_int d.value 0 1 p with
      | none => simp [hs] at h
      | some p1 =>
        simp only [hs, Option.some.injEq, Prod.mk.injEq] at h ⊢
        exact ⟨h.1, trivial, h.2.2⟩
    · rw [if_neg h3] at h ⊢
      simp only [Option.some.injEq, Prod.mk.injEq] at h ⊢
      exact ⟨h.1, trivial, h.2.2⟩

/-- Sequencing: when a block of arguments parses to the end without error, the
parse of the block followed by more arguments continues with the latter from
the state the block leaves. -/
theorem parse_loop_append (fs : List Char → Option (List Char))
    (inc : Nat → List (Option (List Char)) → enc_params → Option (Int × enc_params))
    (list : List param_desc) (rest : List (List Char)) :
    ∀ (n : Nat) (pre : List (List Char)) (p p1 : enc_params), pre.length ≤ n →
      parse_loop fs inc list pre p = some (0, p1) →
      parse_loop fs inc list (pre ++ rest) p = parse_loop fs inc list rest p1 := by
  intro n
  induction n with
  | zero =>
    intro pre p p1 hn h
    have : pre = [] := List.length_eq_zero.1 (Nat.le_zero.1 hn)
    subst this
    simp only [parse_loop, Option.some.injEq, Prod.mk.injEq, true_and] at h
    subst h
    rfl
  | succ n ih =>
    intro pre p p1 hn h
    match pre, hn, h with
    | [], _, h =>
      simp only [parse_loop, Option.some.injEq, Prod.mk.injEq, true_and] at h
      subst h
      rfl
    | [a], _, h =>
      rw [parse_loop] at h
      cases hp : parse_arg fs inc list a none p with
      | none => simp [hp] at h
      | some x =>
        obtain ⟨r, u, q⟩ := x
        simp only [hp] at h
        by_cases hr : r < 0
        · simp [hr] at h
        · simp only [hr, if_false, Option.some.injEq, Prod.mk.injEq, true_and] at h
          subst h
          cases rest with
          | nil =>
            simp only [List.append_nil, parse_loop, hp, hr, if_false]
          | cons v rest1 =>
            have hv := parse_arg_none fs inc list a p q r u hp hr (some v)
            simp [parse_loop, hv, hr]
    | a :: v :: t, hn, h =>
      rw [parse_loop] at h
      simp only [List.cons_append]
      rw [parse_loop]
      cases hp : parse_arg fs inc list a (some v) p with
      | none => simp [hp] at h
      | some x =>
        obtain ⟨r, u, q⟩ := x
        simp only [hp] at h ⊢
        by_cases hr : r < 0
        · simp [hr] at h
        · simp only [hr, if_false] at h ⊢
          cases u with
          | true =>
            simp only [if_true] at h ⊢
            exact ih t q p1 (by simp at hn; omega) h
          | false =>
            simp only [Bool.false_eq_true, if_false] at h ⊢
            exact ih (v :: t) q p1 (by simp at hn ⊢; omega) h

theorem default_args_eq (list : List param_desc) :
    default_args list = (pair_tokens (default_pairs list)).map some := by
  induction list with
  | nil => rfl
  | cons d l ih =>
    cases hd : d.default_string with
    | none => simp only [default_args, default_pairs, hd, ih]
    | some t => simp only [default_args, default_pairs, hd, ih, pair_tokens, List.map_cons]

theorem find_param_some (list : List param_desc) (nm : List Char) (d : param_desc)
    (h : find_param list nm = some d) : d ∈ list ∧ d.name = nm := by
  unfold find_param at h
  refine ⟨List.mem_of_find?_eq_some h, ?_⟩
  have := List.find?_some h
  simp only [decide_eq_true_eq] at this
  exact this.symm

/-- The loop body on a `-flag value` pair of kind Integer or Float. -/
theorem parse_arg_value (fs : List Char → Option (List Char))
    (inc : Nat → List (Option (List Char)) → enc_params → Option (Int × enc_params))
    (list : List param_desc) (nm tok : List Char) (p : enc_params)
    (h : is_value_flag list nm = true) :
    parse_arg fs inc list nm (some tok) p = some (0, true, assign list p (nm, tok)) := by
  have e1 : ¬ ARG_INTEGER = ARG_FILENAME := by decide
  have e2 : ¬ ARG_INTEGER = ARG_INTLIST := by decide
  have e3 : ¬ ARG_FLOAT = ARG_FILENAME := by decide
  have e4 : ¬ ARG_FLOAT = ARG_INTLIST := by decide
  have e5 : ¬ ARG_FLOAT = ARG_INTEGER := by decide
  have e6 : ¬ ARG_INTEGER = ARG_FLOAT := by decide
  unfold is_value_flag at h
  unfold parse_arg assign
  cases hf : find_param list nm with
  | none => simp [hf] at h
  | some d =>
    simp only [hf] at h ⊢
    by_cases h1 : d.type = ARG_INTEGER
    · rw [h1, if_neg e1, if_neg e2, if_pos rfl, if_pos rfl]
      cases hv : d.value with
      | int f => simp [store_int]
      | null => simp [h1, hv, e6] at h
      | str g => simp [h1, hv, e6] at h
      | float g => simp [h1, hv, e6] at h
      | intlist g => simp [h1, hv, e6] at h
    · have h2 : d.type = ARG_FLOAT := by
        by_contra h2
        simp [h1, h2] at h
      rw [h2, if_neg e3, if_neg e4, if_neg e5, if_pos rfl, if_neg e5, if_pos rfl]
      cases hv : d.value with
      | float f => simp [store_float]
      | null => simp [h1, hv] at h
      | str g => simp [h1, hv] at h
      | int g => simp [h1, hv] at h
      | intlist g => simp [h1, hv] at h

/-- A sequence of `-flag value` pairs of kind Integer or Float parses without
error and performs the assignments of the pairs from left to right. -/
theorem parse_loop_pairs (fs : List Char → Option (List Char))
    (inc : Nat → List (Option (List Char)) → enc_params → Option (Int × enc_params))
    (list : List param_desc) (pairs : List (List Char × List Char))
    (h : ∀ x ∈ pairs, is_value_flag list x.1 = true) (p : enc_params) :
    parse_loop fs inc list (pair_tokens pairs) p = some (0, pairs.foldl (assign list) p) := by
  induction pairs generalizing p with
  | nil => rfl
  | cons x l ih =>
    have hx := parse_arg_value fs inc list x.1 x.2 p (h x (List.mem_cons_self _ _))
    have hl : ∀ y ∈ l, is_value_flag list y.1 = true := fun y hy => h y (List.mem_cons_of_mem _ hy)
    simp only [pair_tokens, parse_loop, hx, List.foldl_cons]
    simpa using ih hl (assign list p x)

theorem assign_strs (list : List param_desc) (p : enc_params) (x : List Char × List Char) :
    (assign list p x).strs = p.strs := by
  unfold assign
  split
  · split
    · split <;> rfl
    · split
      · split <;> rfl
      · rfl
  · rfl

theorem foldl_assign_strs (list : List param_desc) (pairs : List (List Char × List Char))
    (p : enc_params) : (pairs.foldl (assign list) p).strs = p.strs := by
  induction pairs generalizing p with
  | nil => rfl
  | cons x l ih => rw [List.foldl_cons, ih, assign_strs]

theorem hits_iff (list : List param_desc) (f : IntField) (nm : List Char) :
    hits list f nm = true ↔
      ∃ d, find_param list nm = some d ∧ d.type = ARG_INTEGER ∧ d.value = Dest.int f := by
  unfold hits
  cases hf : find_param list nm with
  | none => simp
  | some d => simp

theorem assign_ints (list : List param_desc) (p : enc_params) (x : List Char × List Char)
    (f : IntField) :
    (assign list p x).ints f = if hits list f x.1 = true then atoi x.2 else p.ints f := by
  by_cases hh : hits list f x.1 = true
  · rw [if_pos hh]
    obtain ⟨d, hf, ht, hv⟩ := (hits_iff list f x.1).1 hh
    unfold assign
    simp only [hf]
    rw [if_pos ht]
    simp [hv, set_int]
  · rw [if_neg hh]
    unfold assign
    cases hf : find_param list x.1 with
    | none => rfl
    | some d =>
      simp only []
      by_cases ht : d.type = ARG_INTEGER
      · rw [if_pos ht]
        cases hv : d.value with
        | int g =>
          have hne : f ≠ g := by
            intro e
            subst e
            exact hh ((hits_iff list f x.1).2 ⟨d, hf, ht, hv⟩)
          simp [set_int, Function.update, hne]
        | null => rfl
        | str g => rfl
        | float g => rfl
        | intlist g => rfl
      · rw [if_neg ht]
        by_cases ht2 : d.type = ARG_FLOAT
        · rw [if_pos ht2]
          cases hv : d.value <;> rfl
        · rw [if_neg ht2]

/-- Later writes win: after the assignments of a sequence of pairs, an `int`
member holds the value of the last pair that assigns it, and its old value
when there is none. -/
theorem foldl_assign_ints (list : List param_desc) (f : IntField)
    (pairs : List (List Char × List Char)) (p : enc_params) :
    (pairs.foldl (assign list) p).ints f =
      match last_by (hits list f) pairs with
      | some t => atoi t
      | none => p.ints f := by
  induction pairs generalizing p with
  | nil => rfl
  | cons x l ih =>
    rw [List.foldl_cons, ih, last_by]
    cases hl : last_by (hits list f) l with
    | some t => rfl
    | none =>
      simp only []
      rw [assign_ints]
      by_cases hh : hits list f x.1 = true
      · simp [hh]
      · simp [hh]

theorem last_by_congr {α : Type} (P Q : List Char → Bool) (pairs : List (List Char × α))
    (h : ∀ x ∈ pairs, P x.1 = Q x.1) : last_by P pairs = last_by Q pairs := by
  induction pairs with
  | nil => rfl
  | cons x l ih =>
    rw [last_by, last_by, ih (fun y hy => h y (List.mem_cons_of_mem _ hy)),
      h x (List.mem_cons_self _ _)]

theorem last_by_map {α β : Type} (P : List Char → Bool) (g : α → β)
    (pairs : List (List Char × α)) :
    last_by P (pairs.map (fun x => (x.1, g x.2))) = (last_by P pairs).map g := by
  induction pairs with
  | nil => rfl
  | cons x l ih =>
    rw [List.map_cons, last_by, last_by, ih]
    cases last_by P l with
    | some t => rfl
    | none =>
      by_cases hp : P x.1 = true
      · simp [hp]
      · simp [hp]

theorem last_by_mem {α : Type} (P : List Char → Bool) (pairs : List (List Char × α)) (t : α)
    (h : last_by P pairs = some t) : ∃ x ∈ pairs, x.2 = t := by
  induction pairs with
  | nil => simp [last_by] at h
  | cons x l ih =>
    rw [last_by] at h
    cases hl : last_by P l with
    | some u =>
      rw [hl] at h
      simp only [Option.some.injEq] at h
      obtain ⟨y, hy, e⟩ := ih (by rw [hl, h])
      exact ⟨y, List.mem_cons_of_mem _ hy, e⟩
    | none =>
      rw [hl] at h
      by_cases hp : P x.1 = true
      · simp only [hp, if_true, Option.some.injEq] at h
        exact ⟨x, List.mem_cons_self _ _, h⟩
      · simp [hp] at h

theorem parse_params_eq (fs : List Char → Option (List Char)) (depth argc : Nat)
    (argv : List (Option (List Char))) (p : enc_params) (list : List param_desc) :
    parse_params fs depth argc argv p list =
      match argv_tokens argc argv with
      | none => none
      | some ts => parse_loop fs (include_call fs list depth) list ts p := by
  cases depth <;> rfl

/-- The function `parse_params` on an argument vector all of whose strings are present. -/
theorem parse_params_tokens (fs : List Char → Option (List Char)) (depth : Nat)
    (o : Option (List Char)) (ts : List (List Char)) (p : enc_params) (list : List param_desc) :
    parse_params fs depth (ts.length + 1) (o :: ts.map some) p list =
      parse_loop fs (include_call fs list depth) list ts p := by
  rw [parse_params_eq, argv_tokens_map_some]

theorem pair_tokens_length (pairs : List (List Char × List Char)) :
    (pair_tokens pairs).length = 2 * pairs.length := by
  induction pairs with
  | nil => rfl
  | cons x l ih =>
    simp only [pair_tokens, List.length_cons, ih]
    omega

theorem is_int_flag_value (list : List param_desc) (nm : List Char)
    (h : is_int_flag list nm = true) : is_value_flag list nm = true := by
  unfold is_int_flag at h
  unfold is_value_flag
  cases hf : find_param list nm with
  | none => simp [hf] at h
  | some d =>
    simp only [hf] at h ⊢
    rw [h]
    rfl

/-! ### Facts about the registry of `parse_config_params` -/

set_option maxRecDepth 100000 in
theorem table_find (CDEF : Bool) :
    ∀ d ∈ param_table CDEF, find_param (param_table CDEF) d.name = some d := by
  cases CDEF <;> decide

set_option maxRecDepth 100000 in
theorem table_inj (CDEF : Bool) : ∀ d ∈ param_table CDEF, ∀ e ∈ param_table CDEF,
    d.value = e.value → d.value ≠ Dest.null → d = e := by
  cases CDEF <;> decide

set_option maxRecDepth 100000 in
theorem table_defaults_valued (CDEF : Bool) :
    ∀ x ∈ default_pairs (param_table CDEF), is_value_flag (param_table CDEF) x.1 = true := by
  cases CDEF <;> decide

set_option maxRecDepth 100000 in
theorem table_default_last (CDEF : Bool) : ∀ d ∈ param_table CDEF,
    last_value d.name (default_pairs (param_table CDEF)) = d.default_string := by
  cases CDEF <;> decide

set_option maxRecDepth 100000 in
theorem table_int_default (CDEF : Bool) : ∀ d ∈ param_table CDEF,
    d.type = ARG_INTEGER → d.default_string.isSome = true := by
  cases CDEF <;> decide

/-- In the registry, the flags that assign an `int` member are exactly the ones
spelled as the (unique) entry of that member. -/
theorem hits_table (CDEF : Bool) (d : param_desc) (hd : d ∈ param_table CDEF)
    (ht : d.type = ARG_INTEGER) (f : IntField) (hv : d.value = Dest.int f) (nm : List Char) :
    hits (param_table CDEF) f nm = decide (nm = d.name) := by
  rw [Bool.eq_iff_iff, hits_iff, decide_eq_true_eq]
  constructor
  · rintro ⟨e, hf, _, he⟩
    obtain ⟨hmem, hname⟩ := find_param_some _ _ _ hf
    have hde : d = e := table_inj CDEF d hd e hmem (by rw [hv, he]) (by rw [hv]; exact fun h => by cases h)
    rw [hde, hname]
  · intro hnm
    exact ⟨d, by rw [hnm]; exact table_find CDEF d hd, ht, hv⟩

/-- The parameters after the pass over the defaults and the pass over a command
line made of `-flag value` pairs of kind Integer or Float (no input file). -/
theorem parse_config_params_pairs (CDEF : Bool) (fs : List Char → Option (List Char))
    (depth : Nat) (tp : List (List Char × List Char))
    (h : ∀ x ∈ tp, is_value_flag (param_table CDEF) x.1 = true) :
    parse_config_params CDEF fs depth (2 * tp.length + 1) (command_line (pair_tokens tp)) =
      some (some (tp.foldl (assign (param_table CDEF))
        ((default_pairs (param_table CDEF)).foldl (assign (param_table CDEF))
          (set_int (set_int zero_params IntField.aspectnum 1) IntField.aspectden 1)))) := by
  have h1 := parse_params_tokens fs depth none (pair_tokens (default_pairs (param_table CDEF)))
    (set_int (set_int zero_params IntField.aspectnum 1) IntField.aspectden 1) (param_table CDEF)
  rw [parse_loop_pairs _ _ _ _ (table_defaults_valued CDEF)] at h1
  have h2 := parse_params_tokens fs depth (some "enc".toList) (pair_tokens tp)
    ((default_pairs (param_table CDEF)).foldl (assign (param_table CDEF))
      (set_int (set_int zero_params IntField.aspectnum 1) IntField.aspectden 1)) (param_table CDEF)
  rw [parse_loop_pairs _ _ _ _ h, pair_tokens_length] at h2
  unfold parse_config_params
  simp only [default_args_eq, List.length_cons, List.length_map, command_line, h1, h2]
  simp [foldl_assign_strs, set_int, zero_params]

/-! ## C1: defaults first, overrides afterwards, later writes win -/

/-- C1: for every command line made only of `-flag value` pairs for registered
Integer flags, each value an `int` written in decimal, `parse_config_params`
returns a parameter structure in which the destination of every Integer entry
of the registry holds the value of the last pair that names the entry, and the
value of the default string of the entry when no pair names it. -/
theorem C1_defaults_then_overrides (CDEF : Bool) (fs : List Char → Option (List Char))
    (depth : Nat) (pairs : List (List Char × Int))
    (hflag : ∀ x ∈ pairs, is_int_flag (param_table CDEF) x.1 = true)
    (hval : ∀ x ∈ pairs, INT_MIN ≤ x.2 ∧ x.2 ≤ INT_MAX) :
    ∃ p, parse_config_params CDEF fs depth (2 * pairs.length + 1)
        (command_line (pair_tokens (pairs.map (fun x => (x.1, int_token x.2))))) = some (some p) ∧
      ∀ d ∈ param_table CDEF, d.type = ARG_INTEGER → ∀ f, d.value = Dest.int f →
        ∃ s, d.default_string = some s ∧
          p.ints f = (last_value d.name pairs).getD (atoi s) := by
  have hv : ∀ x ∈ pairs.map (fun x => (x.1, int_token x.2)),
      is_value_flag (param_table CDEF) x.1 = true := by
    intro x hx
    obtain ⟨y, hy, rfl⟩ := List.mem_map.1 hx
    exact is_int_flag_value _ _ (hflag y hy)
  have hp := parse_config_params_pairs CDEF fs depth _ hv
  rw [List.length_map] at hp
  refine ⟨_, hp, ?_⟩
  intro d hd ht f hf
  have hsome := table_int_default CDEF d hd ht
  cases hs : d.default_string with
  | none => simp [hs] at hsome
  | some s =>
    refine ⟨s, rfl, ?_⟩
    have hfun : hits (param_table CDEF) f = fun a => decide (a = d.name) :=
      funext (hits_table CDEF d hd ht f hf)
    rw [foldl_assign_ints, foldl_assign_ints, hfun, last_by_map]
    have hdef := table_default_last CDEF d hd
    unfold last_value at hdef ⊢
    rw [hdef, hs]
    cases hl : last_by (fun a => decide (a = d.name)) pairs with
    | none => rfl
    | some v =>
      obtain ⟨x, hx, e⟩ := last_by_mem _ _ _ hl
      have hr := hval x hx
      rw [e] at hr
      simp only [Option.map_some', Option.getD_some]
      exact atoi_int_token v hr.1 hr.2

/-- Witness of C1: `-width 100 -n 5 -width 640` gives width 640 and 5 frames and
leaves the height at its default 1080. -/
theorem C1_defaults_then_overrides_witness :
    ∃ p, parse_config_params true (fun _ => none) 0 7
        (command_line ["-width".toList, "100".toList, "-n".toList, "5".toList,
          "-width".toList, "640".toList]) = some (some p) ∧
      p.ints IntField.width = 640 ∧ p.ints IntField.num_frames = 5 ∧
      p.ints IntField.height = 1080 := by
  obtain ⟨p, hp, h⟩ := C1_defaults_then_overrides true (fun _ => none) 0
    [("-width".toList, 100), ("-n".toList, 5), ("-width".toList, 640)]
    (by decide) (by decide)
  refine ⟨p, hp, ?_, ?_, ?_⟩
  · obtain ⟨s, hs, e⟩ := h ⟨"-width".toList, some "1920".toList, ARG_INTEGER,
      Dest.int IntField.width⟩ (by decide) rfl IntField.width rfl
    rw [e]
    rfl
  · obtain ⟨s, hs, e⟩ := h ⟨"-n".toList, some "600".toList, ARG_INTEGER,
      Dest.int IntField.num_frames⟩ (by decide) rfl IntField.num_frames rfl
    rw [e]
    rfl
  · obtain ⟨s, hs, e⟩ := h ⟨"-height".toList, some "1080".toList, ARG_INTEGER,
      Dest.int IntField.height⟩ (by decide) rfl IntField.height rfl
    rw [e]
    simp only [Option.some.injEq] at hs
    rw [← hs]
    rfl

/-- The pass of `parse_config_params` over the defaults ends without error in
the state `default_params`. -/
theorem default_pass (CDEF : Bool) (fs : List Char → Option (List Char)) (depth : Nat) :
    parse_params fs depth (none :: default_args (param_table CDEF)).length
      (none :: default_args (param_table CDEF)) initial_params (param_table CDEF) =
      some (0, default_params CDEF) := by
  have h1 := parse_params_tokens fs depth none (pair_tokens (default_pairs (param_table CDEF)))
    initial_params (param_table CDEF)
  rw [parse_loop_pairs _ _ _ _ (table_defaults_valued CDEF)] at h1
  simp only [default_args_eq, List.length_cons, List.length_map]
  exact h1

/-- The function `parse_config_params` in terms of the pass over the command
line from the state `default_params`. -/
theorem parse_config_params_eq (CDEF : Bool) (fs : List Char → Option (List Char))
    (depth argc : Nat) (argv : List (Option (List Char))) :
    parse_config_params CDEF fs depth argc argv =
      match parse_params fs depth argc argv (default_params CDEF) (param_table CDEF) with
      | none => none
      | some (r, params2) =>
        if r < 0 then some none
        else
          match params2.strs StrField.infilestr with
          | none => some (some params2)
          | some path =>
            match fs path with
            | none => some (some params2)
            | some data => y4m_probe data params2 := by
  have h := default_pass CDEF fs depth
  unfold parse_config_params
  simp only [initial_params] at h
  simp only [h]

theorem find_param_none (list : List param_desc) (tok : List Char)
    (h : ∀ d ∈ list, d.name ≠ tok) : find_param list tok = none := by
  unfold find_param
  rw [List.find?_eq_none]
  intro d hd
  simp only [decide_eq_true_eq]
  exact fun e => h d hd e.symm

/-! ## C2: a token that is not a registered name is rejected -/

/-- C2: when the tokens before it parse to the end without error, a token in
flag position that differs from every registered name makes `parse_params`
return `-1` (leaving the parameters as the preceding tokens set them), and, for
the registry and default state of `parse_config_params`, makes
`parse_config_params` return `NULL`. -/
theorem C2_unknown_flag_rejected (fs : List Char → Option (List Char)) (depth : Nat)
    (list : List param_desc) (p p1 : enc_params) (pre post : List (List Char)) (tok : List Char)
    (hpre : parse_params fs depth (pre.length + 1) (command_line pre) p list = some (0, p1))
    (hunk : ∀ d ∈ list, d.name ≠ tok) :
    parse_params fs depth ((pre ++ tok :: post).length + 1) (command_line (pre ++ tok :: post))
        p list = some (-1, p1) ∧
      ∀ CDEF, list = param_table CDEF → p = default_params CDEF →
        parse_config_params CDEF fs depth ((pre ++ tok :: post).length + 1)
          (command_line (pre ++ tok :: post)) = some none := by
  have hfind := find_param_none list tok hunk
  unfold command_line at hpre ⊢
  rw [parse_params_tokens] at hpre
  have key : parse_params fs depth ((pre ++ tok :: post).length + 1)
      (some "enc".toList :: (pre ++ tok :: post).map some) p list = some (-1, p1) := by
    rw [parse_params_tokens, parse_loop_append fs _ list (tok :: post) pre.length pre p p1
      (le_refl _) hpre]
    cases post with
    | nil => simp [parse_loop, parse_arg, hfind]
    | cons v t => simp [parse_loop, parse_arg, hfind]
  refine ⟨key, ?_⟩
  intro CDEF hl hp
  subst hl hp
  rw [parse_config_params_eq]
  simp only [command_line, key]
  rfl

/-- Witness of C2: after `-width 100` the tokens `-w`, `-widthx` and `-WIDTH`
are rejected. -/
theorem C2_unknown_flag_rejected_witness :
    parse_params (fun _ => none) 0 4
        (command_line ["-width".toList, "100".toList, "-w".toList])
        (default_params true) (param_table true) =
        some (-1, set_int (default_params true) IntField.width 100) ∧
      parse_config_params true (fun _ => none) 0 4
        (command_line ["-width".toList, "100".toList, "-w".toList]) = some none ∧
      parse_config_params true (fun _ => none) 0 4
        (command_line ["-width".toList, "100".toList, "-widthx".toList]) = some none ∧
      parse_config_params true (fun _ => none) 0 4
        (command_line ["-width".toList, "100".toList, "-WIDTH".toList]) = some none := by
  have h := fun tok => C2_unknown_flag_rejected (fun _ => none) 0 (param_table true)
    (default_params true) (set_int (default_params true) IntField.width 100)
    ["-width".toList, "100".toList] [] tok rfl
  exact ⟨(h "-w".toList (by decide)).1, (h "-w".toList (by decide)).2 true rfl rfl,
    (h "-widthx".toList (by decide)).2 true rfl rfl, (h "-WIDTH".toList (by decide)).2 true rfl rfl⟩

/-! ## C3: a value-taking flag without a value is rejected -/

/-- C3: when the tokens before it parse to the end without error, a last token
that is the name of a registered entry of kind String (filename), Integer,
Float or IntegerList makes `parse_params` return `-1`, while one that names an
entry of kind Flag (whose destination is an `int`) makes it store 1 there and
return `0`. -/
theorem C3_missing_value_rejected (fs : List Char → Option (List Char)) (depth : Nat)
    (list : List param_desc) (p p1 : enc_params) (pre : List (List Char)) (flag : List Char)
    (d : param_desc)
    (hpre : parse_params fs depth (pre.length + 1) (command_line pre) p list = some (0, p1))
    (hd : find_param list flag = some d) :
    (d.type = ARG_FILENAME ∨ d.type = ARG_INTEGER ∨ d.type = ARG_FLOAT ∨ d.type = ARG_INTLIST →
      parse_params fs depth ((pre ++ [flag]).length + 1) (command_line (pre ++ [flag])) p list =
        some (-1, p1)) ∧
    (d.type = ARG_NONE → ∀ p2, store_int d.value 0 1 p1 = some p2 →
      parse_params fs depth ((pre ++ [flag]).length + 1) (command_line (pre ++ [flag])) p list =
        some (0, p2)) := by
  unfold command_line at hpre ⊢
  rw [parse_params_tokens] at hpre
  rw [parse_params_tokens, parse_loop_append fs _ list [flag] pre.length pre p p1
    (le_refl _) hpre]
  have e0 : ¬ ARG_NONE = ARG_FILENAME := by decide
  have e1 : ¬ ARG_NONE = ARG_INTLIST := by decide
  have e2 : ¬ ARG_NONE = ARG_INTEGER := by decide
  have e3 : ¬ ARG_NONE = ARG_FLOAT := by decide
  constructor
  · intro ht
    simp only [parse_loop, parse_arg, hd]
    by_cases h0 : d.type = ARG_FILENAME
    · simp [h0]
    rw [if_neg h0]
    by_cases h4 : d.type = ARG_INTLIST
    · simp [h4]
    rw [if_neg h4]
    by_cases h1 : d.type = ARG_INTEGER
    · simp [h1]
    rw [if_neg h1]
    by_cases h2 : d.type = ARG_FLOAT
    · simp [h2]
    · rcases ht with h | h | h | h <;> contradiction
  · intro ht p2 hs
    simp only [parse_loop, parse_arg, hd]
    rw [ht, if_neg e0, if_neg e1, if_neg e2, if_neg e3, if_pos rfl, hs]
    simp

/-- Witness of C3: after `-width 100`, a final `-height` (Integer), `-if`
(String) or `-f` (Float) is rejected; with a registry that has a Flag entry
`-verbose` and an IntegerList entry `-list`, a final `-list` is rejected and a
final `-verbose` is accepted and sets its destination to 1. -/
theorem C3_missing_value_rejected_witness :
    parse_params (fun _ => none) 0 4
        (command_line ["-width".toList, "100".toList, "-height".toList])
        (default_params true) (param_table true) =
        some (-1, set_int (default_params true) IntField.width 100) ∧
      parse_params (fun _ => none) 0 4
        (command_line ["-width".toList, "100".toList, "-if".toList])
        (default_params true) (param_table true) =
        some (-1, set_int (default_params true) IntField.width 100) ∧
      parse_params (fun _ => none) 0 4
        (command_line ["-width".toList, "100".toList, "-f".toList])
        (default_params true) (param_table true) =
        some (-1, set_int (default_params true) IntField.width 100) ∧
      parse_params (fun _ => none) 0 2 (command_line ["-list".toList]) zero_params
        [⟨"-verbose".toList, none, ARG_NONE, Dest.int IntField.snrcalc⟩,
         ⟨"-list".toList, none, ARG_INTLIST, Dest.intlist 0 4⟩] = some (-1, zero_params) ∧
      parse_params (fun _ => none) 0 2 (command_line ["-verbose".toList]) zero_params
        [⟨"-verbose".toList, none, ARG_NONE, Dest.int IntField.snrcalc⟩,
         ⟨"-list".toList, none, ARG_INTLIST, Dest.intlist 0 4⟩] =
        some (0, set_int zero_params IntField.snrcalc 1) := by
  have h := fun flag d => C3_missing_value_rejected (fun _ => none) 0 (param_table true)
    (default_params true) (set_int (default_params true) IntField.width 100)
    ["-width".toList, "100".toList] flag d rfl
  have g := fun flag d => C3_missing_value_rejected (fun _ => none) 0
    [⟨"-verbose".toList, none, ARG_NONE, Dest.int IntField.snrcalc⟩,
     ⟨"-list".toList, none, ARG_INTLIST, Dest.intlist 0 4⟩]
    zero_params zero_params [] flag d rfl
  exact ⟨(h "-height".toList ⟨"-height".toList, some "1080".toList, ARG_INTEGER,
      Dest.int IntField.height⟩ (by decide)).1 (by decide),
    (h "-if".toList ⟨"-if".toList, none, ARG_FILENAME, Dest.str StrField.infilestr⟩
      (by decide)).1 (by decide),
    (h "-f".toList ⟨"-f".toList, some "60".toList, ARG_FLOAT,
      Dest.float FloatField.frame_rate⟩ (by decide)).1 (by decide),
    (g "-list".toList ⟨"-list".toList, none, ARG_INTLIST, Dest.intlist 0 4⟩
      (by decide)).1 (by decide),
    (g "-verbose".toList ⟨"-verbose".toList, none, ARG_NONE, Dest.int IntField.snrcalc⟩
      (by decide)).2 (by decide) _ rfl⟩

/-! ## C7: words are returned in source order -/

theorem dropWhile_append_stop (P : Char → Bool) (l r : List Char) (hl : ∀ c ∈ l, P c = true)
    (hr : ∀ c, r.head? = some c → P c = false) : (l ++ r).dropWhile P = r := by
  induction l with
  | nil =>
    cases r with
    | nil => rfl
    | cons c t => simp [List.dropWhile, hr c rfl]
  | cons a t ih =>
    have ha : P a = true := hl a (List.mem_cons_self _ _)
    simp only [List.cons_append, List.dropWhile, ha]
    exact ih (fun c hc => hl c (List.mem_cons_of_mem _ hc))

theorem takeWhile_append_stop (P : Char → Bool) (l r : List Char) (hl : ∀ c ∈ l, P c = true)
    (hr : ∀ c, r.head? = some c → P c = false) : (l ++ r).takeWhile P = l := by
  induction l with
  | nil =>
    cases r with
    | nil => rfl
    | cons c t => simp [List.takeWhile, hr c rfl]
  | cons a t ih =>
    have ha : P a = true := hl a (List.mem_cons_self _ _)
    simp only [List.cons_append, List.takeWhile_cons, ha, if_true,
      ih (fun c hc => hl c (List.mem_cons_of_mem _ hc))]

theorem strcpy_of_no_nul (w : List Char) (h : ∀ c ∈ w, c ≠ NUL) : strcpy w = w := by
  have := takeWhile_append_stop (fun c => decide (c ≠ NUL)) w [] (by simpa using h) (by simp)
  simpa [strcpy] using this

theorem read_loop_word (fuel n : Nat) (argv : List (Option (List Char))) (ws w r : List Char)
    (hn : n ≤ MAX_PARAMS) (hws : ∀ c ∈ ws, isspace c = true) (hw : is_word w) (hr : ws_start r) :
    read_loop (fuel + 1) (ws ++ w ++ r) n argv = read_loop fuel r (n + 1) (argv.set n (some w)) := by
  obtain ⟨hne, hlen, hch, hsemi, hquote⟩ := hw
  obtain ⟨c0, t0, rfl⟩ := List.exists_cons_of_ne_nil hne
  have hc0 := hch c0 (List.mem_cons_self _ _)
  have hdrop : (ws ++ (c0 :: t0 ++ r)).dropWhile isspace = c0 :: t0 ++ r :=
    dropWhile_append_stop isspace ws _ hws (by
      intro c hc
      simp only [List.cons_append, List.head?_cons, Option.some.injEq] at hc
      rw [← hc]
      exact hc0.1)
  have hq : c0 ≠ '"' := by
    intro e
    apply hquote
    simp [e]
  have hs : c0 ≠ ';' := by
    intro e
    apply hsemi
    simp [e]
  have h1 : scan_quotes (ws ++ (c0 :: t0) ++ r) = some (0, c0 :: t0 ++ r) := by
    rw [List.append_assoc]
    simp only [scan_quotes, hdrop]
    simp [List.takeWhile, hq]
  have htake : (c0 :: t0 ++ r).takeWhile (fun c => !isspace c) = c0 :: t0 :=
    takeWhile_append_stop _ _ _ (by
      intro c hc
      simp [(hch c hc).1]) (by
      intro c hc
      simp [hr c hc])
  have hdrop2 : (c0 :: t0 ++ r).dropWhile isspace = c0 :: t0 ++ r := by
    simp [List.dropWhile, hc0.1]
  have h2 : scan_word (c0 :: t0 ++ r) = (1, c0 :: t0, r) := by
    simp only [scan_word, hdrop2, htake, List.take_of_length_le hlen]
    simp
  have h3 : strcpy (c0 :: t0) = c0 :: t0 := strcpy_of_no_nul _ (fun c hc => (hch c hc).2)
  rw [read_loop, if_pos hn, h1]
  simp only [if_true, h2]
  simp [hs, h3]

theorem read_loop_trail (fuel n : Nat) (argv : List (Option (List Char))) (trail : List Char)
    (ht : ∀ c ∈ trail, isspace c = true) :
    read_loop (fuel + 1) trail n argv = some (argv, n) := by
  have hdrop : trail.dropWhile isspace = [] := by
    have := dropWhile_append_stop isspace trail [] ht (by simp)
    simpa using this
  have h1 : scan_quotes trail = some (-1, []) := by
    simp only [scan_quotes, hdrop]
    simp
  rw [read_loop]
  by_cases hn : n ≤ MAX_PARAMS
  · rw [if_pos hn, h1]
    simp [scan_quoted]
  · rw [if_neg hn]

theorem ws_start_of_all (r : List Char) (h : ∀ c ∈ r, isspace c = true) : ws_start r := by
  intro c hc
  cases r with
  | nil => simp at hc
  | cons a t =>
    simp only [List.head?_cons, Option.some.injEq] at hc
    rw [← hc]
    exact h a (List.mem_cons_self _ _)

theorem ws_start_append (ws r : List Char) (h : ∀ c ∈ ws, isspace c = true) (hne : ws ≠ []) :
    ws_start (ws ++ r) := by
  intro c hc
  cases ws with
  | nil => exact absurd rfl hne
  | cons a t =>
    simp only [List.cons_append, List.head?_cons, Option.some.injEq] at hc
    rw [← hc]
    exact h a (List.mem_cons_self _ _)

/-- The loop of `read_config_file` on a text made of words: every word fills
the next slot. -/
theorem read_loop_words (trail : List Char) (ht : ∀ c ∈ trail, isspace c = true) :
    ∀ (items : List (List Char × List Char)) (fuel n : Nat) (argv : List (Option (List Char))),
      items.length < fuel → n + items.length ≤ MAX_PARAMS + 1 →
      (∀ x ∈ items, (∀ c ∈ x.1, isspace c = true) ∧ is_word x.2) →
      (∀ x ∈ items.tail, x.1 ≠ []) →
      read_loop fuel (words_text items trail) n argv =
        some (set_slots argv n (items.map Prod.snd), n + items.length) := by
  intro items
  induction items with
  | nil =>
    intro fuel n argv hf _ _ _
    obtain ⟨f, rfl⟩ := Nat.exists_eq_succ_of_ne_zero (Nat.ne_of_gt hf)
    exact read_loop_trail f n argv trail ht
  | cons x l ih =>
    intro fuel n argv hf hn hx hsep
    obtain ⟨f, rfl⟩ := Nat.exists_eq_succ_of_ne_zero (Nat.ne_of_gt (Nat.lt_of_le_of_lt (Nat.zero_le _) hf))
    have hx0 := hx x (List.mem_cons_self _ _)
    have hr : ws_start (words_text l trail) := by
      cases l with
      | nil => exact ws_start_of_all trail ht
      | cons y l1 =>
        have hy := hx y (List.mem_cons_of_mem _ (List.mem_cons_self _ _))
        have hy2 : y.1 ≠ [] := hsep y (by simp)
        simp only [words_text, List.append_assoc]
        exact ws_start_append _ _ hy.1 hy2
    simp only [List.length_cons] at hf hn
    simp only [words_text]
    rw [read_loop_word f n argv x.1 x.2 _ (by omega) hx0.1 hx0.2 hr]
    rw [ih f (n + 1) _ (by omega) (by omega) (fun y hy => hx y (List.mem_cons_of_mem _ hy))
      (fun y hy => hsep y (List.mem_of_mem_tail hy))]
    simp only [List.map_cons, set_slots, List.length_cons]
    congr 2
    omega

theorem set_slots_replicate (ws : List (List Char)) :
    ∀ (pre : List (Option (List Char))) (m : Nat), ws.length ≤ m →
      set_slots (pre ++ List.replicate m none) pre.length ws =
        pre ++ ws.map some ++ List.replicate (m - ws.length) none := by
  induction ws with
  | nil =>
    intro pre m _
    simp [set_slots]
  | cons w t ih =>
    intro pre m hm
    simp only [List.length_cons] at hm
    obtain ⟨k, rfl⟩ : ∃ k, m = k + 1 := ⟨m - 1, by omega⟩
    have hset : (pre ++ List.replicate (k + 1) none).set pre.length (some w) =
        (pre ++ [some w]) ++ List.replicate k none := by
      simp [List.replicate_succ, List.set_append]
    simp only [set_slots, hset]
    have := ih (pre ++ [some w]) k (by omega)
    simp only [List.length_append, List.length_singleton] at this
    rw [this]
    simp

theorem words_text_length (items : List (List Char × List Char)) (trail : List Char)
    (h : ∀ x ∈ items, x.2 ≠ []) : items.length ≤ (words_text items trail).length := by
  induction items with
  | nil => simp
  | cons x l ih =>
    have hx : 0 < x.2.length := List.length_pos.2 (h x (List.mem_cons_self _ _))
    have := ih (fun y hy => h y (List.mem_cons_of_mem _ hy))
    simp only [words_text, List.length_cons, List.length_append]
    omega

/-- The function `read_config_file` on a text made of words. -/
theorem read_config_file_words (items : List (List Char × List Char)) (trail : List Char)
    (hlen : items.length ≤ MAX_PARAMS)
    (hitems : ∀ x ∈ items, (∀ c ∈ x.1, isspace c = true) ∧ is_word x.2)
    (hsep : ∀ x ∈ items.tail, x.1 ≠ [])
    (htrail : ∀ c ∈ trail, isspace c = true) :
    read_config_file (words_text items trail) =
      some (none :: items.map (fun x => some x.2) ++
        List.replicate (MAX_PARAMS - items.length) none, items.length + 1) := by
  have hl := words_text_length items trail (fun x hx => (hitems x hx).2.1)
  unfold read_config_file
  rw [read_loop_words trail htrail items _ 1 _ (by omega) (by omega) hitems hsep]
  have := set_slots_replicate (items.map Prod.snd) [none] MAX_PARAMS (by simpa using hlen)
  simp only [List.length_singleton, List.singleton_append, List.length_map,
    List.map_map] at this
  have e : List.replicate (MAX_PARAMS + 1) (none : Option (List Char)) =
      none :: List.replicate MAX_PARAMS none := rfl
  rw [e, this]
  simp only [List.cons_append, Option.some.injEq, Prod.mk.injEq]
  constructor
  · rfl
  · omega

/-- C7: a config text made of at most 200 words, each of 1 to 1999 characters
that are neither white space nor NUL and not beginning with `;` or a double
quote, separated (and possibly preceded and followed) by white space, is read
by `read_config_file` as exactly those words, in order, in the slots `1..k` of
`argv`, with reported count `k+1`. -/
theorem C7_words_in_order (items : List (List Char × List Char)) (trail : List Char)
    (hlen : items.length ≤ MAX_PARAMS)
    (hitems : ∀ x ∈ items, (∀ c ∈ x.1, isspace c = true) ∧ is_word x.2)
    (hsep : ∀ x ∈ items.tail, x.1 ≠ [])
    (htrail : ∀ c ∈ trail, isspace c = true) :
    read_config_file (words_text items trail) =
      some (none :: items.map (fun x => some x.2) ++
        List.replicate (MAX_PARAMS - items.length) none, items.length + 1) :=
  read_config_file_words items trail hlen hitems hsep htrail

/-- Witness of C7: the text `-width 200` followed by a newline. -/
theorem C7_words_in_order_witness :
    read_config_file "-width 200\n".toList =
      some (none :: [some "-width".toList, some "200".toList] ++ List.replicate 198 none, 3) :=
  C7_words_in_order [([], "-width".toList), (" ".toList, "200".toList)] "\n".toList
    (by decide) (by decide) (by decide) (by decide)

/-! ### The iteration bound of `read_config_file` -/

theorem scan_quotes_length (f f1 : List Char) (r : Int) (h : scan_quotes f = some (r, f1)) :
    f1.length ≤ f.length ∧ (r = 0 → f1 ≠ [] ∧ ∀ c, f1.head? = some c → isspace c = false) := by
  have hd : (f.dropWhile isspace).length ≤ f.length := (List.dropWhile_sublist _).length_le
  simp only [scan_quotes] at h
  split at h
  · rename_i h0
    simp only [Option.some.injEq, Prod.mk.injEq] at h
    rw [← h.2]
    exact ⟨hd, fun e => by omega⟩
  · rename_i h0
    split at h
    · simp only [Option.some.injEq, Prod.mk.injEq] at h
      rw [← h.2]
      refine ⟨hd, fun _ => ⟨h0, ?_⟩⟩
      intro c hc
      cases hf : f.dropWhile isspace with
      | nil => exact absurd hf h0
      | cons a t =>
        rw [hf] at hc
        simp only [List.head?_cons, Option.some.injEq] at hc
        have := List.head_dropWhile_not isspace f (by rw [hf]; simp)
        simp only [hf, List.head_cons] at this
        rw [← hc]
        simpa using this
    · split at h
      · simp at h
      · simp only [Option.some.injEq, Prod.mk.injEq] at h
        rw [← h.2, List.length_drop]
        exact ⟨by omega, fun e => by omega⟩

theorem scan_word_length (f1 a f2 : List Char) (r : Int) (h : scan_word f1 = (r, a, f2))
    (hne : f1 ≠ []) (hh : ∀ c, f1.head? = some c → isspace c = false) :
    f2.length < f1.length := by
  obtain ⟨c0, t0, rfl⟩ := List.exists_cons_of_ne_nil hne
  have hc0 := hh c0 rfl
  have hd : (c0 :: t0).dropWhile isspace = c0 :: t0 := by simp [List.dropWhile, hc0]
  have ht : (c0 :: t0).takeWhile (fun c => !isspace c) =
      c0 :: t0.takeWhile (fun c => !isspace c) := by simp [List.takeWhile, hc0]
  simp only [scan_word, hd, ht, List.take_succ_cons] at h
  rw [if_neg (by simp)] at h
  simp only [Prod.mk.injEq] at h
  rw [← h.2.2]
  simp only [List.length_drop, List.length_cons]
  omega

theorem scan_line_length (f f3 : List Char) (h : scan_line f = some f3) :
    f3.length ≤ f.length := by
  simp only [scan_line] at h
  split at h
  · simp at h
  · simp only [Option.some.injEq] at h
    rw [← h, List.length_drop]
    omega

theorem scan_quoted_length (f a f2 : List Char) (r : Int)
    (h : scan_quoted f = some (r, a, f2)) (hr : ¬ (r < 1 ∨ r = -1)) :
    f2.length < f.length := by
  simp only [scan_quoted] at h
  split at h
  · simp at h
  · split at h
    · simp only [Option.some.injEq, Prod.mk.injEq] at h
      omega
    · split at h
      · simp only [Option.some.injEq, Prod.mk.injEq] at h
        omega
      · rename_i h1 h2 h3
        simp only [Option.some.injEq, Prod.mk.injEq] at h
        rw [← h.2.2, List.length_drop]
        have : 0 < (List.takeWhile (fun c => decide (c ≠ '"' ∧ c ≠ ',' ∧ c ≠ '\n')) f).length :=
          List.length_pos.2 h3
        have := (List.takeWhile_sublist (l := f)
          (fun c => decide (c ≠ '"' ∧ c ≠ ',' ∧ c ≠ '\n'))).length_le
        omega

theorem scan_close_length (f : List Char) : (scan_close f).length ≤ f.length := by
  cases f with
  | nil => simp [scan_close]
  | cons c t =>
    simp only [scan_close]
    split <;> simp

/-- The bound on the number of iterations of the loop of `read_config_file` is
never reached: any two bounds above the length of the text give the same result. -/
theorem read_loop_fuel : ∀ (fuel1 fuel2 : Nat) (f : List Char) (n : Nat)
    (argv : List (Option (List Char))), f.length < fuel1 → f.length < fuel2 →
    read_loop fuel1 f n argv = read_loop fuel2 f n argv := by
  intro fuel1
  induction fuel1 with
  | zero => intro fuel2 f n argv h; omega
  | succ k ih =>
    intro fuel2 f n argv h1 h2
    obtain ⟨m, rfl⟩ : ∃ m, fuel2 = m + 1 := ⟨fuel2 - 1, by omega⟩
    rw [read_loop, read_loop]
    by_cases hn : n ≤ MAX_PARAMS
    · rw [if_pos hn, if_pos hn]
      cases hq : scan_quotes f with
      | none => rfl
      | some x =>
        obtain ⟨ret2, f1⟩ := x
        obtain ⟨hl1, hz⟩ := scan_quotes_length f f1 ret2 hq
        simp only []
        by_cases h0 : ret2 = 0
        · rw [if_pos h0, if_pos h0]
          obtain ⟨hne, hh⟩ := hz h0
          rcases hw : scan_word f1 with ⟨ret, a, f2⟩
          have hl2 := scan_word_length f1 a f2 ret hw hne hh
          simp only []
          by_cases hr : ret < 1 ∨ ret = -1
          · rw [if_pos hr, if_pos hr]
          · rw [if_neg hr, if_neg hr]
            by_cases hs : a.head? = some ';'
            · rw [if_pos hs, if_pos hs]
              cases hl : scan_line f2 with
              | none => rfl
              | some f3 =>
                have hl3 := scan_line_length f2 f3 hl
                exact ih m f3 n argv (by omega) (by omega)
            · rw [if_neg hs, if_neg hs]
              exact ih m f2 _ _ (by omega) (by omega)
        · rw [if_neg h0, if_neg h0]
          cases hsq : scan_quoted f1 with
          | none => rfl
          | some y =>
            obtain ⟨ret, a, f2⟩ := y
            simp only []
            by_cases hr : ret < 1 ∨ ret = -1
            · rw [if_pos hr, if_pos hr]
            · rw [if_neg hr, if_neg hr]
              have hl2 := scan_quoted_length f1 a f2 ret hsq hr
              have hl3 := scan_close_length f2
              exact ih m _ _ _ (by omega) (by omega)
    · rw [if_neg hn, if_neg hn]

/-! ## C6: quoted tokens -/

set_option maxRecDepth 100000 in
/-- C6 (evaluation at the failing input): the quoted text `"a, b"` is read as
the three tokens `a`, `,` and `b"`, with reported count 4. -/
theorem C6_quoted_comma_splits :
    read_config_file "\"a, b\"".toList =
      some (none :: [some "a".toList, some ",".toList, some "b\"".toList] ++
        List.replicate 197 none, 4) := by
  decide

/-! ## C8: comment lines -/

/-- A comment whose text after the `;` word has 2000 characters or more
overruns the array `a`. -/
theorem read_config_file_long_comment (rest : List Char) (h1 : ∀ c ∈ rest, c ≠ '\n')
    (h2 : 1999 ≤ rest.length) : read_config_file (';' :: ' ' :: rest) = none := by
  have hq : scan_quotes (';' :: ' ' :: rest) = some (0, ';' :: ' ' :: rest) := by
    simp [scan_quotes, List.dropWhile, List.takeWhile, isspace]
  have hw : scan_word (';' :: ' ' :: rest) = (1, [';'], ' ' :: rest) := by
    simp [scan_word, List.dropWhile, List.takeWhile, isspace]
  have hall : ∀ c ∈ ' ' :: rest, (fun c => decide (c ≠ '\n')) c = true := by
    intro c hc
    rcases List.mem_cons.1 hc with e | e
    · rw [e]
      decide
    · simpa using h1 c e
  have ht : (' ' :: rest).takeWhile (fun c => decide (c ≠ '\n')) = ' ' :: rest := by
    have := takeWhile_append_stop _ (' ' :: rest) [] hall (by simp)
    simpa using this
  have hl : scan_line (' ' :: rest) = none := by
    simp only [scan_line, ht, List.length_cons]
    rw [if_pos (by omega)]
  unfold read_config_file
  rw [read_loop, if_pos (by decide), hq]
  simp only [if_true, hw]
  simp [hl]

theorem takeWhile_append_left (P : Char → Bool) (l r : List Char)
    (hr : ∀ c, r.head? = some c → P c = false) :
    (l ++ r).takeWhile P = l.takeWhile P := by
  induction l with
  | nil =>
    cases r with
    | nil => rfl
    | cons c t => simp [List.takeWhile, hr c rfl]
  | cons a t ih =>
    simp only [List.cons_append, List.takeWhile_cons, ih]

/-- One iteration of the loop of `read_config_file` on a comment whose text
after the `;` fits in the array `a`. -/
theorem read_loop_comment (fuel n : Nat) (argv : List (Option (List Char)))
    (ws body r : List Char) (hn : n ≤ MAX_PARAMS) (hws : ∀ c ∈ ws, isspace c = true)
    (hbody : ∀ c ∈ body, c ≠ '\n') (hlen : body.length < 2000) (hr : nl_start r) :
    read_loop (fuel + 1) (ws ++ ';' :: body ++ r) n argv = read_loop fuel r n argv := by
  have hsemi : isspace ';' = false := by decide
  have hdrop : (ws ++ (';' :: (body ++ r))).dropWhile isspace = ';' :: (body ++ r) :=
    dropWhile_append_stop isspace ws _ hws (by
      intro c hc
      simp only [List.head?_cons, Option.some.injEq] at hc
      rw [← hc]
      exact hsemi)
  have h1 : scan_quotes (ws ++ ';' :: body ++ r) = some (0, ';' :: (body ++ r)) := by
    rw [List.append_assoc, List.cons_append]
    simp only [scan_quotes, hdrop]
    simp [List.takeWhile]
  -- the word read by `%1999s` lies inside the comment
  have hrs : ∀ c, r.head? = some c → (fun c => !isspace c) c = false := by
    intro c hc
    rw [hr c hc]
    decide
  have hword : ((';' :: body) ++ r).takeWhile (fun c => !isspace c) =
      (';' :: body).takeWhile (fun c => !isspace c) := takeWhile_append_left _ _ _ hrs
  obtain ⟨a, ha⟩ : ∃ a, a = ((';' :: body).takeWhile (fun c => !isspace c)).take 1999 := ⟨_, rfl⟩
  have hak : a.length ≤ (';' :: body).length := by
    rw [ha]
    have h0 := (List.takeWhile_sublist (l := ';' :: body) (fun c => !isspace c)).length_le
    rw [List.length_take]
    omega
  have hahead : a.head? = some ';' := by
    rw [ha]
    simp [List.takeWhile, hsemi]
  have hapos : 0 < a.length := by
    cases a with
    | nil => simp at hahead
    | cons _ _ => simp
  have h2 : scan_word (';' :: (body ++ r)) = (1, a, (';' :: body).drop a.length ++ r) := by
    have hd2 : (';' :: (body ++ r)).dropWhile isspace = ';' :: (body ++ r) := by
      simp [List.dropWhile, hsemi]
    simp only [scan_word, hd2]
    rw [show ';' :: (body ++ r) = (';' :: body) ++ r from rfl, hword, ← ha,
      List.drop_append_of_le_length hak]
    simp
  have hb1 : ∀ c ∈ (';' :: body).drop a.length, (fun c => decide (c ≠ '\n')) c = true := by
    intro c hc
    obtain ⟨k, hk⟩ : ∃ k, a.length = k + 1 := ⟨a.length - 1, by omega⟩
    rw [hk, List.drop_succ_cons] at hc
    simpa using hbody c (List.mem_of_mem_drop hc)
  have hb2 : ((';' :: body).drop a.length).length < 2000 := by
    rw [List.length_drop, List.length_cons]
    omega
  have hrn : ∀ c, r.head? = some c → (fun c => decide (c ≠ '\n')) c = false := by
    intro c hc
    simp [hr c hc]
  have h3 : scan_line ((';' :: body).drop a.length ++ r) = some r := by
    have ht := takeWhile_append_stop _ _ r hb1 hrn
    simp only [scan_line, ht]
    rw [if_neg (by omega), List.drop_left]
  rw [read_loop, if_pos hn, h1]
  simp only [if_true, h2]
  simp [hahead, h3]

theorem nl_start_append (ws r : List Char) (h : nl_start ws) (hne : ws ≠ []) :
    nl_start (ws ++ r) := by
  intro c hc
  cases ws with
  | nil => exact absurd rfl hne
  | cons a t =>
    simp only [List.cons_append, List.head?_cons, Option.some.injEq] at hc
    exact h c (by simp [hc])

/-- The loop of `read_config_file` on a text made of comments and white space
stores nothing. -/
theorem read_loop_comments (trail : List Char) (ht : ∀ c ∈ trail, isspace c = true) :
    ∀ (items : List (List Char × List Char)) (fuel n : Nat) (argv : List (Option (List Char))),
      items.length < fuel →
      (∀ x ∈ items, (∀ c ∈ x.1, isspace c = true) ∧ (∀ c ∈ x.2, c ≠ '\n') ∧ x.2.length < 2000) →
      (∀ x ∈ items.tail, x.1 ≠ [] ∧ nl_start x.1) →
      (items = [] ∨ nl_start trail) →
      read_loop fuel (comment_text items trail) n argv = some (argv, n) := by
  intro items
  induction items with
  | nil =>
    intro fuel n argv hf _ _ _
    obtain ⟨f, rfl⟩ : ∃ f, fuel = f + 1 := ⟨fuel - 1, by omega⟩
    exact read_loop_trail f n argv trail ht
  | cons x l ih =>
    intro fuel n argv hf hx hsep htr
    simp only [List.length_cons] at hf
    obtain ⟨f, rfl⟩ : ∃ f, fuel = f + 1 := ⟨fuel - 1, by omega⟩
    by_cases hn : n ≤ MAX_PARAMS
    · have hx0 := hx x (List.mem_cons_self _ _)
      have hr : nl_start (comment_text l trail) := by
        cases l with
        | nil =>
          rcases htr with e | e
          · cases e
          · exact e
        | cons y l1 =>
          have hy := hsep y (by simp)
          simp only [comment_text, List.append_assoc]
          exact nl_start_append _ _ hy.2 hy.1
      simp only [comment_text]
      rw [read_loop_comment f n argv x.1 x.2 _ hn hx0.1 hx0.2.1 hx0.2.2 hr]
      refine ih f n argv (by omega) (fun y hy => hx y (List.mem_cons_of_mem _ hy))
        (fun y hy => hsep y (List.mem_of_mem_tail hy)) ?_
      cases l with
      | nil => exact Or.inl rfl
      | cons y l1 =>
        rcases htr with e | e
        · cases e
        · exact Or.inr e
    · rw [read_loop, if_neg hn]

theorem comment_text_length (items : List (List Char × List Char)) (trail : List Char) :
    items.length ≤ (comment_text items trail).length := by
  induction items with
  | nil => simp
  | cons x l ih =>
    simp only [comment_text, List.length_cons, List.length_append]
    omega

set_option maxRecDepth 100000 in
/-- A config text made only of white space and of comments, each comment
running from a `;` to the end of its line with fewer than 2000 characters after
the `;`, is read as zero tokens with reported count 1, and `parse_params` over
the result returns 0 and leaves the parameters unchanged. -/
theorem read_config_file_comments (items : List (List Char × List Char)) (trail : List Char)
    (hitems : ∀ x ∈ items,
      (∀ c ∈ x.1, isspace c = true) ∧ (∀ c ∈ x.2, c ≠ '\n') ∧ x.2.length < 2000)
    (hsep : ∀ x ∈ items.tail, x.1 ≠ [] ∧ nl_start x.1)
    (htrail : ∀ c ∈ trail, isspace c = true) (hend : items = [] ∨ nl_start trail) :
    read_config_file (comment_text items trail) =
        some (List.replicate (MAX_PARAMS + 1) none, 1) ∧
      ∀ (fs : List Char → Option (List Char)) (depth : Nat) (p : enc_params)
        (list : List param_desc),
        parse_params fs depth 1 (List.replicate (MAX_PARAMS + 1) none) p list = some (0, p) := by
  constructor
  · have hl := comment_text_length items trail
    unfold read_config_file
    exact read_loop_comments trail htrail items _ 1 _ (by omega) hitems hsep hend
  · intro fs depth p list
    rw [parse_params_eq]
    have e : argv_tokens 1 (List.replicate (MAX_PARAMS + 1) none) = some [] := by decide
    rw [e]
    rfl

/-- C8 (evaluation at the failing input): on the comment line made of `;`, a
space and 2000 letters the conversion `%[^\n]` does not fit in `a[2000]`, the
call has no defined result. -/
theorem C8_long_comment_overruns :
    read_config_file (';' :: ' ' :: List.replicate 2000 'x') = none :=
  read_config_file_long_comment _ (by
    intro c hc
    rw [(List.mem_replicate.1 hc).2]
    decide) (by rw [List.length_replicate]; omega)


/-! ## C4: an included file is processed at the position of `-cf` -/

theorem toDigitsCore_length (k : Nat) : ∀ (fuel n : Nat), n < 10 ^ (k + 1) → n < fuel →
    (Nat.toDigitsCore 10 fuel n []).length ≤ k + 1 := by
  induction k with
  | zero =>
    intro fuel n hn hf
    obtain ⟨f, rfl⟩ : ∃ f, fuel = f + 1 := ⟨fuel - 1, by omega⟩
    have h0 : n / 10 = 0 := by omega
    simp [Nat.toDigitsCore, h0]
  | succ k ih =>
    intro fuel n hn hf
    obtain ⟨f, rfl⟩ : ∃ f, fuel = f + 1 := ⟨fuel - 1, by omega⟩
    simp only [Nat.toDigitsCore]
    split
    · simp
    · rename_i h0
      rw [toDigitsCore_append]
      have h1 : n / 10 < 10 ^ (k + 1) := by
        rw [Nat.div_lt_iff_lt_mul (by decide)]
        rw [pow_succ] at hn
        exact hn
      have := ih f (n / 10) h1 (by omega)
      simp only [List.length_append, List.length_singleton]
      omega

theorem toDigits_length_int (n : Nat) (h : n ≤ 2 ^ 31) : (Nat.toDigits 10 n).length ≤ 10 :=
  toDigitsCore_length 9 (n + 1) n (by omega) (Nat.lt_succ_self n)

theorem int_token_is_word (a : Int) (h1 : INT_MIN ≤ a) (h2 : a ≤ INT_MAX) :
    is_word (int_token a) := by
  simp only [INT_MIN, INT_MAX] at h1 h2
  obtain ⟨hd, _, hne⟩ := toDigits_spec a.natAbs
  have hlen := toDigits_length_int a.natAbs (by omega)
  have hdig : ∀ c ∈ Nat.toDigits 10 a.natAbs, isspace c = false ∧ c ≠ NUL ∧ c ≠ ';' ∧ c ≠ '"' := by
    intro c hc
    have hcd := hd c hc
    have h := isdigit_not_special c hcd
    refine ⟨h.1, h.2.2.2.2.2.2.2.1, ?_, ?_⟩
    · intro e
      rw [e] at hcd
      exact absurd hcd (by decide)
    · intro e
      rw [e] at hcd
      exact absurd hcd (by decide)
  unfold is_word int_token
  by_cases ha : a < 0
  · simp only [ha, if_true]
    refine ⟨by simp, by simp only [List.length_cons]; omega, ?_, by simp, by simp⟩
    intro c hc
    rcases List.mem_cons.1 hc with e | e
    · rw [e]
      decide
    · exact ⟨(hdig c e).1, (hdig c e).2.1⟩
  · simp only [ha, if_false]
    obtain ⟨c0, t0, e0⟩ := List.exists_cons_of_ne_nil hne
    have hc0 := hdig c0 (by rw [e0]; exact List.mem_cons_self _ _)
    refine ⟨hne, by omega, fun c hc => ⟨(hdig c hc).1, (hdig c hc).2.1⟩, ?_, ?_⟩
    · rw [e0]
      simp [hc0.2.2.1]
    · rw [e0]
      simp [hc0.2.2.2]

theorem argv_tokens_prefix (o : Option (List Char)) (ts : List (List Char))
    (extra : List (Option (List Char))) :
    argv_tokens (ts.length + 1) (o :: ts.map some ++ extra) = some ts := by
  have h := argv_tokens_map_some o ts
  unfold argv_tokens at h ⊢
  have e : (o :: ts.map some ++ extra).take (ts.length + 1) =
      (o :: ts.map some).take (ts.length + 1) := by
    rw [show o :: ts.map some ++ extra = (o :: ts.map some) ++ extra from rfl]
    rw [List.take_append_of_le_length (by simp)]
  rw [e]
  simp only [List.length_cons, List.length_map, le_refl, if_true] at h
  rw [if_pos (by simp)]
  exact h

/-- The loop body on `-cf F` for a readable file. -/
theorem parse_arg_cf (fs : List Char → Option (List Char))
    (inc : Nat → List (Option (List Char)) → enc_params → Option (Int × enc_params))
    (list : List param_desc) (d : param_desc) (F content : List Char)
    (argv : List (Option (List Char))) (n : Nat) (p : enc_params)
    (hd : find_param list "-cf".toList = some d) (ht : d.type = ARG_FILENAME)
    (hF : fs F = some content) (hread : read_config_file content = some (argv, n)) :
    parse_arg fs inc list "-cf".toList (some F) p =
      match inc n argv p with
      | none => none
      | some (r, p1) => if r < 0 then some (-1, true, p1) else some (0, true, p1) := by
  unfold parse_arg
  simp only [hd, ht, if_true, hF, hread]

theorem table_cf (CDEF : Bool) : find_param (param_table CDEF) "-cf".toList =
    some ⟨"-cf".toList, none, ARG_FILENAME, Dest.null⟩ := by
  cases CDEF <;> decide

theorem table_width (CDEF : Bool) : find_param (param_table CDEF) "-width".toList =
    some ⟨"-width".toList, some "1920".toList, ARG_INTEGER, Dest.int IntField.width⟩ := by
  cases CDEF <;> decide

theorem parse_arg_width (fs : List Char → Option (List Char))
    (inc : Nat → List (Option (List Char)) → enc_params → Option (Int × enc_params))
    (CDEF : Bool) (v : List Char) (p : enc_params) :
    parse_arg fs inc (param_table CDEF) "-width".toList (some v) p =
      some (0, true, set_int p IntField.width (atoi v)) := by
  have e1 : ¬ ARG_INTEGER = ARG_FILENAME := by decide
  have e2 : ¬ ARG_INTEGER = ARG_INTLIST := by decide
  unfold parse_arg
  simp only [table_width, if_neg e1, if_neg e2, if_true, store_int]

/-- The file with the text `-width b` is read as the two tokens `-width` and `b`. -/
theorem read_width_file (b : Int) (h1 : INT_MIN ≤ b) (h2 : b ≤ INT_MAX) :
    read_config_file ("-width ".toList ++ int_token b) =
      some (none :: ["-width".toList, int_token b].map some ++ List.replicate 198 none, 3) := by
  have hw := int_token_is_word b h1 h2
  have h := read_config_file_words [([], "-width".toList), (" ".toList, int_token b)] []
    (by simp [MAX_PARAMS]) (by
      intro x hx
      simp only [List.mem_cons, List.mem_singleton, List.not_mem_nil, or_false] at hx
      rcases hx with e | e
      · rw [e]
        decide
      · rw [e]
        refine ⟨?_, hw⟩
        show ∀ c ∈ " ".toList, isspace c = true
        decide) (by
      intro x hx
      simp only [List.tail_cons, List.mem_singleton] at hx
      rw [hx]
      show " ".toList ≠ []
      decide) (by simp)
  simpa [words_text, MAX_PARAMS] using h

theorem default_params_infile (CDEF : Bool) :
    (default_params CDEF).strs StrField.infilestr = none := by
  unfold default_params
  rw [foldl_assign_strs]
  rfl

/-- The recursive call on the tokens of the file `-width b`. -/
theorem include_width (CDEF : Bool) (fs : List Char → Option (List Char)) (depth : Nat)
    (v : List Char) (p : enc_params) :
    parse_params fs depth 3
      (none :: ["-width".toList, v].map some ++ List.replicate 198 none) p (param_table CDEF) =
      some (0, set_int p IntField.width (atoi v)) := by
  rw [parse_params_eq]
  have h := argv_tokens_prefix none ["-width".toList, v] (List.replicate 198 none)
  simp only [List.length_cons, List.length_nil] at h
  rw [h]
  simp only [parse_loop, parse_arg_width]
  simp

/-- C4: with a file `F` whose text is `-width b`, the arguments
`-width a -cf F` end with width `b` and the arguments `-cf F -width a` end with
width `a`, for all `int` values `a` and `b` (one level of nesting allowed). -/
theorem C4_include_in_sequence (CDEF : Bool) (fs : List Char → Option (List Char))
    (depth : Nat) (F : List Char) (a b : Int)
    (ha1 : INT_MIN ≤ a) (ha2 : a ≤ INT_MAX) (hb1 : INT_MIN ≤ b) (hb2 : b ≤ INT_MAX)
    (hF : fs F = some ("-width ".toList ++ int_token b)) :
    (∃ p, parse_config_params CDEF fs (depth + 1) 5
        (command_line ["-width".toList, int_token a, "-cf".toList, F]) = some (some p) ∧
      p.ints IntField.width = b) ∧
    (∃ q, parse_config_params CDEF fs (depth + 1) 5
        (command_line ["-cf".toList, F, "-width".toList, int_token a]) = some (some q) ∧
      q.ints IntField.width = a) := by
  have hread := read_width_file b hb1 hb2
  have hcf := fun inc p => parse_arg_cf fs inc (param_table CDEF) _ F _ _ 3 p (table_cf CDEF) rfl
    hF hread
  have hinc : ∀ p, include_call fs (param_table CDEF) (depth + 1) 3
      (none :: ["-width".toList, int_token b].map some ++ List.replicate 198 none) p =
      some (0, set_int p IntField.width b) := by
    intro p
    have := include_width CDEF fs depth (int_token b) p
    rw [atoi_int_token b hb1 hb2] at this
    exact this
  have h1 := parse_params_tokens fs (depth + 1) (some "enc".toList)
    ["-width".toList, int_token a, "-cf".toList, F] (default_params CDEF) (param_table CDEF)
  have h2 := parse_params_tokens fs (depth + 1) (some "enc".toList)
    ["-cf".toList, F, "-width".toList, int_token a] (default_params CDEF) (param_table CDEF)
  simp only [List.length_cons, List.length_nil, parse_loop, parse_arg_width, hcf, hinc,
    atoi_int_token a ha1 ha2] at h1 h2
  simp only [Nat.reduceAdd, Int.reduceNeg, Int.reduceLT, if_false, Bool.true_eq, if_true,
    lt_self_iff_false] at h1 h2
  constructor
  · refine ⟨set_int (set_int (default_params CDEF) IntField.width a) IntField.width b, ?_, ?_⟩
    · rw [parse_config_params_eq]
      simp only [command_line, h1]
      simp [set_int, default_params_infile]
    · simp [set_int]
  · refine ⟨set_int (set_int (default_params CDEF) IntField.width b) IntField.width a, ?_, ?_⟩
    · rw [parse_config_params_eq]
      simp only [command_line, h2]
      simp [set_int, default_params_infile]
    · simp [set_int]

/-- Witness of C4: `a = 100`, `b = 200` and the file `file.cfg`. -/
theorem C4_include_in_sequence_witness :
    (∃ p, parse_config_params true
        (fun path => if path = "file.cfg".toList then some "-width 200".toList else none) 1 5
        (command_line ["-width".toList, "100".toList, "-cf".toList, "file.cfg".toList]) =
          some (some p) ∧ p.ints IntField.width = 200) ∧
    (∃ q, parse_config_params true
        (fun path => if path = "file.cfg".toList then some "-width 200".toList else none) 1 5
        (command_line ["-cf".toList, "file.cfg".toList, "-width".toList, "100".toList]) =
          some (some q) ∧ q.ints IntField.width = 100) :=
  C4_include_in_sequence true
    (fun path => if path = "file.cfg".toList then some "-width 200".toList else none) 0
    "file.cfg".toList 100 200 (by decide) (by decide) (by decide) (by decide) (by decide)


/-! ## C5: including a file against writing its tokens inline -/

theorem parse_arg_mono (fs : List Char → Option (List Char))
    (inc1 inc2 : Nat → List (Option (List Char)) → enc_params → Option (Int × enc_params))
    (hinc : ∀ n av q out, inc1 n av q = some out → inc2 n av q = some out)
    (list : List param_desc) (a : List Char) (val : Option (List Char)) (p : enc_params)
    (x : Int × Bool × enc_params) (h : parse_arg fs inc1 list a val p = some x) :
    parse_arg fs inc2 list a val p = some x := by
  unfold parse_arg at h ⊢
  cases hf : find_param list a with
  | none =>
    rw [hf] at h
    exact h
  | some d =>
    simp only [hf] at h ⊢
    by_cases h0 : d.type = ARG_FILENAME
    · rw [if_pos h0] at h ⊢
      cases val with
      | none => exact h
      | some v =>
        simp only [] at h ⊢
        by_cases hcf : a = "-cf".toList
        · rw [if_pos hcf] at h ⊢
          cases hfs : fs v with
          | none =>
            rw [hfs] at h
            exact h
          | some content =>
            simp only [hfs] at h ⊢
            cases hr : read_config_file content with
            | none => simp [hr] at h
            | some y =>
              obtain ⟨av, n⟩ := y
              simp only [hr] at h ⊢
              cases hi : inc1 n av p with
              | none => simp [hi] at h
              | some out =>
                rw [hinc n av p out hi]
                rw [hi] at h
                exact h
        · rw [if_neg hcf] at h ⊢
          exact h
    · rw [if_neg h0] at h ⊢
      exact h

theorem parse_loop_mono (fs : List Char → Option (List Char))
    (inc1 inc2 : Nat → List (Option (List Char)) → enc_params → Option (Int × enc_params))
    (hinc : ∀ n av q out, inc1 n av q = some out → inc2 n av q = some out)
    (list : List param_desc) :
    ∀ (k : Nat) (ts : List (List Char)) (p : enc_params) (out : Int × enc_params),
      ts.length ≤ k → parse_loop fs inc1 list ts p = some out →
      parse_loop fs inc2 list ts p = some out := by
  intro k
  induction k with
  | zero =>
    intro ts p out hk h
    have : ts = [] := List.length_eq_zero.1 (Nat.le_zero.1 hk)
    subst this
    exact h
  | succ k ih =>
    intro ts p out hk h
    match ts, hk, h with
    | [], _, h => exact h
    | [a], _, h =>
      rw [parse_loop] at h ⊢
      cases hp : parse_arg fs inc1 list a none p with
      | none => simp [hp] at h
      | some x =>
        rw [parse_arg_mono fs inc1 inc2 hinc list a none p x hp]
        rw [hp] at h
        exact h
    | a :: v :: t, hk, h =>
      rw [parse_loop] at h ⊢
      cases hp : parse_arg fs inc1 list a (some v) p with
      | none => simp [hp] at h
      | some x =>
        obtain ⟨r, u, q⟩ := x
        rw [parse_arg_mono fs inc1 inc2 hinc list a (some v) p _ hp]
        simp only [hp] at h ⊢
        by_cases hr : r < 0
        · simp only [hr, if_true] at h ⊢
          exact h
        · simp only [hr, if_false] at h ⊢
          cases u with
          | true =>
            simp only [if_true] at h ⊢
            exact ih t q out (by simp at hk; omega) h
          | false =>
            simp only [Bool.false_eq_true, if_false] at h ⊢
            exact ih (v :: t) q out (by simp at hk ⊢; omega) h

theorem include_call_succ (fs : List Char → Option (List Char)) (list : List param_desc)
    (depth : Nat) : ∀ n av q out, include_call fs list depth n av q = some out →
      include_call fs list (depth + 1) n av q = some out := by
  induction depth with
  | zero =>
    intro n av q out h
    simp [include_call] at h
  | succ d ih =>
    intro n av q out h
    simp only [include_call] at h ⊢
    rw [parse_params_eq] at h ⊢
    cases ht : argv_tokens n av with
    | none => simp [ht] at h
    | some ts =>
      simp only [ht] at h ⊢
      exact parse_loop_mono fs _ _ ih list ts.length ts q out (le_refl _) h

theorem include_call_le (fs : List Char → Option (List Char)) (list : List param_desc)
    (d e : Nat) (hde : d ≤ e) : ∀ n av q out, include_call fs list d n av q = some out →
      include_call fs list e n av q = some out := by
  induction hde with
  | refl => exact fun _ _ _ _ h => h
  | step _ ih => exact fun n av q out h => include_call_succ fs list _ n av q out (ih n av q out h)

/-- A result obtained with some bound on the nesting of config files is also
obtained with every larger bound. -/
theorem parse_depth_mono (fs : List Char → Option (List Char)) (list : List param_desc)
    (d e : Nat) (hde : d ≤ e) (ts : List (List Char)) (p : enc_params) (out : Int × enc_params)
    (h : parse_loop fs (include_call fs list d) list ts p = some out) :
    parse_loop fs (include_call fs list e) list ts p = some out :=
  parse_loop_mono fs _ _ (include_call_le fs list d e hde) list ts.length ts p out (le_refl _) h

theorem parse_loop_ret (fs : List Char → Option (List Char))
    (inc : Nat → List (Option (List Char)) → enc_params → Option (Int × enc_params))
    (list : List param_desc) :
    ∀ (k : Nat) (ts : List (List Char)) (p q : enc_params) (r : Int),
      ts.length ≤ k → parse_loop fs inc list ts p = some (r, q) → r = 0 ∨ r = -1 := by
  intro k
  induction k with
  | zero =>
    intro ts p q r hk h
    have : ts = [] := List.length_eq_zero.1 (Nat.le_zero.1 hk)
    subst this
    simp only [parse_loop, Option.some.injEq, Prod.mk.injEq] at h
    exact Or.inl h.1.symm
  | succ k ih =>
    intro ts p q r hk h
    match ts, hk, h with
    | [], _, h =>
      simp only [parse_loop, Option.some.injEq, Prod.mk.injEq] at h
      exact Or.inl h.1.symm
    | [a], _, h =>
      rw [parse_loop] at h
      cases hp : parse_arg fs inc list a none p with
      | none => simp [hp] at h
      | some x =>
        obtain ⟨r1, u, q1⟩ := x
        simp only [hp] at h
        by_cases hr : r1 < 0
        · simp only [hr, if_true, Option.some.injEq, Prod.mk.injEq] at h
          exact Or.inr h.1.symm
        · simp only [hr, if_false, Option.some.injEq, Prod.mk.injEq] at h
          exact Or.inl h.1.symm
    | a :: v :: t, hk, h =>
      rw [parse_loop] at h
      cases hp : parse_arg fs inc list a (some v) p with
      | none => simp [hp] at h
      | some x =>
        obtain ⟨r1, u, q1⟩ := x
        simp only [hp] at h
        by_cases hr : r1 < 0
        · simp only [hr, if_true, Option.some.injEq, Prod.mk.injEq] at h
          exact Or.inr h.1.symm
        · simp only [hr, if_false] at h
          cases u with
          | true =>
            simp only [if_true] at h
            exact ih t q1 q r (by simp at hk; omega) h
          | false =>
            simp only [Bool.false_eq_true, if_false] at h
            exact ih (v :: t) q1 q r (by simp at hk ⊢; omega) h

theorem parse_arg_none_undef (fs : List Char → Option (List Char))
    (inc : Nat → List (Option (List Char)) → enc_params → Option (Int × enc_params))
    (list : List param_desc) (a : List Char) (p : enc_params)
    (h : parse_arg fs inc list a none p = none) (val : Option (List Char)) :
    parse_arg fs inc list a val p = none := by
  unfold parse_arg at h ⊢
  cases hf : find_param list a with
  | none => simp [hf] at h
  | some d =>
    simp only [hf] at h ⊢
    by_cases h0 : d.type = ARG_FILENAME
    · rw [if_pos h0] at h
      simp at h
    rw [if_neg h0] at h ⊢
    by_cases h4 : d.type = ARG_INTLIST
    · rw [if_pos h4] at h
      simp at h
    rw [if_neg h4] at h ⊢
    by_cases h1 : d.type = ARG_INTEGER
    · rw [if_pos h1] at h
      simp at h
    rw [if_neg h1] at h ⊢
    by_cases h2 : d.type = ARG_FLOAT
    · rw [if_pos h2] at h
      simp at h
    rw [if_neg h2] at h ⊢
    exact h

/-- A loop body that fails on a flag that is not a value-taking one fails in
the same way whatever token follows the flag. -/
theorem parse_arg_fail_val (fs : List Char → Option (List Char))
    (inc : Nat → List (Option (List Char)) → enc_params → Option (Int × enc_params))
    (list : List param_desc) (a : List Char) (p q : enc_params) (r : Int) (u : Bool)
    (h : parse_arg fs inc list a none p = some (r, u, q))
    (hd : ∀ e, find_param list a = some e → ¬ takes_value e.type) (val : Option (List Char)) :
    parse_arg fs inc list a val p = some (r, u, q) := by
  unfold parse_arg at h ⊢
  cases hf : find_param list a with
  | none =>
    rw [hf] at h
    exact h
  | some d =>
    have hnv := hd d hf
    unfold takes_value at hnv
    simp only [hf] at h ⊢
    have h0 : ¬ d.type = ARG_FILENAME := fun e => hnv (Or.inl e)
    have h4 : ¬ d.type = ARG_INTLIST := fun e => hnv (Or.inr (Or.inl e))
    have h1 : ¬ d.type = ARG_INTEGER := fun e => hnv (Or.inr (Or.inr (Or.inl e)))
    have h2 : ¬ d.type = ARG_FLOAT := fun e => hnv (Or.inr (Or.inr (Or.inr e)))
    rw [if_neg h0, if_neg h4, if_neg h1, if_neg h2] at h ⊢
    exact h

theorem parse_loop_append_none (fs : List Char → Option (List Char))
    (inc : Nat → List (Option (List Char)) → enc_params → Option (Int × enc_params))
    (list : List param_desc) (rest : List (List Char)) :
    ∀ (k : Nat) (ts : List (List Char)) (p : enc_params), ts.length ≤ k →
      parse_loop fs inc list ts p = none → parse_loop fs inc list (ts ++ rest) p = none := by
  intro k
  induction k with
  | zero =>
    intro ts p hk h
    have : ts = [] := List.length_eq_zero.1 (Nat.le_zero.1 hk)
    subst this
    simp [parse_loop] at h
  | succ k ih =>
    intro ts p hk h
    match ts, hk, h with
    | [], _, h => simp [parse_loop] at h
    | [a], _, h =>
      rw [parse_loop] at h
      cases hp : parse_arg fs inc list a none p with
      | none =>
        cases rest with
        | nil => simp [parse_loop, hp]
        | cons v rest1 => simp [parse_loop, parse_arg_none_undef fs inc list a p hp (some v)]
      | some x =>
        obtain ⟨r, u, q⟩ := x
        simp only [hp] at h
        by_cases hr : r < 0
        · simp [hr] at h
        · simp [hr] at h
    | a :: v :: t, hk, h =>
      rw [parse_loop] at h
      simp only [List.cons_append]
      rw [parse_loop]
      cases hp : parse_arg fs inc list a (some v) p with
      | none => rfl
      | some x =>
        obtain ⟨r, u, q⟩ := x
        simp only [hp] at h ⊢
        by_cases hr : r < 0
        · simp [hr] at h
        · simp only [hr, if_false] at h ⊢
          cases u with
          | true =>
            simp only [if_true] at h ⊢
            exact ih t q (by simp at hk; omega) h
          | false =>
            simp only [Bool.false_eq_true, if_false] at h ⊢
            exact ih (v :: t) q (by simp at hk ⊢; omega) h

/-- A loop body that ends without error and without advancing over the next
token does not depend on that token. -/
theorem parse_arg_unused (fs : List Char → Option (List Char))
    (inc : Nat → List (Option (List Char)) → enc_params → Option (Int × enc_params))
    (list : List param_desc) (a v : List Char) (p q : enc_params) (r : Int)
    (h : parse_arg fs inc list a (some v) p = some (r, false, q)) (hr : ¬ r < 0) :
    parse_arg fs inc list a none p = some (r, false, q) := by
  unfold parse_arg at h ⊢
  cases hf : find_param list a with
  | none =>
    simp only [hf, Option.some.injEq, Prod.mk.injEq] at h
    omega
  | some d =>
    simp only [hf] at h ⊢
    by_cases h0 : d.type = ARG_FILENAME
    · rw [if_pos h0] at h
      split at h
      · split at h
        · simp at h
        · split at h
          · simp at h
          · split at h
            · simp at h
            · split at h <;> simp at h
      · split at h <;> simp at h
    rw [if_neg h0] at h ⊢
    by_cases h4 : d.type = ARG_INTLIST
    · rw [if_pos h4] at h
      split at h <;> simp at h
    rw [if_neg h4] at h ⊢
    by_cases h1 : d.type = ARG_INTEGER
    · rw [if_pos h1] at h
      split at h <;> simp at h
    rw [if_neg h1] at h ⊢
    by_cases h2 : d.type = ARG_FLOAT
    · rw [if_pos h2] at h
      split at h <;> simp at h
    rw [if_neg h2] at h ⊢
    exact h

/-- When a block of arguments fails, and not for the missing value of a last
flag, the block followed by more arguments fails in the same way. -/
theorem parse_loop_append_fail (fs : List Char → Option (List Char))
    (inc : Nat → List (Option (List Char)) → enc_params → Option (Int × enc_params))
    (list : List param_desc) (rest : List (List Char)) :
    ∀ (k : Nat) (ts : List (List Char)) (p q : enc_params) (r : Int), ts.length ≤ k →
      parse_loop fs inc list ts p = some (r, q) → r < 0 →
      (∀ ts1 a q1 e, ts = ts1 ++ [a] → parse_loop fs inc list ts1 p = some (0, q1) →
        find_param list a = some e → ¬ takes_value e.type) →
      parse_loop fs inc list (ts ++ rest) p = some (r, q) := by
  intro k
  induction k with
  | zero =>
    intro ts p q r hk h hr _
    have : ts = [] := List.length_eq_zero.1 (Nat.le_zero.1 hk)
    subst this
    simp only [parse_loop, Option.some.injEq, Prod.mk.injEq] at h
    omega
  | succ k ih =>
    intro ts p q r hk h hr hnd
    match ts, hk, h, hnd with
    | [], _, h, _ =>
      simp only [parse_loop, Option.some.injEq, Prod.mk.injEq] at h
      omega
    | [a], _, h, hnd =>
      rw [parse_loop] at h
      cases hp : parse_arg fs inc list a none p with
      | none => simp [hp] at h
      | some x =>
        obtain ⟨r1, u, q1⟩ := x
        simp only [hp] at h
        by_cases hr1 : r1 < 0
        · simp only [hr1, if_true, Option.some.injEq, Prod.mk.injEq] at h
          have hd : ∀ e, find_param list a = some e → ¬ takes_value e.type :=
            fun e he => hnd [] a p e rfl rfl he
          cases rest with
          | nil =>
            simp only [List.append_nil, parse_loop, hp, hr1, if_true, Option.some.injEq,
              Prod.mk.injEq]
            exact h
          | cons v rest1 =>
            have hv := parse_arg_fail_val fs inc list a p q1 r1 u hp hd (some v)
            simp only [List.singleton_append, parse_loop, hv, hr1, if_true, Option.some.injEq,
              Prod.mk.injEq]
            exact h
        · simp only [hr1, if_false, Option.some.injEq, Prod.mk.injEq] at h
          omega
    | a :: v :: t, hk, h, hnd =>
      rw [parse_loop] at h
      simp only [List.cons_append]
      rw [parse_loop]
      cases hp : parse_arg fs inc list a (some v) p with
      | none => simp [hp] at h
      | some x =>
        obtain ⟨r1, u, q1⟩ := x
        simp only [hp] at h ⊢
        by_cases hr1 : r1 < 0
        · simp only [hr1, if_true] at h ⊢
          exact h
        · simp only [hr1, if_false] at h ⊢
          cases u with
          | true =>
            simp only [if_true] at h ⊢
            refine ih t q1 q r (by simp at hk; omega) h hr ?_
            intro ts1 b q2 e hts hpar hfind
            refine hnd (a :: v :: ts1) b q2 e (by rw [hts]; rfl) ?_ hfind
            rw [parse_loop]
            simp only [hp, hr1, if_false, if_true]
            exact hpar
          | false =>
            simp only [Bool.false_eq_true, if_false] at h ⊢
            refine ih (v :: t) q1 q r (by simp at hk ⊢; omega) h hr ?_
            intro ts1 b q2 e hts hpar hfind
            cases ts1 with
            | nil =>
              simp only [List.nil_append, List.cons.injEq] at hts
              simp only [parse_loop, Option.some.injEq, Prod.mk.injEq, true_and] at hpar
              refine hnd [a] b q2 e (by rw [hts.1, hts.2]; rfl) ?_ hfind
              rw [parse_loop, parse_arg_unused fs inc list a v p q1 r1 hp hr1]
              simp only [hr1, if_false, Option.some.injEq, Prod.mk.injEq, true_and]
              exact hpar
            | cons w ts2 =>
              simp only [List.cons_append, List.cons.injEq] at hts
              refine hnd (a :: w :: ts2) b q2 e (by rw [hts.1, hts.2]; rfl) ?_ hfind
              rw [parse_loop]
              rw [← hts.1, hp]
              simp only [hr1, if_false, Bool.false_eq_true]
              rw [hts.1]
              exact hpar

/-- C5 (amended): when the prefix parses to the end without error, so that
`-cf` stands in flag position, and the token list `ts` of the readable file `F`
does not end with a value-taking flag in flag position (or nothing follows the
include), `parse_params` over `pre ++ [-cf, F] ++ post` and over
`pre ++ ts ++ post` have the same outcome: each return value and final
parameter structure that one of them reaches, with some bound on the nesting
of config files, is reached by the other. -/
theorem C5_include_as_inline (fs : List Char → Option (List Char)) (list : List param_desc)
    (d : param_desc) (F content : List Char) (argv : List (Option (List Char))) (n : Nat)
    (ts pre post : List (List Char)) (p p1 : enc_params) (out : Int × enc_params)
    (hcf : find_param list "-cf".toList = some d) (ht : d.type = ARG_FILENAME)
    (hF : fs F = some content) (hread : read_config_file content = some (argv, n))
    (hts : argv_tokens n argv = some ts)
    (hpre : ∃ depth, parse_params fs depth (pre.length + 1) (command_line pre) p list =
      some (0, p1))
    (hend : post = [] ∨ ∀ depth ts1 a q e, ts = ts1 ++ [a] →
      parse_params fs depth (ts1.length + 1) (command_line ts1) p1 list = some (0, q) →
      find_param list a = some e → ¬ takes_value e.type) :
    (∃ depth, parse_params fs depth ((pre ++ "-cf".toList :: F :: post).length + 1)
        (command_line (pre ++ "-cf".toList :: F :: post)) p list = some out) ↔
    (∃ depth, parse_params fs depth ((pre ++ ts ++ post).length + 1)
        (command_line (pre ++ ts ++ post)) p list = some out) := by
  have hL : ∀ depth (l : List (List Char)) (q : enc_params),
      parse_params fs depth (l.length + 1) (command_line l) q list =
        parse_loop fs (include_call fs list depth) list l q := by
    intro depth l q
    unfold command_line
    exact parse_params_tokens fs depth _ l q list
  simp only [hL] at hpre hend ⊢
  obtain ⟨d0, hpre⟩ := hpre
  have hinc : ∀ D q, include_call fs list (D + 1) n argv q =
      parse_loop fs (include_call fs list D) list ts q := by
    intro D q
    have e : include_call fs list (D + 1) n argv q = parse_params fs D n argv q list := rfl
    rw [e, parse_params_eq, hts]
  constructor
  · rintro ⟨dd, h⟩
    have h1 := parse_depth_mono fs list dd (dd + d0) (Nat.le_add_right _ _) _ p out h
    have hp1 := parse_depth_mono fs list d0 (dd + d0) (Nat.le_add_left _ _) pre p (0, p1) hpre
    rw [parse_loop_append fs _ list _ pre.length pre p p1 (le_refl _) hp1, parse_loop,
      parse_arg_cf fs _ list d F content argv n p1 hcf ht hF hread] at h1
    cases hD : dd + d0 with
    | zero =>
      rw [hD] at h1
      simp [include_call] at h1
    | succ D =>
      rw [hD] at h1 hp1
      rw [hinc D p1] at h1
      cases hR : parse_loop fs (include_call fs list D) list ts p1 with
      | none => simp [hR] at h1
      | some x =>
        obtain ⟨r, p2⟩ := x
        simp only [hR] at h1
        have hR1 := parse_depth_mono fs list D (D + 1) (Nat.le_succ _) ts p1 (r, p2) hR
        refine ⟨D + 1, ?_⟩
        rw [List.append_assoc, parse_loop_append fs _ list _ pre.length pre p p1 (le_refl _) hp1]
        by_cases hr : r < 0
        · have hr1 : r = -1 := by
            rcases parse_loop_ret fs _ list ts.length ts p1 p2 r (le_refl _) hR with e | e <;> omega
          subst hr1
          simp only [Int.reduceNeg, Int.reduceLT, if_true] at h1
          rcases hend with hpost | hnd
          · subst hpost
            rw [List.append_nil, hR1]
            exact h1
          · rw [parse_loop_append_fail fs _ list post ts.length ts p1 p2 (-1) (le_refl _) hR1
              (by decide) (fun ts1 a q e e1 e2 e3 => hnd (D + 1) ts1 a q e e1 e2 e3)]
            exact h1
        · have hr0 : r = 0 := by
            rcases parse_loop_ret fs _ list ts.length ts p1 p2 r (le_refl _) hR with e | e <;> omega
          subst hr0
          simp only [lt_self_iff_false, if_false, if_true] at h1
          rw [parse_loop_append fs _ list post ts.length ts p1 p2 (le_refl _) hR1]
          exact h1
  · rintro ⟨dd, h⟩
    have h1 := parse_depth_mono fs list dd (dd + d0) (Nat.le_add_right _ _) _ p out h
    have hp1 := parse_depth_mono fs list d0 (dd + d0) (Nat.le_add_left _ _) pre p (0, p1) hpre
    have hp2 := parse_depth_mono fs list (dd + d0) (dd + d0 + 1) (Nat.le_succ _) pre p (0, p1) hp1
    rw [List.append_assoc, parse_loop_append fs _ list _ pre.length pre p p1 (le_refl _) hp1] at h1
    refine ⟨dd + d0 + 1, ?_⟩
    rw [parse_loop_append fs _ list _ pre.length pre p p1 (le_refl _) hp2, parse_loop,
      parse_arg_cf fs _ list d F content argv n p1 hcf ht hF hread, hinc (dd + d0) p1]
    cases hR : parse_loop fs (include_call fs list (dd + d0)) list ts p1 with
    | none =>
      rw [parse_loop_append_none fs _ list post ts.length ts p1 (le_refl _) hR] at h1
      simp at h1
    | some x =>
      obtain ⟨r, p2⟩ := x
      simp only []
      by_cases hr : r < 0
      · have hr1 : r = -1 := by
          rcases parse_loop_ret fs _ list ts.length ts p1 p2 r (le_refl _) hR with e | e <;> omega
        subst hr1
        simp only [Int.reduceNeg, Int.reduceLT, if_true]
        rcases hend with hpost | hnd
        · subst hpost
          rw [List.append_nil, hR] at h1
          exact h1
        · rw [parse_loop_append_fail fs _ list post ts.length ts p1 p2 (-1) (le_refl _) hR
            (by decide) (fun ts1 a q e e1 e2 e3 => hnd (dd + d0) ts1 a q e e1 e2 e3)] at h1
          exact h1
      · have hr0 : r = 0 := by
          rcases parse_loop_ret fs _ list ts.length ts p1 p2 r (le_refl _) hR with e | e <;> omega
        subst hr0
        simp only [lt_self_iff_false, if_false, if_true]
        rw [parse_loop_append fs _ list post ts.length ts p1 p2 (le_refl _) hR] at h1
        exact parse_depth_mono fs list (dd + d0) (dd + d0 + 1) (Nat.le_succ _) post p2 out h1

set_option maxRecDepth 100000 in
/-- Witness of C5 (amended): `-n 5 -cf file.cfg -height 8` against
`-n 5 -width 200 -height 8`, the file holding `-width 200`. -/
theorem C5_include_as_inline_witness :
    (∃ depth, parse_params example_fs depth 7
        (command_line ["-n".toList, "5".toList, "-cf".toList, "file.cfg".toList,
          "-height".toList, "8".toList]) (default_params true) (param_table true) =
        some (0, set_int (set_int (set_int (default_params true) IntField.num_frames 5)
          IntField.width 200) IntField.height 8)) ↔
    (∃ depth, parse_params example_fs depth 7
        (command_line ["-n".toList, "5".toList, "-width".toList, "200".toList,
          "-height".toList, "8".toList]) (default_params true) (param_table true) =
        some (0, set_int (set_int (set_int (default_params true) IntField.num_frames 5)
          IntField.width 200) IntField.height 8)) :=
  C5_include_as_inline example_fs (param_table true)
    ⟨"-cf".toList, none, ARG_FILENAME, Dest.null⟩ "file.cfg".toList "-width 200".toList
    (none :: ["-width".toList, "200".toList].map some ++ List.replicate 198 none) 3
    ["-width".toList, "200".toList] ["-n".toList, "5".toList] ["-height".toList, "8".toList]
    (default_params true) (set_int (default_params true) IntField.num_frames 5) _
    (by decide) rfl (by decide) (by decide) (by decide) ⟨0, rfl⟩
    (Or.inr (by
      intro depth ts1 a q e h1 _ h3
      have h4 := congrArg List.reverse h1
      simp only [List.reverse_append, List.reverse_cons, List.reverse_nil, List.nil_append,
        List.singleton_append, List.cons_append, List.cons.injEq] at h4
      have hn : find_param (param_table true) "200".toList = none := by decide
      rw [← h4.1, hn] at h3
      cases h3))

set_option maxRecDepth 100000 in
/-- C5 (counterexample): with the file `f` holding `5`, `-width -cf f` fails
(the token `-cf` is taken as the value of `-width` and `f` is no flag) while
`-width 5` succeeds; with the file `g` holding `-width`, `-cf g 5` fails (the
value of `-width` is missing inside the file) while `-width 5` succeeds. -/
theorem C5_counterexample :
    read_config_file "5".toList =
        some (none :: ["5".toList].map some ++ List.replicate 199 none, 2) ∧
      read_config_file "-width".toList =
        some (none :: ["-width".toList].map some ++ List.replicate 199 none, 2) ∧
      (∀ depth, parse_params example_fs depth 4
        (command_line ["-width".toList, "-cf".toList, "f".toList])
        (default_params true) (param_table true) =
        some (-1, set_int (default_params true) IntField.width 0)) ∧
      (∀ depth, parse_params example_fs (depth + 1) 4
        (command_line ["-cf".toList, "g".toList, "5".toList])
        (default_params true) (param_table true) = some (-1, default_params true)) ∧
      (∀ depth, parse_params example_fs depth 3
        (command_line ["-width".toList, "5".toList])
        (default_params true) (param_table true) =
        some (0, set_int (default_params true) IntField.width 5)) := by
  have hr5 : read_config_file "5".toList =
      some (none :: ["5".toList].map some ++ List.replicate 199 none, 2) := by decide
  have hrw : read_config_file "-width".toList =
      some (none :: ["-width".toList].map some ++ List.replicate 199 none, 2) := by decide
  refine ⟨hr5, hrw, ?_, ?_, ?_⟩
  · intro depth
    have h := parse_params_tokens example_fs depth (some "enc".toList)
      ["-width".toList, "-cf".toList, "f".toList] (default_params true) (param_table true)
    have hf : find_param (param_table true) "f".toList = none := by decide
    have ha : atoi "-cf".toList = 0 := by decide
    simp only [List.length_cons, List.length_nil, parse_loop, parse_arg_width, ha] at h
    simp only [parse_arg, hf] at h
    simpa [command_line] using h
  · intro depth
    have h := parse_params_tokens example_fs (depth + 1) (some "enc".toList)
      ["-cf".toList, "g".toList, "5".toList] (default_params true) (param_table true)
    have hcf := parse_arg_cf example_fs (include_call example_fs (param_table true) (depth + 1))
      (param_table true) _ "g".toList _ _ 2 (default_params true) (table_cf true) rfl
      (by decide) hrw
    have hi : include_call example_fs (param_table true) (depth + 1) 2
        (none :: ["-width".toList].map some ++ List.replicate 199 none) (default_params true) =
        some (-1, default_params true) := by
      have e : include_call example_fs (param_table true) (depth + 1) 2
          (none :: ["-width".toList].map some ++ List.replicate 199 none) (default_params true) =
          parse_params example_fs depth 2
            (none :: ["-width".toList].map some ++ List.replicate 199 none)
            (default_params true) (param_table true) := rfl
      have ht := argv_tokens_prefix none ["-width".toList] (List.replicate 199 none)
      simp only [List.length_cons, List.length_nil] at ht
      rw [e, parse_params_eq, ht]
      have e1 : ¬ ARG_INTEGER = ARG_FILENAME := by decide
      have e2 : ¬ ARG_INTEGER = ARG_INTLIST := by decide
      simp only [parse_loop, parse_arg, table_width, if_neg e1, if_neg e2, if_true]
      rfl
    simp only [List.length_cons, List.length_nil, parse_loop, hcf, hi] at h
    simpa [command_line] using h
  · intro depth
    have h := parse_params_tokens example_fs depth (some "enc".toList)
      ["-width".toList, "5".toList] (default_params true) (param_table true)
    have ha : atoi "5".toList = 5 := by decide
    simp only [List.length_cons, List.length_nil, parse_loop, parse_arg_width, ha] at h
    simpa [command_line] using h


/-! ## C9: integer lists -/

theorem atoi_toDigits (v : Nat) (h : (v : Int) ≤ INT_MAX) : atoi (Nat.toDigits 10 v) = v := by
  have h0 : INT_MIN ≤ (v : Int) := by
    simp only [INT_MIN]
    omega
  have := atoi_int_token (v : Int) h0 h
  simpa [int_token] using this

theorem digit_not_delim (c : Char) (h : isdigit c = true) : is_delim c = false := by
  have hs := isdigit_not_special c h
  simp [is_delim, hs.2.2.2.2.1, hs.2.2.2.2.2.2.2.2]

theorem strtok_comma_join (v : Nat) (l : List Nat) :
    strtok (comma_join (v :: l)) = some (Nat.toDigits 10 v, comma_join l) := by
  obtain ⟨hd, _, hne⟩ := toDigits_spec v
  obtain ⟨c0, t0, e0⟩ := List.exists_cons_of_ne_nil hne
  have hc0 : is_delim c0 = false := digit_not_delim c0 (hd c0 (by rw [e0]; exact List.mem_cons_self _ _))
  have hall : ∀ c ∈ Nat.toDigits 10 v, (fun c => !is_delim c) c = true := by
    intro c hc
    simp [digit_not_delim c (hd c hc)]
  cases l with
  | nil =>
    have ht := takeWhile_append_stop (fun c => !is_delim c) (Nat.toDigits 10 v) [] hall (by simp)
    have hdr := dropWhile_append_stop (fun c => !is_delim c) (Nat.toDigits 10 v) [] hall (by simp)
    simp only [List.append_nil] at ht hdr
    have hdw : (Nat.toDigits 10 v).dropWhile is_delim = Nat.toDigits 10 v := by
      rw [e0]
      simp [List.dropWhile, hc0]
    simp only [comma_join, strtok, hdw, ht, hdr]
    simp [hne]
  | cons w l1 =>
    have hstop : ∀ c, (',' :: comma_join (w :: l1)).head? = some c →
        (fun c => !is_delim c) c = false := by
      intro c hc
      simp only [List.head?_cons, Option.some.injEq] at hc
      rw [← hc]
      decide
    have ht := takeWhile_append_stop (fun c => !is_delim c) (Nat.toDigits 10 v) _ hall hstop
    have hdr := dropWhile_append_stop (fun c => !is_delim c) (Nat.toDigits 10 v) _ hall hstop
    have hdw : (Nat.toDigits 10 v ++ ',' :: comma_join (w :: l1)).dropWhile is_delim =
        Nat.toDigits 10 v ++ ',' :: comma_join (w :: l1) := by
      rw [e0]
      simp [List.dropWhile, hc0]
    simp only [comma_join, strtok, hdw, ht, hdr]
    simp [hne]

theorem comma_join_length (v : Nat) (l : List Nat) :
    (comma_join l).length < (comma_join (v :: l)).length := by
  obtain ⟨_, _, hne⟩ := toDigits_spec v
  have := List.length_pos.2 hne
  cases l with
  | nil => simpa [comma_join] using this
  | cons w l1 =>
    simp only [comma_join, List.length_append, List.length_cons]
    omega

/-- The loop of the integer list case on comma-separated decimal numbers: the
values are stored from the index `cnt` on while the index lies in the array,
and the loop has no defined result when it does not. -/
theorem intlist_loop_comma_join (a cap : Nat) :
    ∀ (l : List Nat) (fuel cnt : Nat) (p : enc_params), (comma_join l).length < fuel →
      (∀ v ∈ l, (v : Int) ≤ INT_MAX) → cnt ≤ cap →
      intlist_loop fuel (comma_join l) (Dest.intlist a cap) cnt p =
        if cnt + l.length ≤ cap then some (cnt + l.length, write_vals p a cnt l) else none := by
  intro l
  induction l with
  | nil =>
    intro fuel cnt p hf _ hc
    obtain ⟨f, rfl⟩ : ∃ f, fuel = f + 1 := ⟨fuel - 1, by omega⟩
    simp [intlist_loop, comma_join, strtok, write_vals, hc]
  | cons v l ih =>
    intro fuel cnt p hf hr hc
    obtain ⟨f, rfl⟩ : ∃ f, fuel = f + 1 := ⟨fuel - 1, by omega⟩
    have hlen := comma_join_length v l
    rw [intlist_loop, strtok_comma_join]
    simp only [store_int, atoi_toDigits v (hr v (List.mem_cons_self _ _))]
    by_cases hlt : cnt < cap
    · rw [if_pos hlt]
      simp only []
      rw [ih f (cnt + 1) _ (by omega) (fun w hw => hr w (List.mem_cons_of_mem _ hw)) (by omega)]
      have e : cnt + 1 + l.length = cnt + (v :: l).length := by
        simp only [List.length_cons]
        omega
      rw [e]
      rfl
    · rw [if_neg hlt]
      have hno : ¬ cnt + (v :: l).length ≤ cap := by
        simp only [List.length_cons]
        omega
      rw [if_neg hno]

theorem write_vals_below (a : Nat) : ∀ (l : List Nat) (cnt : Nat) (p : enc_params) (j : Nat),
    j < cnt → (write_vals p a cnt l).intlists a j = p.intlists a j := by
  intro l
  induction l with
  | nil => intro cnt p j _; rfl
  | cons v l ih =>
    intro cnt p j hj
    rw [write_vals, ih (cnt + 1) _ j (by omega)]
    have : j ≠ cnt := by omega
    simp [set_elem, Function.update, this]

theorem write_vals_at (a : Nat) : ∀ (l : List Nat) (cnt : Nat) (p : enc_params) (i v : Nat),
    l.get? i = some v → (write_vals p a cnt l).intlists a (cnt + i) = (v : Int) := by
  intro l
  induction l with
  | nil => intro cnt p i v h; simp at h
  | cons w l ih =>
    intro cnt p i v h
    cases i with
    | zero =>
      simp only [List.get?_cons_zero, Option.some.injEq] at h
      rw [write_vals]
      show (write_vals (set_elem p a cnt (w : Int)) a (cnt + 1) l).intlists a cnt = (v : Int)
      rw [write_vals_below a l (cnt + 1) _ cnt (by omega)]
      simp [set_elem, h]
    | succ i =>
      simp only [List.get?_cons_succ] at h
      rw [write_vals]
      have := ih (cnt + 1) (set_elem p a cnt (w : Int)) i v h
      rw [show cnt + (i + 1) = cnt + 1 + i by omega]
      exact this

/-- The `case ARG_INTLIST` body on a token made of a non-empty list of
non-negative `int` values in decimal joined by commas, for a destination array
of `cap` elements: the values go to the indices 1, 2, ... and their number to
the index 0 when the list has fewer than `cap` values; otherwise a store goes
past the end of the array and the body has no defined result. -/
theorem parse_intlist_comma_join (a cap : Nat) (vs : List Nat) (p : enc_params)
    (hne : vs ≠ []) (hr : ∀ v ∈ vs, (v : Int) ≤ INT_MAX) :
    parse_intlist (Dest.intlist a cap) (comma_join vs) p =
      if vs.length < cap then
        some (0, set_elem (write_vals p a 1 vs) a 0 (vs.length : Int))
      else none := by
  obtain ⟨v0, l, rfl⟩ := List.exists_cons_of_ne_nil hne
  simp only [parse_intlist, strtok_comma_join, store_int,
    atoi_toDigits v0 (hr v0 (List.mem_cons_self _ _))]
  by_cases h1 : 1 < cap
  · rw [if_pos h1]
    simp only []
    rw [intlist_loop_comma_join a cap l ((comma_join l).length + 1) 2
      (set_elem p a 1 (v0 : Int)) (Nat.lt_succ_self _)
      (fun w hw => hr w (List.mem_cons_of_mem _ hw)) (by omega)]
    by_cases h2 : 2 + l.length ≤ cap
    · have h3 : (v0 :: l).length < cap := by
        simp only [List.length_cons]
        omega
      have h0 : 0 < cap := by omega
      rw [if_pos h2, if_pos h3]
      simp only [if_pos h0, write_vals, List.length_cons, Option.some.injEq, Prod.mk.injEq,
        true_and]
      congr 1
      push_cast
      omega
    · have h3 : ¬ (v0 :: l).length < cap := by
        simp only [List.length_cons]
        omega
      rw [if_neg h2, if_neg h3]
  · have h3 : ¬ (v0 :: l).length < cap := by
      simp only [List.length_cons]
      omega
    rw [if_neg h1, if_neg h3]

/-- Dispatching an IntegerList registry entry on a token made of a non-empty
list of non-negative `int` values written in decimal and joined by commas,
when the list has fewer values than the destination array has elements,
succeeds, stores the number of values at index 0 of the destination and the
values, in order, at the indices 1, 2, ... -/
theorem parse_arg_intlist_fits (fs : List Char → Option (List Char))
    (inc : Nat → List (Option (List Char)) → enc_params → Option (Int × enc_params))
    (list : List param_desc) (flag : List Char) (d : param_desc) (a cap : Nat) (vs : List Nat)
    (p : enc_params)
    (hd : find_param list flag = some d) (ht : d.type = ARG_INTLIST)
    (hv : d.value = Dest.intlist a cap) (hne : vs ≠ [])
    (hr : ∀ v ∈ vs, (v : Int) ≤ INT_MAX) (hcap : vs.length < cap) :
    ∃ p1, parse_arg fs inc list flag (some (comma_join vs)) p = some (0, true, p1) ∧
      p1.intlists a 0 = (vs.length : Int) ∧
      ∀ i v, vs.get? i = some v → p1.intlists a (i + 1) = (v : Int) := by
  have e0 : ¬ ARG_INTLIST = ARG_FILENAME := by decide
  refine ⟨set_elem (write_vals p a 1 vs) a 0 (vs.length : Int), ?_, ?_, ?_⟩
  · unfold parse_arg
    simp only [hd, ht, if_neg e0, if_true, hv, parse_intlist_comma_join a cap vs p hne hr,
      if_pos hcap]
  · simp [set_elem]
  · intro i v hi
    have := write_vals_at a vs 1 p i v hi
    rw [show i + 1 = 1 + i by omega]
    simpa [set_elem, Function.update] using this

set_option maxRecDepth 100000 in
/-- The token `3,5,9` for a destination array of 4 elements gives count 3 and
the values 3, 5, 9 at the indices 1, 2, 3. -/
theorem parse_arg_intlist_3_5_9 :
    ∃ p1, parse_arg (fun _ => none) (fun _ _ _ => none)
        [⟨"-list".toList, none, ARG_INTLIST, Dest.intlist 0 4⟩] "-list".toList
        (some "3,5,9".toList) zero_params = some (0, true, p1) ∧
      p1.intlists 0 0 = 3 ∧ p1.intlists 0 1 = 3 ∧ p1.intlists 0 2 = 5 ∧ p1.intlists 0 3 = 9 := by
  obtain ⟨p1, h1, h2, h3⟩ := parse_arg_intlist_fits (fun _ => none) (fun _ _ _ => none)
    [⟨"-list".toList, none, ARG_INTLIST, Dest.intlist 0 4⟩] "-list".toList
    ⟨"-list".toList, none, ARG_INTLIST, Dest.intlist 0 4⟩ 0 4 [3, 5, 9] zero_params
    (by decide) rfl rfl (by decide) (by decide) (by decide)
  exact ⟨p1, h1, h2, h3 0 3 rfl, h3 1 5 rfl, h3 2 9 rfl⟩

theorem drop_digits (ds r : List Char) : (ds ++ r).drop ds.length = r := List.drop_left ds r

theorem drop_digits_succ (ds : List Char) (c : Char) (r : List Char) :
    (ds ++ c :: r).drop (ds.length + 1) = r := by
  rw [show ds ++ c :: r = (ds ++ [c]) ++ r by simp]
  have h := List.drop_left (ds ++ [c]) r
  rw [List.length_append, List.length_singleton] at h
  exact h

theorem y4m_field_W (len w pos : Nat) (r : List Char) (p : enc_params) :
    y4m_field len 'W' (Nat.toDigits 10 w ++ ' ' :: r) pos p =
      some (some (pos + (Nat.toDigits 10 w).length + 1, r,
        set_int p IntField.width (to_int (min LONG_MAX (w : Int))))) := by
  have hs := strtol_toDigits w ' ' r (by decide)
  simp only [y4m_field, if_true, hs, drop_digits]
  simp [skip_field_unguarded]

theorem y4m_field_H (len h pos : Nat) (r : List Char) (p : enc_params)
    (hlen : pos + (Nat.toDigits 10 h).length < len) :
    y4m_field len 'H' (Nat.toDigits 10 h ++ ' ' :: r) pos p =
      some (some (pos + (Nat.toDigits 10 h).length + 1, r,
        set_int p IntField.height (to_int (min LONG_MAX (h : Int))))) := by
  have hs := strtol_toDigits h ' ' r (by decide)
  have e : ('H' = 'W') = False := by decide
  simp only [y4m_field, e, if_false, if_true, hs, drop_digits]
  simp [skip_field, hlen]

theorem y4m_field_F (len fa fb pos : Nat) (r : List Char) (p : enc_params) :
    y4m_field len 'F' (Nat.toDigits 10 fa ++ ':' :: (Nat.toDigits 10 fb ++
        ' ' :: 'I' :: 'p' :: ' ' :: r)) pos p =
      some (some (pos + ((Nat.toDigits 10 fa).length + 1 + (Nat.toDigits 10 fb).length + 1) + 3,
        r, set_float p FloatField.frame_rate
          (FloatVal.div (to_int (min LONG_MAX (fa : Int))) (to_int (min LONG_MAX (fb : Int)))))) := by
  have hs := strtol_toDigits fa ':' (Nat.toDigits 10 fb ++ ' ' :: 'I' :: 'p' :: ' ' :: r)
    (by decide)
  have hs2 := strtol_toDigits fb ' ' ('I' :: 'p' :: ' ' :: r) (by decide)
  have e1 : ('F' = 'W') = False := by decide
  have e2 : ('F' = 'H') = False := by decide
  have hd : (Nat.toDigits 10 fa ++ ':' :: (Nat.toDigits 10 fb ++ ' ' :: 'I' :: 'p' :: ' ' :: r)).drop
      ((Nat.toDigits 10 fa).length + 1 + (Nat.toDigits 10 fb).length + 1) =
      'I' :: 'p' :: ' ' :: r := by
    rw [Nat.add_assoc, ← List.drop_drop, drop_digits_succ, drop_digits_succ]
  simp only [y4m_field, e1, e2, if_false, if_true, hs, drop_digits_succ, hs2, hd]
  simp [skip_field_unguarded]

theorem y4m_field_A (len an ad pos : Nat) (r : List Char) (p : enc_params)
    (hlen : pos + ((Nat.toDigits 10 an).length + 1 + (Nat.toDigits 10 ad).length) < len) :
    y4m_field len 'A' (Nat.toDigits 10 an ++ ':' :: (Nat.toDigits 10 ad ++ ' ' :: r)) pos p =
      some (some (pos + ((Nat.toDigits 10 an).length + 1 + (Nat.toDigits 10 ad).length) + 1, r,
        set_int (set_int p IntField.aspectnum (to_int (min LONG_MAX (an : Int))))
          IntField.aspectden (to_int (min LONG_MAX (ad : Int))))) := by
  have hs := strtol_toDigits an ':' (Nat.toDigits 10 ad ++ ' ' :: r) (by decide)
  have hs2 := strtol_toDigits ad ' ' r (by decide)
  have e1 : ('A' = 'W') = False := by decide
  have e2 : ('A' = 'H') = False := by decide
  have e3 : ('A' = 'F') = False := by decide
  have e4 : ('A' = 'I') = False := by decide
  have e5 : ('A' = 'C') = False := by decide
  have hd : (Nat.toDigits 10 an ++ ':' :: (Nat.toDigits 10 ad ++ ' ' :: r)).drop
      ((Nat.toDigits 10 an).length + 1 + (Nat.toDigits 10 ad).length) = ' ' :: r := by
    rw [← List.drop_drop, drop_digits_succ, drop_digits]
  simp only [y4m_field, e1, e2, e3, e4, e5, if_false, if_true, hs, drop_digits_succ, hs2, hd]
  simp [skip_field, hlen]

theorem y4m_field_C (len c pos : Nat) (r : List Char) (p : enc_params)
    (hlen : pos + (Nat.toDigits 10 c).length < len) :
    y4m_field len 'C' (Nat.toDigits 10 c ++ '\n' :: r) pos p =
      some (some (pos + (Nat.toDigits 10 c).length, '\n' :: r,
        set_int p IntField.subsample (to_int (min LONG_MAX (c : Int))))) := by
  have hs := strtol_toDigits c '\n' r (by decide)
  obtain ⟨hdig, _, hne⟩ := toDigits_spec c
  obtain ⟨c0, t0, e0⟩ := List.exists_cons_of_ne_nil hne
  have hc0 : c0 ≠ 'm' := by
    intro e
    have := hdig c0 (by rw [e0]; exact List.mem_cons_self _ _)
    rw [e] at this
    exact absurd this (by decide)
  have hm : strncmp_eq (Nat.toDigits 10 c ++ '\n' :: r) "mono".toList = some false := by
    rw [e0]
    simp [strncmp_eq, hc0]
  have e1 : ('C' = 'W') = False := by decide
  have e2 : ('C' = 'H') = False := by decide
  have e3 : ('C' = 'F') = False := by decide
  have e4 : ('C' = 'I') = False := by decide
  simp only [y4m_field, e1, e2, e3, e4, if_false, if_true, hm, Bool.false_eq_true, hs, drop_digits]
  simp [skip_field, hlen]

theorem y4m_loop_cons (len fuel pos : Nat) (c : Char) (cs : List Char) (p : enc_params)
    (pos1 : Nat) (cur1 : List Char) (p1 : enc_params)
    (hpos : pos < len) (hc : c ≠ '\n')
    (hf : y4m_field len c cs (pos + 1) p = some (some (pos1, cur1, p1))) :
    y4m_loop len (fuel + 1) (c :: cs) pos p = y4m_loop len fuel cur1 pos1 p1 := by
  rw [y4m_loop, if_pos hpos, if_neg hc, hf]

theorem y4m_loop_newline (len fuel pos : Nat) (cs : List Char) (p : enc_params)
    (hpos : pos < len) :
    y4m_loop len (fuel + 1) ('\n' :: cs) pos p = some (some (pos, '\n' :: cs, p)) := by
  rw [y4m_loop, if_pos hpos, if_pos rfl]

/-- The header loop on the fields `W H F I A C` in this order. -/
theorem y4m_loop_header (len w h fa fb an ad c : Nat) (r : List Char) (p : enc_params)
    (hlen : 24 + (Nat.toDigits 10 w).length + (Nat.toDigits 10 h).length +
      (Nat.toDigits 10 fa).length + (Nat.toDigits 10 fb).length + (Nat.toDigits 10 an).length +
      (Nat.toDigits 10 ad).length + (Nat.toDigits 10 c).length < len) :
    y4m_loop len 256 ('W' :: (Nat.toDigits 10 w ++ ' ' :: 'H' :: (Nat.toDigits 10 h ++
        ' ' :: 'F' :: (Nat.toDigits 10 fa ++ ':' :: (Nat.toDigits 10 fb ++
        ' ' :: 'I' :: 'p' :: ' ' :: 'A' :: (Nat.toDigits 10 an ++ ':' :: (Nat.toDigits 10 ad ++
        ' ' :: 'C' :: (Nat.toDigits 10 c ++ '\n' :: r)))))))) 10 p =
      some (some (24 + (Nat.toDigits 10 w).length + (Nat.toDigits 10 h).length +
        (Nat.toDigits 10 fa).length + (Nat.toDigits 10 fb).length + (Nat.toDigits 10 an).length +
        (Nat.toDigits 10 ad).length + (Nat.toDigits 10 c).length, '\n' :: r,
        set_int (set_int (set_int (set_float (set_int (set_int p
          IntField.width (to_int (min LONG_MAX (w : Int))))
          IntField.height (to_int (min LONG_MAX (h : Int))))
          FloatField.frame_rate
            (FloatVal.div (to_int (min LONG_MAX (fa : Int))) (to_int (min LONG_MAX (fb : Int)))))
          IntField.aspectnum (to_int (min LONG_MAX (an : Int))))
          IntField.aspectden (to_int (min LONG_MAX (ad : Int))))
          IntField.subsample (to_int (min LONG_MAX (c : Int))))) := by
  rw [y4m_loop_cons len 255 10 'W' _ p _ _ _ (by omega) (by decide) (y4m_field_W _ _ _ _ _)]
  rw [y4m_loop_cons len 254 _ 'H' _ _ _ _ _ (by omega) (by decide)
    (y4m_field_H _ _ _ _ _ (by omega))]
  rw [y4m_loop_cons len 253 _ 'F' _ _ _ _ _ (by omega) (by decide) (y4m_field_F _ _ _ _ _ _)]
  rw [y4m_loop_cons len 252 _ 'A' _ _ _ _ _ (by omega) (by decide)
    (y4m_field_A _ _ _ _ _ _ (by omega))]
  rw [y4m_loop_cons len 251 _ 'C' _ _ _ _ _ (by omega) (by decide)
    (y4m_field_C _ _ _ _ _ (by omega))]
  rw [y4m_loop_newline len 250 _ _ _ (by omega)]
  simp only [Option.some.injEq, Prod.mk.injEq, and_true]
  omega

theorem y4m_header_length (w h fa fb an ad c : Nat) :
    (y4m_header w h fa fb an ad c).length =
      24 + (Nat.toDigits 10 w).length + (Nat.toDigits 10 h).length +
      (Nat.toDigits 10 fa).length + (Nat.toDigits 10 fb).length + (Nat.toDigits 10 an).length +
      (Nat.toDigits 10 ad).length + (Nat.toDigits 10 c).length := by
  have e1 : "YUV4MPEG2 W".toList.length = 11 := rfl
  have e2 : " H".toList.length = 2 := rfl
  have e3 : " F".toList.length = 2 := rfl
  have e4 : ":".toList.length = 1 := rfl
  have e5 : " Ip A".toList.length = 5 := rfl
  have e6 : " C".toList.length = 2 := rfl
  simp only [y4m_header, List.length_append, e1, e2, e3, e4, e5, e6]
  omega

theorem y4m_header_append (w h fa fb an ad c : Nat) (r : List Char) :
    y4m_header w h fa fb an ad c ++ ("\nFRAME\n".toList ++ r) =
      'Y' :: 'U' :: 'V' :: '4' :: 'M' :: 'P' :: 'E' :: 'G' :: '2' :: ' ' ::
      'W' :: (Nat.toDigits 10 w ++ ' ' :: 'H' :: (Nat.toDigits 10 h ++
        ' ' :: 'F' :: (Nat.toDigits 10 fa ++ ':' :: (Nat.toDigits 10 fb ++
        ' ' :: 'I' :: 'p' :: ' ' :: 'A' :: (Nat.toDigits 10 an ++ ':' :: (Nat.toDigits 10 ad ++
        ' ' :: 'C' :: (Nat.toDigits 10 c ++
          '\n' :: 'F' :: 'R' :: 'A' :: 'M' :: 'E' :: '\n' :: r))))))) := by
  simp only [y4m_header, List.append_assoc]
  rfl

theorem fread_buf_header (hd : List Char) (rest : List Char) (hlen : hd.length < 249) :
    ∃ r, fread_buf (hd ++ ("\nFRAME\n".toList ++ rest)) = hd ++ ("\nFRAME\n".toList ++ r) := by
  have e : "\nFRAME\n".toList.length = 7 := rfl
  unfold fread_buf
  split
  · refine ⟨rest.take (255 - hd.length - 7) ++ [NUL], ?_⟩
    rw [List.take_append_eq_append_take, List.take_of_length_le (by omega),
      List.take_append_eq_append_take, List.take_of_length_le (by rw [e]; omega), e]
    simp only [List.append_assoc]
  · exact ⟨rest, rfl⟩

theorem y4m_probe_of (data cur : List Char) (p p1 : enc_params) (pos : Nat)
    (hs : strncmp_eq (fread_buf data) "YUV4MPEG2 ".toList = some true)
    (hloop : y4m_loop (min 256 data.length) 256 ((fread_buf data).drop 10) 10 p =
      some (some (pos, cur, p1)))
    (hf : strncmp_eq cur "\nFRAME\n".toList = some true) :
    y4m_probe data p = some (some (set_int (set_int p1 IntField.file_headerlen ((pos : Int) + 1))
      IntField.frame_headerlen 6)) := by
  unfold y4m_probe
  simp only [hs, hloop, hf]

/-- The probe on a file that begins with the header line, a newline, `FRAME`
and a newline. -/
theorem y4m_probe_header (w h fa fb an ad c : Nat) (rest : List Char) (p : enc_params)
    (hlen : (y4m_header w h fa fb an ad c).length < 249) :
    y4m_probe (y4m_header w h fa fb an ad c ++ ("\nFRAME\n".toList ++ rest)) p =
      some (some (set_int (set_int
        (set_int (set_int (set_int (set_float (set_int (set_int p
          IntField.width (to_int (min LONG_MAX (w : Int))))
          IntField.height (to_int (min LONG_MAX (h : Int))))
          FloatField.frame_rate
            (FloatVal.div (to_int (min LONG_MAX (fa : Int))) (to_int (min LONG_MAX (fb : Int)))))
          IntField.aspectnum (to_int (min LONG_MAX (an : Int))))
          IntField.aspectden (to_int (min LONG_MAX (ad : Int))))
          IntField.subsample (to_int (min LONG_MAX (c : Int))))
        IntField.file_headerlen (((y4m_header w h fa fb an ad c).length : Int) + 1))
        IntField.frame_headerlen 6)) := by
  obtain ⟨r, hr⟩ := fread_buf_header _ rest hlen
  have e : "\nFRAME\n".toList.length = 7 := rfl
  have hl := y4m_header_length w h fa fb an ad c
  have hdata : (y4m_header w h fa fb an ad c).length + 7 ≤
      (y4m_header w h fa fb an ad c ++ ("\nFRAME\n".toList ++ rest)).length := by
    simp only [List.length_append, e]
    omega
  have hloop := y4m_loop_header
    (min 256 (y4m_header w h fa fb an ad c ++ ("\nFRAME\n".toList ++ rest)).length)
    w h fa fb an ad c ('F' :: 'R' :: 'A' :: 'M' :: 'E' :: '\n' :: r) p (by
      rw [← hl]
      omega)
  rw [← hl] at hloop
  refine y4m_probe_of _ ('\n' :: 'F' :: 'R' :: 'A' :: 'M' :: 'E' :: '\n' :: r) p _ _ ?_ ?_
    (by simp [strncmp_eq])
  · rw [hr, y4m_header_append w h fa fb an ad c r]
    simp [strncmp_eq]
  · rw [hr, y4m_header_append w h fa fb an ad c r]
    simp only [List.drop_succ_cons, List.drop_zero]
    exact hloop

theorem to_int_min (n : Nat) (h : (n : Int) ≤ INT_MAX) : to_int (min LONG_MAX (n : Int)) = n := by
  have h0 : INT_MIN ≤ (n : Int) := by
    simp only [INT_MIN]
    omega
  have e : min LONG_MAX (n : Int) = n := by
    simp only [INT_MAX] at h
    simp only [LONG_MAX]
    omega
  rw [e]
  exact to_int_of_range _ h0 h

/-- C10: when the input file named by the parsed arguments begins with a
header line `YUV4MPEG2 W<w> H<h> F<a>:<b> Ip A<n>:<d> C<c>` with decimal fields
(`w`, `h`, `n`, `d`, `c` values of `int`), shorter than 249 bytes and followed
by a newline, `FRAME` and a newline, `parse_config_params` returns a parameter
structure with width `w`, height `h`, aspect ratio `n:d`, subsample `c`,
`file_headerlen` the length of the header line plus one and `frame_headerlen` 6. -/
theorem C10_y4m_header (CDEF : Bool) (fs : List Char → Option (List Char)) (depth argc : Nat)
    (argv : List (Option (List Char))) (p2 : enc_params) (path : List Char)
    (w h fa fb an ad c : Nat) (rest : List Char)
    (hparse : parse_params fs depth argc argv (default_params CDEF) (param_table CDEF) =
      some (0, p2))
    (hin : p2.strs StrField.infilestr = some path)
    (hfile : fs path = some (y4m_header w h fa fb an ad c ++ ("\nFRAME\n".toList ++ rest)))
    (hlen : (y4m_header w h fa fb an ad c).length < 249)
    (hw : (w : Int) ≤ INT_MAX) (hh : (h : Int) ≤ INT_MAX) (han : (an : Int) ≤ INT_MAX)
    (had : (ad : Int) ≤ INT_MAX) (hc : (c : Int) ≤ INT_MAX) :
    ∃ p, parse_config_params CDEF fs depth argc argv = some (some p) ∧
      p.ints IntField.width = w ∧ p.ints IntField.height = h ∧
      p.ints IntField.aspectnum = an ∧ p.ints IntField.aspectden = ad ∧
      p.ints IntField.subsample = c ∧
      p.ints IntField.file_headerlen = ((y4m_header w h fa fb an ad c).length : Int) + 1 ∧
      p.ints IntField.frame_headerlen = 6 := by
  have hpc : parse_config_params CDEF fs depth argc argv =
      y4m_probe (y4m_header w h fa fb an ad c ++ ("\nFRAME\n".toList ++ rest)) p2 := by
    rw [parse_config_params_eq]
    simp only [hparse, lt_self_iff_false, if_false, hin, hfile]
  rw [y4m_probe_header w h fa fb an ad c rest p2 hlen] at hpc
  refine ⟨_, hpc, ?_⟩
  simp [set_int, set_float, Function.update, to_int_min, hw, hh, han, had, hc]

set_option maxRecDepth 100000 in
/-- Witness of C10: `-if in.y4m` with the header line
`YUV4MPEG2 W176 H144 F25:1 Ip A1:1 C420`. -/
theorem C10_y4m_header_witness :
    ∃ p, parse_config_params true example_y4m_fs 0 3
        (command_line ["-if".toList, "in.y4m".toList]) = some (some p) ∧
      p.ints IntField.width = 176 ∧ p.ints IntField.height = 144 ∧
      p.ints IntField.aspectnum = 1 ∧ p.ints IntField.aspectden = 1 ∧
      p.ints IntField.subsample = 420 ∧ p.ints IntField.file_headerlen = 39 ∧
      p.ints IntField.frame_headerlen = 6 := by
  obtain ⟨p, h0, h1, h2, h3, h4, h5, h6, h7⟩ := C10_y4m_header true example_y4m_fs 0 3
    (command_line ["-if".toList, "in.y4m".toList])
    (set_str (default_params true) StrField.infilestr "in.y4m".toList) "in.y4m".toList
    176 144 25 1 1 1 420 "abcd".toList rfl rfl (by decide) (by decide)
    (by decide) (by decide) (by decide) (by decide) (by decide)
  exact ⟨p, h0, h1, h2, h3, h4, h5, by rw [h6]; decide, h7⟩

/-! ## C11: the frame rate of the header -/

/-- The frame rate that `parse_config_params` takes from the field `F<a>:<b>` of
the header line is `(float)a/b`. -/
theorem parse_config_params_frame_rate (CDEF : Bool) (fs : List Char → Option (List Char))
    (depth argc : Nat) (argv : List (Option (List Char))) (p2 : enc_params) (path : List Char)
    (w h fa fb an ad c : Nat) (rest : List Char)
    (hparse : parse_params fs depth argc argv (default_params CDEF) (param_table CDEF) =
      some (0, p2))
    (hin : p2.strs StrField.infilestr = some path)
    (hfile : fs path = some (y4m_header w h fa fb an ad c ++ ("\nFRAME\n".toList ++ rest)))
    (hlen : (y4m_header w h fa fb an ad c).length < 249)
    (hfa : (fa : Int) ≤ INT_MAX) (hfb : (fb : Int) ≤ INT_MAX) :
    ∃ p, parse_config_params CDEF fs depth argc argv = some (some p) ∧
      p.floats FloatField.frame_rate = FloatVal.div fa fb := by
  have hpc : parse_config_params CDEF fs depth argc argv =
      y4m_probe (y4m_header w h fa fb an ad c ++ ("\nFRAME\n".toList ++ rest)) p2 := by
    rw [parse_config_params_eq]
    simp only [hparse, lt_self_iff_false, if_false, hin, hfile]
  rw [y4m_probe_header w h fa fb an ad c rest p2 hlen] at hpc
  refine ⟨_, hpc, ?_⟩
  simp [set_int, set_float, Function.update, to_int_min, hfa, hfb]

/-- C11, amended: when the input file named by the parsed arguments begins with
the header line `YUV4MPEG2 W176 H144 F25:1 Ip A1:1 C420`, a newline, `FRAME` and
a newline, `parse_config_params` returns a parameter structure whose frame rate
is `(float)25/1`, of exact value 25: the first integer of the `F` field divided
by the second. -/
theorem C11_frame_rate (CDEF : Bool) (fs : List Char → Option (List Char)) (depth argc : Nat)
    (argv : List (Option (List Char))) (p2 : enc_params) (path : List Char) (rest : List Char)
    (hparse : parse_params fs depth argc argv (default_params CDEF) (param_table CDEF) =
      some (0, p2))
    (hin : p2.strs StrField.infilestr = some path)
    (hfile : fs path =
      some ("YUV4MPEG2 W176 H144 F25:1 Ip A1:1 C420\nFRAME\n".toList ++ rest)) :
    ∃ p, parse_config_params CDEF fs depth argc argv = some (some p) ∧
      p.floats FloatField.frame_rate = FloatVal.div 25 1 ∧
      (p.floats FloatField.frame_rate).exact = some 25 := by
  obtain ⟨p, hp, hf⟩ := parse_config_params_frame_rate CDEF fs depth argc argv p2 path
    176 144 25 1 1 1 420 rest hparse hin hfile (by decide) (by decide) (by decide)
  refine ⟨p, hp, hf, ?_⟩
  rw [hf]
  simp [FloatVal.exact]

set_option maxRecDepth 100000 in
/-- Witness of C11: `-if in.y4m` with the file of `example_y4m_fs`. -/
theorem C11_frame_rate_witness :
    ∃ p, parse_config_params true example_y4m_fs 0 3
        (command_line ["-if".toList, "in.y4m".toList]) = some (some p) ∧
      p.floats FloatField.frame_rate = FloatVal.div 25 1 ∧
      (p.floats FloatField.frame_rate).exact = some 25 :=
  C11_frame_rate true example_y4m_fs 0 3 (command_line ["-if".toList, "in.y4m".toList])
    (set_str (default_params true) StrField.infilestr "in.y4m".toList) "in.y4m".toList
    "abcd".toList rfl rfl rfl

set_option maxRecDepth 100000 in
/-- C11 (counterexample): for the header line
`YUV4MPEG2 W176 H144 F25:1 Ip A1:1 C420` the frame rate that
`parse_config_params` returns has the exact value 25, not 1/25. -/
theorem C11_counterexample :
    ∃ p, parse_config_params true example_y4m_fs 0 3
        (command_line ["-if".toList, "in.y4m".toList]) = some (some p) ∧
      (p.floats FloatField.frame_rate).exact = some 25 ∧
      (p.floats FloatField.frame_rate).exact ≠ some (1 / 25) := by
  obtain ⟨p, hp, hf⟩ := parse_config_params_frame_rate true example_y4m_fs 0 3
    (command_line ["-if".toList, "in.y4m".toList])
    (set_str (default_params true) StrField.infilestr "in.y4m".toList) "in.y4m".toList
    176 144 25 1 1 1 420 "abcd".toList rfl rfl rfl (by decide) (by decide) (by decide)
  refine ⟨p, hp, ?_, ?_⟩
  · rw [hf]
    simp [FloatVal.exact]
  · rw [hf]
    simp [FloatVal.exact]
    norm_num

/-! ## C12: the interlacing field -/

set_option maxRecDepth 100000 in
/-- The probe on the file with the field `Ii` after the frame rate field: the
loop at the end of the `F` case runs over the field, the `I` case is not
entered. -/
theorem y4m_probe_interlaced_after_F (p : enc_params) :
    y4m_probe "YUV4MPEG2 W176 H144 F25:1 Ii A1:1 C420\nFRAME\nabcd".toList p =
      some (some (set_int (set_int (set_int (set_int (set_int (set_float (set_int (set_int p
        IntField.width 176) IntField.height 144) FloatField.frame_rate (FloatVal.div 25 1))
        IntField.aspectnum 1) IntField.aspectden 1) IntField.subsample 420)
        IntField.file_headerlen 39) IntField.frame_headerlen 6)) := rfl

set_option maxRecDepth 100000 in
/-- The probe on a file with the field `Ii` before the frame rate field
returns `NULL`. -/
theorem y4m_probe_interlaced_before_F (p : enc_params) :
    y4m_probe "YUV4MPEG2 W176 H144 Ii F25:1 A1:1 C420\nFRAME\nabcd".toList p = some none := rfl

set_option maxRecDepth 100000 in
/-- C12: for the input file that begins with
`YUV4MPEG2 W176 H144 F25:1 Ii A1:1 C420`, a newline, `FRAME` and a newline,
`parse_config_params` does not return `NULL`: it returns a parameter structure
with the geometry of the header. -/
theorem C12_interlaced_accepted :
    ∃ p, parse_config_params true interlaced_y4m_fs 0 3
        (command_line ["-if".toList, "in.y4m".toList]) = some (some p) ∧
      p.ints IntField.width = 176 ∧ p.ints IntField.height = 144 ∧
      p.ints IntField.subsample = 420 ∧ p.ints IntField.file_headerlen = 39 := by
  have hparse : parse_params interlaced_y4m_fs 0 3
      (command_line ["-if".toList, "in.y4m".toList]) (default_params true) (param_table true) =
      some (0, set_str (default_params true) StrField.infilestr "in.y4m".toList) := rfl
  have hpc : parse_config_params true interlaced_y4m_fs 0 3
      (command_line ["-if".toList, "in.y4m".toList]) =
      y4m_probe "YUV4MPEG2 W176 H144 F25:1 Ii A1:1 C420\nFRAME\nabcd".toList
        (set_str (default_params true) StrField.infilestr "in.y4m".toList) := by
    rw [parse_config_params_eq]
    simp only [hparse, lt_self_iff_false, if_false]
    rfl
  rw [y4m_probe_interlaced_after_F] at hpc
  exact ⟨_, hpc, rfl, rfl, rfl, rfl⟩

/-! ## `check_parameters` -/

theorem tmod_ne_zero_iff (a b : Int) : Int.tmod a b ≠ 0 ↔ ¬ b ∣ a :=
  ⟨fun h hd => h (Int.tmod_eq_zero_of_dvd hd), fun h he => h (Int.dvd_of_tmod_eq_zero he)⟩

theorem c_rem_eq_some (a b r : Int) (h : c_rem a b = some r) : (r ≠ 0 ↔ ¬ b ∣ a) := by
  unfold c_rem at h
  split_ifs at h
  simp only [Option.some.injEq] at h
  rw [← h]
  exact tmod_ne_zero_iff a b

theorem c_rem_eq_none (a b : Int) (h : c_rem a b = none) :
    b = 0 ∨ (a = INT_MIN ∧ b = -1) := by
  unfold c_rem at h
  by_cases h0 : b = 0
  · exact Or.inl h0
  · by_cases h1 : a = INT_MIN ∧ b = -1
    · exact Or.inr h1
    · rw [if_neg h0, if_neg h1] at h
      exact absurd h (by simp)

theorem c_rem_eq_some_defined (a b r : Int) (h : c_rem a b = some r) :
    b ≠ 0 ∧ ¬ (a = INT_MIN ∧ b = -1) := by
  unfold c_rem at h
  by_cases h0 : b = 0
  · rw [if_pos h0] at h
    exact absurd h (by simp)
  · by_cases h1 : a = INT_MIN ∧ b = -1
    · rw [if_neg h0, if_pos h1] at h
      exact absurd h (by simp)
    · exact ⟨h0, h1⟩

theorem c_rem_defined (a b : Int) (h0 : b ≠ 0) (h1 : ¬ (a = INT_MIN ∧ b = -1)) :
    c_rem a b = some (Int.tmod a b) := by
  unfold c_rem
  rw [if_neg h0, if_neg h1]

/-- The statements after the dyadic block: the result is undefined (an
undefined remainder), or the diagnostic of the first check from `reorder_ref` on
that the structure violates, or the structure with `frame_bitdepth` forced when
it violates none. -/
theorem check_tail_first (MAX_REF_FRAMES MAX_SB_SIZE : Int) (log2i : Int → Int) (q : enc_params) :
    (check_tail MAX_SB_SIZE q = none ∧ ¬ rem_defined q) ∨
    (∃ d, check_tail MAX_SB_SIZE q = some (Except.error d) ∧ 7 ≤ d.index ∧
      violated MAX_REF_FRAMES MAX_SB_SIZE log2i q d ∧
      ∀ e : Diag, 7 ≤ e.index → e.index < d.index →
        ¬ violated MAX_REF_FRAMES MAX_SB_SIZE log2i q e) ∨
    (check_tail MAX_SB_SIZE q =
        some (Except.ok (if q.ints IntField.bitdepth > 8 then
          set_int q IntField.frame_bitdepth 16 else q)) ∧ rem_defined q ∧
      ∀ e : Diag, 7 ≤ e.index → ¬ violated MAX_REF_FRAMES MAX_SB_SIZE log2i q e) := by
  by_cases h8 : q.ints IntField.num_reorder_pics > 0 ∧ q.ints IntField.max_num_ref < 2
  · refine Or.inr (Or.inl ⟨Diag.reorder_ref, ?_, by decide, h8, ?_⟩)
    · simp only [check_tail, if_pos h8, fatalerror]
    · intro e h7 he
      cases e <;> first | exact absurd he (by decide) | exact absurd h7 (by decide)
  have v8 : ¬ violated MAX_REF_FRAMES MAX_SB_SIZE log2i q Diag.reorder_ref := h8
  cases hr : c_rem (q.ints IntField.intra_period) (q.ints IntField.num_reorder_pics + 1) with
  | none =>
    left
    refine ⟨by simp only [check_tail, if_neg h8, hr], fun hdef => ?_⟩
    rcases c_rem_eq_none _ _ hr with h0 | h0
    · exact hdef.1 h0
    · exact hdef.2 h0
  | some r =>
    have hd := c_rem_eq_some _ _ _ hr
    by_cases h9 : r ≠ 0
    · refine Or.inr (Or.inl ⟨Diag.intra_period, ?_, by decide, hd.1 h9, ?_⟩)
      · simp only [check_tail, if_neg h8, hr, if_pos h9, fatalerror]
      · intro e h7 he
        cases e <;> first | exact absurd he (by decide) | exact absurd h7 (by decide) | assumption
    have v9 : ¬ violated MAX_REF_FRAMES MAX_SB_SIZE log2i q Diag.intra_period :=
      fun hv => h9 (hd.2 hv)
    by_cases h10 : q.ints IntField.sync ≠ 0 ∧ q.ints IntField.encoder_speed < 2
    · refine Or.inr (Or.inl ⟨Diag.sync, ?_, by decide, h10, ?_⟩)
      · simp only [check_tail, if_neg h8, hr, if_neg h9, if_pos h10, fatalerror]
      · intro e h7 he
        cases e <;> first | exact absurd he (by decide) | exact absurd h7 (by decide) | assumption
    have v10 : ¬ violated MAX_REF_FRAMES MAX_SB_SIZE log2i q Diag.sync := h10
    by_cases h11 : q.ints IntField.bitrate > 0 ∧ q.ints IntField.num_reorder_pics > 0
    · refine Or.inr (Or.inl ⟨Diag.bitrate, ?_, by decide, h11, ?_⟩)
      · simp only [check_tail, if_neg h8, hr, if_neg h9, if_neg h10, if_pos h11, fatalerror]
      · intro e h7 he
        cases e <;> first | exact absurd he (by decide) | exact absurd h7 (by decide) | assumption
    have v11 : ¬ violated MAX_REF_FRAMES MAX_SB_SIZE log2i q Diag.bitrate := h11
    by_cases h12 : q.ints IntField.log2_sb_size < 6 ∨
        q.ints IntField.log2_sb_size > MAX_SB_SIZE
    · refine Or.inr (Or.inl ⟨Diag.log2_sb_size, ?_, by decide, h12, ?_⟩)
      · simp only [check_tail, if_neg h8, hr, if_neg h9, if_neg h10, if_neg h11, if_pos h12,
          fatalerror]
      · intro e h7 he
        cases e <;> first | exact absurd he (by decide) | exact absurd h7 (by decide) | assumption
    have v12 : ¬ violated MAX_REF_FRAMES MAX_SB_SIZE log2i q Diag.log2_sb_size := h12
    by_cases h13 : q.ints IntField.qmtx ≠ 0 ∧
        (q.ints IntField.qmtx_offset < -32 ∨ q.ints IntField.qmtx_offset > 31)
    · refine Or.inr (Or.inl ⟨Diag.qmtx_offset, ?_, by decide, h13, ?_⟩)
      · simp only [check_tail, if_neg h8, hr, if_neg h9, if_neg h10, if_neg h11, if_neg h12,
          if_pos h13, fatalerror]
      · intro e h7 he
        cases e <;> first | exact absurd he (by decide) | exact absurd h7 (by decide) | assumption
    have v13 : ¬ violated MAX_REF_FRAMES MAX_SB_SIZE log2i q Diag.qmtx_offset := h13
    by_cases h14 : q.ints IntField.interp_ref = 2 ∧ q.ints IntField.dyadic_coding = 0 ∧
        q.ints IntField.num_reorder_pics ≠ 2
    · refine Or.inr (Or.inl ⟨Diag.interp_ref, ?_, by decide, h14, ?_⟩)
      · simp only [check_tail, if_neg h8, hr, if_neg h9, if_neg h10, if_neg h11, if_neg h12,
          if_neg h13, if_pos h14, fatalerror]
      · intro e h7 he
        cases e <;> first | exact absurd he (by decide) | exact absurd h7 (by decide) | assumption
    have v14 : ¬ violated MAX_REF_FRAMES MAX_SB_SIZE log2i q Diag.interp_ref := h14
    by_cases h15 : q.ints IntField.subsample ≠ 420 ∧ q.ints IntField.subsample ≠ 444 ∧
        q.ints IntField.subsample ≠ 422 ∧ q.ints IntField.subsample ≠ 400
    · refine Or.inr (Or.inl ⟨Diag.subsample, ?_, by decide, by simpa [violated] using h15, ?_⟩)
      · simp only [check_tail, if_neg h8, hr, if_neg h9, if_neg h10, if_neg h11, if_neg h12,
          if_neg h13, if_neg h14, if_pos h15, fatalerror]
      · intro e h7 he
        cases e <;> first | exact absurd he (by decide) | exact absurd h7 (by decide) | assumption
    have v15 : ¬ violated MAX_REF_FRAMES MAX_SB_SIZE log2i q Diag.subsample := by simpa [violated] using h15
    by_cases h16 : q.ints IntField.bitdepth ≠ 8 ∧ q.ints IntField.bitdepth ≠ 10 ∧
        q.ints IntField.bitdepth ≠ 12
    · refine Or.inr (Or.inl ⟨Diag.bitdepth, ?_, by decide, by simpa [violated] using h16, ?_⟩)
      · simp only [check_tail, if_neg h8, hr, if_neg h9, if_neg h10, if_neg h11, if_neg h12,
          if_neg h13, if_neg h14, if_neg h15, if_pos h16, fatalerror]
      · intro e h7 he
        cases e <;> first | exact absurd he (by decide) | exact absurd h7 (by decide) | assumption
    have v16 : ¬ violated MAX_REF_FRAMES MAX_SB_SIZE log2i q Diag.bitdepth := by simpa [violated] using h16
    by_cases h17 : q.ints IntField.input_bitdepth ≠ 8 ∧ q.ints IntField.input_bitdepth ≠ 10 ∧
        q.ints IntField.input_bitdepth ≠ 12
    · refine Or.inr (Or.inl ⟨Diag.input_bitdepth, ?_, by decide, by simpa [violated] using h17, ?_⟩)
      · simp only [check_tail, if_neg h8, hr, if_neg h9, if_neg h10, if_neg h11, if_neg h12,
          if_neg h13, if_neg h14, if_neg h15, if_neg h16, if_pos h17, fatalerror]
      · intro e h7 he
        cases e <;> first | exact absurd he (by decide) | exact absurd h7 (by decide) | assumption
    have v17 : ¬ violated MAX_REF_FRAMES MAX_SB_SIZE log2i q Diag.input_bitdepth := by simpa [violated] using h17
    refine Or.inr (Or.inr ⟨?_, c_rem_eq_some_defined _ _ _ hr, ?_⟩)
    · simp only [check_tail, if_neg h8, hr, if_neg h9, if_neg h10, if_neg h11, if_neg h12,
        if_neg h13, if_neg h14, if_neg h15, if_neg h16, if_neg h17]
      by_cases hb : q.ints IntField.bitdepth > 8
      · rw [if_pos hb, if_pos hb]
      · rw [if_neg hb, if_neg hb]
    · intro e h7
      cases e <;> first | exact absurd h7 (by decide) | assumption

/-- The sixth condition is always defined, and holds exactly when the check
`subgop` is violated. -/
theorem subgop_cond_cases (MAX_REF_FRAMES MAX_SB_SIZE : Int) (log2i : Int → Int)
    (p : enc_params) :
    (subgop_cond p = some true ∧ violated MAX_REF_FRAMES MAX_SB_SIZE log2i p Diag.subgop) ∨
    (subgop_cond p = some false ∧ ¬ violated MAX_REF_FRAMES MAX_SB_SIZE log2i p Diag.subgop) := by
  by_cases hc : p.ints IntField.num_reorder_pics > 0 ∧ p.ints IntField.HQperiod > 1
  · have h0 : p.ints IntField.num_reorder_pics + 1 ≠ 0 := by omega
    have h1 : ¬ (p.ints IntField.HQperiod = INT_MIN ∧
        p.ints IntField.num_reorder_pics + 1 = -1) := by omega
    have hs : subgop_cond p = some (decide (Int.tmod (p.ints IntField.HQperiod)
        (p.ints IntField.num_reorder_pics + 1) ≠ 0)) := by
      simp only [subgop_cond, if_pos hc, c_rem_defined _ _ h0 h1]
    by_cases hr : Int.tmod (p.ints IntField.HQperiod)
        (p.ints IntField.num_reorder_pics + 1) ≠ 0
    · left
      rw [hs, decide_eq_true hr]
      exact ⟨rfl, hc.1, hc.2, (tmod_ne_zero_iff _ _).1 hr⟩
    · right
      rw [hs, decide_eq_false hr]
      exact ⟨rfl, fun hv => hr ((tmod_ne_zero_iff _ _).2 hv.2.2)⟩
  · right
    refine ⟨by simp only [subgop_cond, if_neg hc], fun hv => hc ⟨hv.1, hv.2.1⟩⟩

/-- The dyadic block: undefined (an undefined shift), or the diagnostic `dyadic` when that check is
violated, or the structure with `dyadic_coding` cleared for
`num_reorder_pics = 2`. -/
theorem check_dyadic_cases (MAX_REF_FRAMES MAX_SB_SIZE : Int) (log2i : Int → Int)
    (p : enc_params) :
    (check_dyadic log2i p = none ∧ p.ints IntField.dyadic_coding ≠ 0 ∧
      p.ints IntField.num_reorder_pics ≠ 2 ∧
      shl_one (log2i (p.ints IntField.num_reorder_pics + 1)) = none) ∨
    (check_dyadic log2i p = some (Except.error Diag.dyadic) ∧
      violated MAX_REF_FRAMES MAX_SB_SIZE log2i p Diag.dyadic) ∨
    (check_dyadic log2i p = some (Except.ok
        (if p.ints IntField.dyadic_coding ≠ 0 ∧ p.ints IntField.num_reorder_pics = 2 then
          set_int p IntField.dyadic_coding 0 else p)) ∧
      ¬ violated MAX_REF_FRAMES MAX_SB_SIZE log2i p Diag.dyadic) := by
  by_cases hd : p.ints IntField.dyadic_coding ≠ 0
  · by_cases hn : p.ints IntField.num_reorder_pics = 2
    · refine Or.inr (Or.inr ⟨?_, fun hv => hv.2.1 hn⟩)
      simp only [check_dyadic, if_pos hd, if_pos hn, if_pos (And.intro hd hn)]
    · cases hs : shl_one (log2i (p.ints IntField.num_reorder_pics + 1)) with
      | none =>
        left
        refine ⟨?_, hd, hn, rfl⟩
        simp only [check_dyadic, if_pos hd, if_neg hn, hs]
      | some v =>
        by_cases hv : p.ints IntField.num_reorder_pics + 1 ≠ v
        · refine Or.inr (Or.inl ⟨?_, hd, hn, ?_⟩)
          · simp only [check_dyadic, if_pos hd, if_neg hn, hs, if_pos hv, fatalerror]
          · rw [hs]
            intro he
            exact hv (Option.some.inj he).symm
        · refine Or.inr (Or.inr ⟨?_, ?_⟩)
          · simp only [check_dyadic, if_pos hd, if_neg hn, hs, if_neg hv,
              if_neg (fun h : p.ints IntField.dyadic_coding ≠ 0 ∧
                p.ints IntField.num_reorder_pics = 2 => hn h.2)]
          · intro hx
            apply hx.2.2
            rw [hs, not_not.1 hv]
  · refine Or.inr (Or.inr ⟨?_, fun hv => hd hv.1⟩)
    simp only [check_dyadic, if_neg hd,
      if_neg (fun h : p.ints IntField.dyadic_coding ≠ 0 ∧
        p.ints IntField.num_reorder_pics = 2 => hd h.1)]

/-- Clearing `dyadic_coding` for `num_reorder_pics = 2` changes the condition of
no check after the dyadic block. -/
theorem violated_clear (MAX_REF_FRAMES MAX_SB_SIZE : Int) (log2i : Int → Int)
    (p : enc_params) (hd : p.ints IntField.dyadic_coding ≠ 0)
    (hn : p.ints IntField.num_reorder_pics = 2) (e : Diag) (he : 7 ≤ e.index) :
    violated MAX_REF_FRAMES MAX_SB_SIZE log2i (set_int p IntField.dyadic_coding 0) e ↔
      violated MAX_REF_FRAMES MAX_SB_SIZE log2i p e := by
  cases e <;> first
    | exact absurd he (by decide)
    | simp [violated, set_int, Function.update, hn, hd]

/-- The result of `check_parameters` is undefined (an undefined remainder or
shift), or the diagnostic of the first check in source order that the structure
violates, or, when the structure violates no check, the structure with
`dyadic_coding` cleared for `num_reorder_pics = 2` and `frame_bitdepth` forced
to 16 for `bitdepth > 8`. -/
theorem check_parameters_first (MAX_REF_FRAMES MAX_SB_SIZE : Int) (log2i : Int → Int)
    (p : enc_params) :
    (check_parameters MAX_REF_FRAMES MAX_SB_SIZE log2i p = none ∧
      (¬ rem_defined p ∨ (p.ints IntField.dyadic_coding ≠ 0 ∧
        p.ints IntField.num_reorder_pics ≠ 2 ∧
        shl_one (log2i (p.ints IntField.num_reorder_pics + 1)) = none))) ∨
    (∃ d, check_parameters MAX_REF_FRAMES MAX_SB_SIZE log2i p = some (Except.error d) ∧
      violated MAX_REF_FRAMES MAX_SB_SIZE log2i p d ∧
      ∀ e : Diag, e.index < d.index → ¬ violated MAX_REF_FRAMES MAX_SB_SIZE log2i p e) ∨
    (check_parameters MAX_REF_FRAMES MAX_SB_SIZE log2i p = some (Except.ok (normalized p)) ∧
      rem_defined p ∧ ∀ e : Diag, ¬ violated MAX_REF_FRAMES MAX_SB_SIZE log2i p e) := by
  by_cases h1 : p.ints IntField.num_frames ≤ 0
  · refine Or.inr (Or.inl ⟨Diag.num_frames, ?_, h1, ?_⟩)
    · simp only [check_parameters, if_pos h1, fatalerror]
    · intro e he
      cases e <;> exact absurd he (by decide)
  have v1 : ¬ violated MAX_REF_FRAMES MAX_SB_SIZE log2i p Diag.num_frames := h1
  by_cases h2 : Int.tmod (p.ints IntField.width) 8 ≠ 0 ∨ Int.tmod (p.ints IntField.height) 8 ≠ 0
  · refine Or.inr (Or.inl ⟨Diag.width_height, ?_, ?_, ?_⟩)
    · simp only [check_parameters, if_neg h1, if_pos h2, fatalerror]
    · exact h2.imp (tmod_ne_zero_iff _ _).1 (tmod_ne_zero_iff _ _).1
    · intro e he
      cases e <;> first | exact absurd he (by decide) | assumption
  have v2 : ¬ violated MAX_REF_FRAMES MAX_SB_SIZE log2i p Diag.width_height :=
    fun hv => h2 (hv.imp (tmod_ne_zero_iff _ _).2 (tmod_ne_zero_iff _ _).2)
  by_cases h3 : p.ints IntField.max_num_ref < 1 ∨ p.ints IntField.max_num_ref > 4
  · refine Or.inr (Or.inl ⟨Diag.max_num_ref, ?_, h3, ?_⟩)
    · simp only [check_parameters, if_neg h1, if_neg h2, if_pos h3, fatalerror]
    · intro e he
      cases e <;> first | exact absurd he (by decide) | assumption
  have v3 : ¬ violated MAX_REF_FRAMES MAX_SB_SIZE log2i p Diag.max_num_ref := h3
  by_cases h4 : p.ints IntField.max_delta_qp ≥ 8
  · refine Or.inr (Or.inl ⟨Diag.max_delta_qp, ?_, h4, ?_⟩)
    · simp only [check_parameters, if_neg h1, if_neg h2, if_neg h3, if_pos h4, fatalerror]
    · intro e he
      cases e <;> first | exact absurd he (by decide) | assumption
  have v4 : ¬ violated MAX_REF_FRAMES MAX_SB_SIZE log2i p Diag.max_delta_qp := h4
  by_cases h5 : p.ints IntField.HQperiod ≥ MAX_REF_FRAMES
  · refine Or.inr (Or.inl ⟨Diag.HQperiod, ?_, h5, ?_⟩)
    · simp only [check_parameters, if_neg h1, if_neg h2, if_neg h3, if_neg h4, if_pos h5,
        fatalerror]
    · intro e he
      cases e <;> first | exact absurd he (by decide) | assumption
  have v5 : ¬ violated MAX_REF_FRAMES MAX_SB_SIZE log2i p Diag.HQperiod := h5
  rcases subgop_cond_cases MAX_REF_FRAMES MAX_SB_SIZE log2i p with ⟨h6, w6⟩ | ⟨h6, v6⟩
  · refine Or.inr (Or.inl ⟨Diag.subgop, ?_, w6, ?_⟩)
    · simp only [check_parameters, if_neg h1, if_neg h2, if_neg h3, if_neg h4, if_neg h5, h6,
        fatalerror]
    · intro e he
      cases e <;> first | exact absurd he (by decide) | assumption
  rcases check_dyadic_cases MAX_REF_FRAMES MAX_SB_SIZE log2i p with
    ⟨h7, u7⟩ | ⟨h7, w7⟩ | ⟨h7, v7⟩
  · left
    refine ⟨?_, Or.inr u7⟩
    simp only [check_parameters, if_neg h1, if_neg h2, if_neg h3, if_neg h4, if_neg h5, h6, h7]
  · refine Or.inr (Or.inl ⟨Diag.dyadic, ?_, w7, ?_⟩)
    · simp only [check_parameters, if_neg h1, if_neg h2, if_neg h3, if_neg h4, if_neg h5, h6, h7]
    · intro e he
      cases e <;> first | exact absurd he (by decide) | assumption
  have hcp : check_parameters MAX_REF_FRAMES MAX_SB_SIZE log2i p = check_tail MAX_SB_SIZE
      (if p.ints IntField.dyadic_coding ≠ 0 ∧ p.ints IntField.num_reorder_pics = 2 then
        set_int p IntField.dyadic_coding 0 else p) := by
    simp only [check_parameters, if_neg h1, if_neg h2, if_neg h3, if_neg h4, if_neg h5, h6, h7]
  have hq : ∀ e : Diag, 7 ≤ e.index →
      (violated MAX_REF_FRAMES MAX_SB_SIZE log2i
        (if p.ints IntField.dyadic_coding ≠ 0 ∧ p.ints IntField.num_reorder_pics = 2 then
          set_int p IntField.dyadic_coding 0 else p) e ↔
        violated MAX_REF_FRAMES MAX_SB_SIZE log2i p e) := by
    intro e he
    by_cases hc : p.ints IntField.dyadic_coding ≠ 0 ∧ p.ints IntField.num_reorder_pics = 2
    · rw [if_pos hc]
      exact violated_clear MAX_REF_FRAMES MAX_SB_SIZE log2i p hc.1 hc.2 e he
    · rw [if_neg hc]
  have hb : (if p.ints IntField.dyadic_coding ≠ 0 ∧ p.ints IntField.num_reorder_pics = 2 then
        set_int p IntField.dyadic_coding 0 else p).ints IntField.bitdepth =
      p.ints IntField.bitdepth := by
    by_cases hc : p.ints IntField.dyadic_coding ≠ 0 ∧ p.ints IntField.num_reorder_pics = 2
    · rw [if_pos hc]
      rfl
    · rw [if_neg hc]
  have hrem : rem_defined (if p.ints IntField.dyadic_coding ≠ 0 ∧
        p.ints IntField.num_reorder_pics = 2 then
        set_int p IntField.dyadic_coding 0 else p) ↔ rem_defined p := by
    by_cases hc : p.ints IntField.dyadic_coding ≠ 0 ∧ p.ints IntField.num_reorder_pics = 2
    · rw [if_pos hc]
      exact Iff.rfl
    · rw [if_neg hc]
  have early : ∀ e : Diag, e.index < 7 → ¬ violated MAX_REF_FRAMES MAX_SB_SIZE log2i p e := by
    intro e he
    cases e <;> first | exact absurd he (by decide) | assumption
  rw [hcp]
  rcases check_tail_first MAX_REF_FRAMES MAX_SB_SIZE log2i
    (if p.ints IntField.dyadic_coding ≠ 0 ∧ p.ints IntField.num_reorder_pics = 2 then
      set_int p IntField.dyadic_coding 0 else p) with
    ⟨ht, hu⟩ | ⟨d, ht, hd7, hv, hfirst⟩ | ⟨ht, hdef, hall⟩
  · exact Or.inl ⟨ht, Or.inl (fun hx => hu (hrem.2 hx))⟩
  · refine Or.inr (Or.inl ⟨d, ht, (hq d hd7).1 hv, ?_⟩)
    intro e he
    by_cases h7e : 7 ≤ e.index
    · exact fun hx => hfirst e h7e he ((hq e h7e).2 hx)
    · exact early e (by omega)
  · refine Or.inr (Or.inr ⟨?_, hrem.1 hdef, ?_⟩)
    · rw [ht, hb]
      rfl
    · intro e
      by_cases h7e : 7 ≤ e.index
      · exact fun hx => hall e h7e ((hq e h7e).2 hx)
      · exact early e (by omega)

/-- The function `check_parameters` succeeds exactly on the structures that violate no check
and whose remainder `intra_period % (num_reorder_pics+1)` is defined; the
structure at the return is the normalized one. -/
theorem check_parameters_ok_iff (MAX_REF_FRAMES MAX_SB_SIZE : Int) (log2i : Int → Int)
    (p r : enc_params) :
    check_parameters MAX_REF_FRAMES MAX_SB_SIZE log2i p = some (Except.ok r) ↔
      (∀ e : Diag, ¬ violated MAX_REF_FRAMES MAX_SB_SIZE log2i p e) ∧ rem_defined p ∧
        r = normalized p := by
  constructor
  · intro h
    rcases check_parameters_first MAX_REF_FRAMES MAX_SB_SIZE log2i p with
      ⟨h0, _⟩ | ⟨d, h0, _⟩ | ⟨h0, hdef, hall⟩
    · rw [h0] at h
      exact absurd h (by simp)
    · rw [h0] at h
      exact absurd h (by simp)
    · rw [h0] at h
      exact ⟨hall, hdef, (Except.ok.inj (Option.some.inj h)).symm⟩
  · rintro ⟨hall, hdef, rfl⟩
    rcases check_parameters_first MAX_REF_FRAMES MAX_SB_SIZE log2i p with
      ⟨_, hu⟩ | ⟨d, _, hv, _⟩ | ⟨h0, _, _⟩
    · rcases hu with hu | ⟨hd, hn, hs⟩
      · exact absurd hdef hu
      · refine absurd ?_ (hall Diag.dyadic)
        refine ⟨hd, hn, ?_⟩
        rw [hs]
        simp
    · exact absurd hv (hall d)
    · exact h0

set_option maxRecDepth 100000 in
/-- The values that the defaults of the table give to the members read by
`check_parameters`. -/
theorem default_params_checked (CDEF : Bool) :
    (default_params CDEF).ints IntField.num_frames = 600 ∧
    (default_params CDEF).ints IntField.width = 1920 ∧
    (default_params CDEF).ints IntField.height = 1080 ∧
    (default_params CDEF).ints IntField.max_num_ref = 1 ∧
    (default_params CDEF).ints IntField.max_delta_qp = 0 ∧
    (default_params CDEF).ints IntField.HQperiod = 1 ∧
    (default_params CDEF).ints IntField.num_reorder_pics = 0 ∧
    (default_params CDEF).ints IntField.dyadic_coding = 1 ∧
    (default_params CDEF).ints IntField.intra_period = 0 ∧
    (default_params CDEF).ints IntField.sync = 0 ∧
    (default_params CDEF).ints IntField.encoder_speed = 0 ∧
    (default_params CDEF).ints IntField.bitrate = 0 ∧
    (default_params CDEF).ints IntField.log2_sb_size = 7 ∧
    (default_params CDEF).ints IntField.qmtx = 0 ∧
    (default_params CDEF).ints IntField.qmtx_offset = 0 ∧
    (default_params CDEF).ints IntField.interp_ref = 0 ∧
    (default_params CDEF).ints IntField.subsample = 420 ∧
    (default_params CDEF).ints IntField.bitdepth = 8 ∧
    (default_params CDEF).ints IntField.input_bitdepth = 8 ∧
    (default_params CDEF).ints IntField.frame_bitdepth = 8 := by
  cases CDEF <;>
    exact ⟨rfl, rfl, rfl, rfl, rfl, rfl, rfl, rfl, rfl, rfl, rfl, rfl, rfl, rfl, rfl, rfl, rfl,
      rfl, rfl, rfl⟩

/-- With a positive frame count, a width or a height that is not a multiple of
8 ends in the width and height diagnostic. -/
theorem check_parameters_width_height (MAX_REF_FRAMES MAX_SB_SIZE : Int) (log2i : Int → Int)
    (p : enc_params) (h1 : 0 < p.ints IntField.num_frames)
    (h2 : ¬ (8 : Int) ∣ p.ints IntField.width ∨ ¬ (8 : Int) ∣ p.ints IntField.height) :
    check_parameters MAX_REF_FRAMES MAX_SB_SIZE log2i p =
      some (Except.error Diag.width_height) := by
  have c1 : ¬ p.ints IntField.num_frames ≤ 0 := by omega
  have c2 : Int.tmod (p.ints IntField.width) 8 ≠ 0 ∨ Int.tmod (p.ints IntField.height) 8 ≠ 0 :=
    h2.imp (tmod_ne_zero_iff _ _).2 (tmod_ne_zero_iff _ _).2
  simp only [check_parameters, if_neg c1, if_pos c2, fatalerror]

/-- When the five earlier checks pass, `num_reorder_pics > 0` with
`HQperiod > 1` and `HQperiod` not divisible by `num_reorder_pics+1` ends in the
diagnostic "must divide HQperiod". -/
theorem check_parameters_subgop (MAX_REF_FRAMES MAX_SB_SIZE : Int) (log2i : Int → Int)
    (p : enc_params)
    (hearly : ∀ e : Diag, e.index < Diag.subgop.index →
      ¬ violated MAX_REF_FRAMES MAX_SB_SIZE log2i p e)
    (h1 : 0 < p.ints IntField.num_reorder_pics) (h2 : 1 < p.ints IntField.HQperiod)
    (h3 : ¬ (p.ints IntField.num_reorder_pics + 1) ∣ p.ints IntField.HQperiod) :
    check_parameters MAX_REF_FRAMES MAX_SB_SIZE log2i p = some (Except.error Diag.subgop) := by
  have c1 : ¬ p.ints IntField.num_frames ≤ 0 := hearly Diag.num_frames (by decide)
  have c2 : ¬ (Int.tmod (p.ints IntField.width) 8 ≠ 0 ∨
      Int.tmod (p.ints IntField.height) 8 ≠ 0) :=
    fun h => hearly Diag.width_height (by decide)
      (h.imp (tmod_ne_zero_iff _ _).1 (tmod_ne_zero_iff _ _).1)
  have c3 : ¬ (p.ints IntField.max_num_ref < 1 ∨ p.ints IntField.max_num_ref > 4) :=
    hearly Diag.max_num_ref (by decide)
  have c4 : ¬ p.ints IntField.max_delta_qp ≥ 8 := hearly Diag.max_delta_qp (by decide)
  have c5 : ¬ p.ints IntField.HQperiod ≥ MAX_REF_FRAMES := hearly Diag.HQperiod (by decide)
  rcases subgop_cond_cases MAX_REF_FRAMES MAX_SB_SIZE log2i p with ⟨h6, _⟩ | ⟨_, v6⟩
  · simp only [check_parameters, if_neg c1, if_neg c2, if_neg c3, if_neg c4, if_neg c5, h6,
      fatalerror]
  · exact absurd ⟨h1, h2, h3⟩ v6

/-- A structure that violates no check and whose remainder
`intra_period % (num_reorder_pics+1)` is undefined has no defined result. -/
theorem check_parameters_undefined (MAX_REF_FRAMES MAX_SB_SIZE : Int) (log2i : Int → Int)
    (p : enc_params) (hall : ∀ e : Diag, ¬ violated MAX_REF_FRAMES MAX_SB_SIZE log2i p e)
    (hrem : ¬ rem_defined p) :
    check_parameters MAX_REF_FRAMES MAX_SB_SIZE log2i p = none := by
  rcases check_parameters_first MAX_REF_FRAMES MAX_SB_SIZE log2i p with
    ⟨h0, _⟩ | ⟨d, _, hv, _⟩ | ⟨_, hdef, _⟩
  · exact h0
  · exact absurd hv (hall d)
  · exact absurd hdef hrem

theorem set_int_ints (p : enc_params) (f g : IntField) (v : Int) :
    (set_int p f v).ints g = if g = f then v else p.ints g := by
  simp only [set_int, Function.update, eq_rec_constant, dite_eq_ite]

/-- The structure `minus_one_params` violates no check. -/
theorem minus_one_not_violated (CDEF : Bool) (MAX_REF_FRAMES MAX_SB_SIZE : Int)
    (log2i : Int → Int) (h1 : 1 < MAX_REF_FRAMES) (h2 : 7 ≤ MAX_SB_SIZE) (e : Diag) :
    ¬ violated MAX_REF_FRAMES MAX_SB_SIZE log2i (minus_one_params CDEF) e := by
  obtain ⟨d1, d2, d3, d4, d5, d6, d7, d8, d9, d10, d11, d12, d13, d14, d15, d16, d17, d18,
    d19, _⟩ := default_params_checked CDEF
  cases e <;>
    simp [violated, minus_one_params, set_int_ints, d1, d2, d3, d4, d5, d6, d7, d8, d9, d10,
      d11, d12, d13, d14, d15, d16, d17, d18, d19] <;> omega

/-- The remainder of `minus_one_params` has a zero divisor. -/
theorem minus_one_rem (CDEF : Bool) :
    (minus_one_params CDEF).ints IntField.num_reorder_pics + 1 = 0 := by
  simp [minus_one_params, set_int_ints]

/-- The structure `minus_one_params` reaches the remainder
`intra_period % (num_reorder_pics+1)` with a zero divisor. -/
theorem check_parameters_minus_one (CDEF : Bool) (MAX_REF_FRAMES MAX_SB_SIZE : Int)
    (log2i : Int → Int) (h1 : 1 < MAX_REF_FRAMES) :
    check_parameters MAX_REF_FRAMES MAX_SB_SIZE log2i (minus_one_params CDEF) = none := by
  obtain ⟨d1, d2, d3, d4, d5, d6, d7, d8, d9, d10, d11, d12, d13, d14, d15, d16, d17, d18,
    d19, _⟩ := default_params_checked CDEF
  have c5 : ¬ 1 ≥ MAX_REF_FRAMES := by omega
  have t1 : Int.tmod 1920 8 = 0 := by decide
  have t2 : Int.tmod 1080 8 = 0 := by decide
  simp [check_parameters, subgop_cond, check_dyadic, check_tail, c_rem, minus_one_params,
    set_int_ints, d1, d2, d3, d4, d5, d6, d7, d8, d9, c5, t1, t2]

/-! ## C13: the order of the checks -/

/-- C13: the structure of the defaults with `dyadic_coding = 0` and
`num_reorder_pics = -1` violates none of the checks, so that a first-failure
sequence would succeed on it, but `check_parameters` has no defined result on
it: it reaches `intra_period % (num_reorder_pics+1)` with a zero divisor.  (For
the structures on which the result is defined, `check_parameters_first` shows
that the result is the diagnostic of the first violated check in source
order.) -/
theorem C13_first_failure_undefined (CDEF : Bool) (MAX_REF_FRAMES MAX_SB_SIZE : Int)
    (log2i : Int → Int) (h1 : 1 < MAX_REF_FRAMES) (h2 : 7 ≤ MAX_SB_SIZE) :
    (∀ e : Diag, ¬ violated MAX_REF_FRAMES MAX_SB_SIZE log2i (minus_one_params CDEF) e) ∧
      check_parameters MAX_REF_FRAMES MAX_SB_SIZE log2i (minus_one_params CDEF) = none :=
  ⟨minus_one_not_violated CDEF MAX_REF_FRAMES MAX_SB_SIZE log2i h1 h2,
    check_parameters_minus_one CDEF MAX_REF_FRAMES MAX_SB_SIZE log2i h1⟩

/-- Witness of C13: `MAX_REF_FRAMES = 17`, `MAX_SB_SIZE = 7`. -/
theorem C13_first_failure_undefined_witness :
    (∀ e : Diag, ¬ violated 17 7 (fun _ => 0) (minus_one_params true) e) ∧
      check_parameters 17 7 (fun _ => 0) (minus_one_params true) = none :=
  C13_first_failure_undefined true 17 7 (fun _ => 0) (by decide) (by decide)

/-! ## C14: dyadic coding with `num_reorder_pics = 2` -/

/-- C14: for every parameter structure with `num_reorder_pics = 2` and
`dyadic_coding` non-zero that violates no check (the dyadic check and the
`interp_ref` check need not be assumed), `check_parameters` succeeds and the
structure at the return has `dyadic_coding = 0`; no assumption is made on
`log2i`, so the power-of-two requirement is not applied, and `interp_ref` may
be 2. -/
theorem C14_dyadic_cleared (MAX_REF_FRAMES MAX_SB_SIZE : Int) (log2i : Int → Int)
    (p : enc_params) (hn : p.ints IntField.num_reorder_pics = 2)
    (hd : p.ints IntField.dyadic_coding ≠ 0)
    (hother : ∀ e : Diag, e ≠ Diag.dyadic → e ≠ Diag.interp_ref →
      ¬ violated MAX_REF_FRAMES MAX_SB_SIZE log2i p e) :
    ∃ r, check_parameters MAX_REF_FRAMES MAX_SB_SIZE log2i p = some (Except.ok r) ∧
      r.ints IntField.dyadic_coding = 0 ∧
      ∀ f, f ≠ IntField.dyadic_coding → f ≠ IntField.frame_bitdepth → r.ints f = p.ints f := by
  have hall : ∀ e : Diag, ¬ violated MAX_REF_FRAMES MAX_SB_SIZE log2i p e := by
    intro e
    by_cases e1 : e = Diag.dyadic
    · rw [e1]
      exact fun hv => hv.2.1 hn
    · by_cases e2 : e = Diag.interp_ref
      · rw [e2]
        exact fun hv => hv.2.2 hn
      · exact hother e e1 e2
  have hrem : rem_defined p := by
    unfold rem_defined
    rw [hn]
    omega
  refine ⟨normalized p,
    (check_parameters_ok_iff MAX_REF_FRAMES MAX_SB_SIZE log2i p _).2 ⟨hall, hrem, rfl⟩, ?_, ?_⟩
  · unfold normalized
    simp only [if_pos (And.intro hd hn)]
    split_ifs <;> simp [set_int_ints]
  · intro f f1 f2
    unfold normalized
    simp only [if_pos (And.intro hd hn)]
    split_ifs <;> simp [set_int_ints, f1, f2]

/-- Witness of C14: the defaults with `num_reorder_pics = 2` and
`max_num_ref = 2`, for `MAX_REF_FRAMES = 17`, `MAX_SB_SIZE = 7`. -/
theorem C14_dyadic_cleared_witness :
    ∃ r, check_parameters 17 7 (fun _ => 0) (reorder_two_params true) = some (Except.ok r) ∧
      r.ints IntField.dyadic_coding = 0 ∧
      ∀ f, f ≠ IntField.dyadic_coding → f ≠ IntField.frame_bitdepth →
        r.ints f = (reorder_two_params true).ints f := by
  obtain ⟨d1, d2, d3, d4, d5, d6, d7, d8, d9, d10, d11, d12, d13, d14, d15, d16, d17, d18,
    d19, _⟩ := default_params_checked true
  exact C14_dyadic_cleared 17 7 (fun _ => 0) (reorder_two_params true)
    (by simp [reorder_two_params, set_int_ints])
    (by simp [reorder_two_params, set_int_ints, d8])
    (by
      intro e e1 e2
      cases e <;>
        simp [violated, reorder_two_params, set_int_ints, d1, d2, d3, d4, d5, d6, d7, d8, d9,
          d10, d11, d12, d13, d14, d15, d16, d17, d18, d19] at e1 e2 ⊢
      omega)

/-! ## C15: the frame buffer bit depth -/

/-- C15: for every parameter structure on which `check_parameters` succeeds,
if `bitdepth > 8` then `bitdepth` is 10 or 12 and the structure at the return
has `frame_bitdepth = 16`, whatever `frame_bitdepth` held before; if
`bitdepth = 8` then `frame_bitdepth` is left unchanged. -/
theorem C15_frame_bitdepth (MAX_REF_FRAMES MAX_SB_SIZE : Int) (log2i : Int → Int)
    (p r : enc_params)
    (h : check_parameters MAX_REF_FRAMES MAX_SB_SIZE log2i p = some (Except.ok r)) :
    (p.ints IntField.bitdepth > 8 →
      (p.ints IntField.bitdepth = 10 ∨ p.ints IntField.bitdepth = 12) ∧
        r.ints IntField.frame_bitdepth = 16) ∧
    (p.ints IntField.bitdepth = 8 →
      r.ints IntField.frame_bitdepth = p.ints IntField.frame_bitdepth) := by
  obtain ⟨hall, _, hr⟩ := (check_parameters_ok_iff MAX_REF_FRAMES MAX_SB_SIZE log2i p r).1 h
  have hb := hall Diag.bitdepth
  simp only [violated, List.mem_cons, List.mem_singleton, List.not_mem_nil, or_false,
    not_not] at hb
  rw [hr]
  constructor
  · intro h8
    refine ⟨by omega, ?_⟩
    unfold normalized
    simp only [if_pos h8, set_int_ints, if_true]
  · intro h8
    have n8 : ¬ p.ints IntField.bitdepth > 8 := by omega
    unfold normalized
    simp only [if_neg n8]
    split_ifs <;> simp [set_int_ints]

set_option maxRecDepth 100000 in
/-- Witness of C15: the defaults with `bitdepth = 10`, whose `frame_bitdepth`
is 8 before the call and 16 after it. -/
theorem C15_frame_bitdepth_witness :
    (ten_bit_params true).ints IntField.frame_bitdepth = 8 ∧
    check_parameters 17 7 (fun _ => 0) (ten_bit_params true) =
      some (Except.ok (normalized (ten_bit_params true))) ∧
    ((ten_bit_params true).ints IntField.bitdepth > 8 →
      ((ten_bit_params true).ints IntField.bitdepth = 10 ∨
        (ten_bit_params true).ints IntField.bitdepth = 12) ∧
        (normalized (ten_bit_params true)).ints IntField.frame_bitdepth = 16) ∧
    ((ten_bit_params true).ints IntField.bitdepth = 8 →
      (normalized (ten_bit_params true)).ints IntField.frame_bitdepth =
        (ten_bit_params true).ints IntField.frame_bitdepth) := by
  have h : check_parameters 17 7 (fun _ => 0) (ten_bit_params true) =
      some (Except.ok (normalized (ten_bit_params true))) := by
    obtain ⟨d1, d2, d3, d4, d5, d6, d7, d8, d9, d10, d11, d12, d13, d14, d15, d16, d17, d18,
      d19, _⟩ := default_params_checked true
    refine (check_parameters_ok_iff 17 7 (fun _ => 0) _ _).2 ⟨?_, ?_, rfl⟩
    · intro e
      cases e <;>
        simp [violated, ten_bit_params, set_int_ints, d1, d2, d3, d4, d5, d6, d7, d8, d9,
          d10, d11, d12, d13, d14, d15, d16, d17, d18, d19, shl_one]
      omega
    · simp [rem_defined, ten_bit_params, set_int_ints, d7]
  exact ⟨rfl, h, C15_frame_bitdepth 17 7 (fun _ => 0) (ten_bit_params true) _ h⟩

/-! ## C16: bitrate and frame reordering -/

/-- The structure `negative_bitrate_params` is accepted and returned unchanged. -/
theorem check_parameters_negative_bitrate (CDEF : Bool) (MAX_REF_FRAMES MAX_SB_SIZE : Int)
    (log2i : Int → Int) (h1 : 1 < MAX_REF_FRAMES) (h2 : 7 ≤ MAX_SB_SIZE) :
    check_parameters MAX_REF_FRAMES MAX_SB_SIZE log2i (negative_bitrate_params CDEF) =
      some (Except.ok (negative_bitrate_params CDEF)) := by
  obtain ⟨d1, d2, d3, d4, d5, d6, d7, d8, d9, d10, d11, d12, d13, d14, d15, d16, d17, d18,
    d19, _⟩ := default_params_checked CDEF
  refine (check_parameters_ok_iff MAX_REF_FRAMES MAX_SB_SIZE log2i _ _).2 ⟨?_, ?_, ?_⟩
  · intro e
    cases e <;>
      simp [violated, negative_bitrate_params, set_int_ints, d1, d2, d3, d4, d5, d6, d7, d8,
        d9, d10, d11, d12, d13, d14, d15, d16, d17, d18, d19] <;> omega
  · simp [rem_defined, negative_bitrate_params, set_int_ints, d7]
  · simp [normalized, negative_bitrate_params, set_int_ints, d18]

/-- C16 (counterexample): the defaults with `bitrate = -1`,
`num_reorder_pics = 1`, `max_num_ref = 2` and `dyadic_coding = 0` have a
non-zero bitrate and frame reordering, and `check_parameters` accepts them,
whenever `MAX_REF_FRAMES > 1` and `MAX_SB_SIZE ≥ 7`. -/
theorem C16_counterexample :
    (negative_bitrate_params true).ints IntField.bitrate ≠ 0 ∧
    (negative_bitrate_params true).ints IntField.num_reorder_pics > 0 ∧
    ∀ (MAX_REF_FRAMES MAX_SB_SIZE : Int) (log2i : Int → Int), 1 < MAX_REF_FRAMES →
      7 ≤ MAX_SB_SIZE →
      check_parameters MAX_REF_FRAMES MAX_SB_SIZE log2i (negative_bitrate_params true) =
        some (Except.ok (negative_bitrate_params true)) :=
  ⟨by simp [negative_bitrate_params, set_int_ints],
    by simp [negative_bitrate_params, set_int_ints],
    fun m s l h1 h2 => check_parameters_negative_bitrate true m s l h1 h2⟩

/-- C16, amended: for every parameter structure with a positive bitrate and
`num_reorder_pics > 0`, `check_parameters` does not succeed; when its result is
defined, it is the diagnostic of the bitrate check or of an earlier check, and
it is defined whenever `dyadic_coding` is 0 or the shift `1 << log2i(...)` of
the dyadic check is. -/
theorem C16_positive_bitrate_rejected (MAX_REF_FRAMES MAX_SB_SIZE : Int) (log2i : Int → Int)
    (p : enc_params) (hb : 0 < p.ints IntField.bitrate)
    (hn : 0 < p.ints IntField.num_reorder_pics) :
    (∀ r, check_parameters MAX_REF_FRAMES MAX_SB_SIZE log2i p ≠ some (Except.ok r)) ∧
    (∀ d, check_parameters MAX_REF_FRAMES MAX_SB_SIZE log2i p = some (Except.error d) →
      d.index ≤ Diag.bitrate.index) ∧
    (p.ints IntField.dyadic_coding = 0 ∨
        shl_one (log2i (p.ints IntField.num_reorder_pics + 1)) ≠ none →
      ∃ d, check_parameters MAX_REF_FRAMES MAX_SB_SIZE log2i p = some (Except.error d)) := by
  have hv : violated MAX_REF_FRAMES MAX_SB_SIZE log2i p Diag.bitrate := ⟨hb, hn⟩
  have hok : ∀ r, check_parameters MAX_REF_FRAMES MAX_SB_SIZE log2i p ≠ some (Except.ok r) :=
    fun r h =>
      ((check_parameters_ok_iff MAX_REF_FRAMES MAX_SB_SIZE log2i p r).1 h).1 Diag.bitrate hv
  have hrem : rem_defined p := by
    unfold rem_defined
    omega
  rcases check_parameters_first MAX_REF_FRAMES MAX_SB_SIZE log2i p with
    ⟨h0, hu⟩ | ⟨d, h0, _, hfirst⟩ | ⟨h0, _, _⟩
  · refine ⟨hok, ?_, ?_⟩
    · intro d hd
      rw [h0] at hd
      exact absurd hd (by simp)
    · intro hs
      rcases hu with hu | ⟨u1, _, u3⟩
      · exact absurd hrem hu
      · rcases hs with hs | hs
        · exact absurd hs u1
        · exact absurd u3 hs
  · refine ⟨hok, ?_, fun _ => ⟨d, h0⟩⟩
    intro d1 hd1
    rw [h0] at hd1
    have e : d = d1 := Except.error.inj (Option.some.inj hd1)
    rw [← e]
    by_contra hlt
    exact hfirst Diag.bitrate (by omega) hv
  · exact absurd h0 (hok _)

/-- Witness of C16: the defaults with `bitrate = 1000`, `num_reorder_pics = 1`,
`max_num_ref = 2` and `dyadic_coding = 0`. -/
theorem C16_positive_bitrate_rejected_witness :
    (∀ r, check_parameters 17 7 (fun _ => 0)
      (set_int (negative_bitrate_params true) IntField.bitrate 1000) ≠ some (Except.ok r)) ∧
    (∀ d, check_parameters 17 7 (fun _ => 0)
        (set_int (negative_bitrate_params true) IntField.bitrate 1000) =
          some (Except.error d) → d.index ≤ Diag.bitrate.index) ∧
    ((set_int (negative_bitrate_params true) IntField.bitrate 1000).ints
        IntField.dyadic_coding = 0 ∨
        shl_one ((fun _ => 0) ((set_int (negative_bitrate_params true) IntField.bitrate
          1000).ints IntField.num_reorder_pics + 1)) ≠ none →
      ∃ d, check_parameters 17 7 (fun _ => 0)
        (set_int (negative_bitrate_params true) IntField.bitrate 1000) =
          some (Except.error d)) :=
  C16_positive_bitrate_rejected 17 7 (fun _ => 0)
    (set_int (negative_bitrate_params true) IntField.bitrate 1000)
    (by simp [set_int_ints]) (by simp [negative_bitrate_params, set_int_ints])

/-! ## C17: the divisor of the remainders -/

/-- C17: on the structure of the defaults with `dyadic_coding = 0` and
`num_reorder_pics = -1`, `check_parameters` evaluates
`intra_period % (num_reorder_pics+1)` with `num_reorder_pics+1 = 0`: the
remainder, and with it the result of `check_parameters`, is undefined. -/
theorem C17_zero_divisor (CDEF : Bool) (MAX_REF_FRAMES MAX_SB_SIZE : Int) (log2i : Int → Int)
    (h1 : 1 < MAX_REF_FRAMES) :
    (minus_one_params CDEF).ints IntField.num_reorder_pics + 1 = 0 ∧
    c_rem ((minus_one_params CDEF).ints IntField.intra_period)
      ((minus_one_params CDEF).ints IntField.num_reorder_pics + 1) = none ∧
    check_parameters MAX_REF_FRAMES MAX_SB_SIZE log2i (minus_one_params CDEF) = none := by
  refine ⟨minus_one_rem CDEF, ?_, check_parameters_minus_one CDEF _ _ _ h1⟩
  rw [minus_one_rem CDEF]
  rfl

/-- Witness of C17: `MAX_REF_FRAMES = 17`, `MAX_SB_SIZE = 7`. -/
theorem C17_zero_divisor_witness :
    (minus_one_params true).ints IntField.num_reorder_pics + 1 = 0 ∧
    c_rem ((minus_one_params true).ints IntField.intra_period)
      ((minus_one_params true).ints IntField.num_reorder_pics + 1) = none ∧
    check_parameters 17 7 (fun _ => 0) (minus_one_params true) = none :=
  C17_zero_divisor true 17 7 (fun _ => 0) (by decide)

/-! ## C18: the positions read in the buffer -/

set_option maxRecDepth 100000 in
/-- The probe on the 12 bytes `YUV4MPEG2 W1`: `strtol` reads `buf[12]`, which
`fread` has not written. -/
theorem y4m_probe_short (p : enc_params) : y4m_probe "YUV4MPEG2 W1".toList p = none := rfl

set_option maxRecDepth 1000000 in
/-- The probe on a file of 311 bytes, `YUV4MPEG2 W` and 300 digits `1`: the loop
at the end of the `W` case reads `buf[256]`, past the end of the array. -/
theorem y4m_probe_long (p : enc_params) :
    y4m_probe ("YUV4MPEG2 W".toList ++ List.replicate 300 '1') p = none := rfl

set_option maxRecDepth 100000 in
/-- C18: on the input file of 12 bytes `YUV4MPEG2 W1`, the `W` case reads the
cell `buf[12]` while 12 bytes were read, so `parse_config_params` has no
defined result. -/
theorem C18_read_past_data :
    (short_y4m_fs "in.y4m".toList).map List.length = some 12 ∧
    parse_config_params true short_y4m_fs 0 3
      (command_line ["-if".toList, "in.y4m".toList]) = none := by
  have hparse : parse_params short_y4m_fs 0 3
      (command_line ["-if".toList, "in.y4m".toList]) (default_params true) (param_table true) =
      some (0, set_str (default_params true) StrField.infilestr "in.y4m".toList) := rfl
  refine ⟨rfl, ?_⟩
  rw [parse_config_params_eq]
  simp only [hparse, lt_self_iff_false, if_false]
  exact y4m_probe_short _

/-! ## C19: a second call -/

theorem normalized_ints (p : enc_params) (f : IntField) (h1 : f ≠ IntField.dyadic_coding)
    (h2 : f ≠ IntField.frame_bitdepth) : (normalized p).ints f = p.ints f := by
  unfold normalized
  split_ifs <;> simp [set_int_ints, h1, h2]

theorem normalized_dyadic (p : enc_params) :
    (normalized p).ints IntField.dyadic_coding =
      if p.ints IntField.dyadic_coding ≠ 0 ∧ p.ints IntField.num_reorder_pics = 2 then 0
      else p.ints IntField.dyadic_coding := by
  unfold normalized
  split_ifs <;> simp [set_int_ints]

theorem normalized_rest (p : enc_params) :
    (normalized p).strs = p.strs ∧ (normalized p).floats = p.floats ∧
      (normalized p).intlists = p.intlists := by
  unfold normalized
  split_ifs <;> exact ⟨rfl, rfl, rfl⟩

theorem set_int_idem (p : enc_params) (f : IntField) (v : Int) :
    set_int (set_int p f v) f v = set_int p f v := by
  simp [set_int, Function.update_idem]

theorem normalized_eq (q : enc_params) :
    normalized q =
      if q.ints IntField.bitdepth > 8 then
        set_int (if q.ints IntField.dyadic_coding ≠ 0 ∧ q.ints IntField.num_reorder_pics = 2 then
          set_int q IntField.dyadic_coding 0 else q) IntField.frame_bitdepth 16
      else if q.ints IntField.dyadic_coding ≠ 0 ∧ q.ints IntField.num_reorder_pics = 2 then
        set_int q IntField.dyadic_coding 0 else q := rfl

theorem normalized_idem (p : enc_params) : normalized (normalized p) = normalized p := by
  have hb : (normalized p).ints IntField.bitdepth = p.ints IntField.bitdepth :=
    normalized_ints p _ (by decide) (by decide)
  have hn : (normalized p).ints IntField.num_reorder_pics = p.ints IntField.num_reorder_pics :=
    normalized_ints p _ (by decide) (by decide)
  have hc : ¬ ((normalized p).ints IntField.dyadic_coding ≠ 0 ∧
      (normalized p).ints IntField.num_reorder_pics = 2) := by
    rw [normalized_dyadic, hn]
    split_ifs with h
    · exact fun hx => hx.1 rfl
    · exact h
  have e : normalized (normalized p) =
      if p.ints IntField.bitdepth > 8 then set_int (normalized p) IntField.frame_bitdepth 16
      else normalized p := by
    rw [normalized_eq (normalized p)]
    simp only [if_neg hc, hb]
  rw [e]
  by_cases h8 : p.ints IntField.bitdepth > 8
  · rw [if_pos h8, normalized_eq p]
    simp only [if_pos h8, set_int_idem]
  · rw [if_neg h8]

/-- The normalized structure violates no check when the structure violates none. -/
theorem violated_normalized (MAX_REF_FRAMES MAX_SB_SIZE : Int) (log2i : Int → Int)
    (p : enc_params) (hall : ∀ e : Diag, ¬ violated MAX_REF_FRAMES MAX_SB_SIZE log2i p e)
    (e : Diag) : ¬ violated MAX_REF_FRAMES MAX_SB_SIZE log2i (normalized p) e := by
  have h := hall e
  cases e <;>
    simp only [violated, normalized_dyadic,
      normalized_ints p IntField.num_frames (by decide) (by decide),
      normalized_ints p IntField.width (by decide) (by decide),
      normalized_ints p IntField.height (by decide) (by decide),
      normalized_ints p IntField.max_num_ref (by decide) (by decide),
      normalized_ints p IntField.max_delta_qp (by decide) (by decide),
      normalized_ints p IntField.HQperiod (by decide) (by decide),
      normalized_ints p IntField.num_reorder_pics (by decide) (by decide),
      normalized_ints p IntField.intra_period (by decide) (by decide),
      normalized_ints p IntField.sync (by decide) (by decide),
      normalized_ints p IntField.encoder_speed (by decide) (by decide),
      normalized_ints p IntField.bitrate (by decide) (by decide),
      normalized_ints p IntField.log2_sb_size (by decide) (by decide),
      normalized_ints p IntField.qmtx (by decide) (by decide),
      normalized_ints p IntField.qmtx_offset (by decide) (by decide),
      normalized_ints p IntField.interp_ref (by decide) (by decide),
      normalized_ints p IntField.subsample (by decide) (by decide),
      normalized_ints p IntField.bitdepth (by decide) (by decide),
      normalized_ints p IntField.input_bitdepth (by decide) (by decide)] at h ⊢
  all_goals first
    | exact h
    | (split_ifs with hc
       · first
         | exact fun hx => hx.1 rfl
         | exact fun hx => hx.2.2 hc.2
       · exact h)

/-- C19: for every parameter structure `p` on which `check_parameters` succeeds
with the structure `r`, `check_parameters` succeeds on `r` and returns `r`;
and `r` differs from `p` in no member other than `dyadic_coding` and
`frame_bitdepth`. -/
theorem C19_idempotent (MAX_REF_FRAMES MAX_SB_SIZE : Int) (log2i : Int → Int)
    (p r : enc_params)
    (h : check_parameters MAX_REF_FRAMES MAX_SB_SIZE log2i p = some (Except.ok r)) :
    check_parameters MAX_REF_FRAMES MAX_SB_SIZE log2i r = some (Except.ok r) ∧
    (∀ f, f ≠ IntField.dyadic_coding → f ≠ IntField.frame_bitdepth → r.ints f = p.ints f) ∧
    r.strs = p.strs ∧ r.floats = p.floats ∧ r.intlists = p.intlists := by
  obtain ⟨hall, hrem, hr⟩ := (check_parameters_ok_iff MAX_REF_FRAMES MAX_SB_SIZE log2i p r).1 h
  rw [hr]
  refine ⟨?_, normalized_ints p, normalized_rest p⟩
  refine (check_parameters_ok_iff MAX_REF_FRAMES MAX_SB_SIZE log2i _ _).2
    ⟨violated_normalized MAX_REF_FRAMES MAX_SB_SIZE log2i p hall, ?_, (normalized_idem p).symm⟩
  unfold rem_defined
  rw [normalized_ints p IntField.num_reorder_pics (by decide) (by decide),
    normalized_ints p IntField.intra_period (by decide) (by decide)]
  exact hrem

/-- The structure `reorder_two_ten_bit_params` is accepted. -/
theorem check_parameters_reorder_two_ten_bit (CDEF : Bool) :
    check_parameters 17 7 (fun _ => 0) (reorder_two_ten_bit_params CDEF) =
      some (Except.ok (normalized (reorder_two_ten_bit_params CDEF))) := by
  obtain ⟨d1, d2, d3, d4, d5, d6, d7, d8, d9, d10, d11, d12, d13, d14, d15, d16, d17, d18,
    d19, _⟩ := default_params_checked CDEF
  refine (check_parameters_ok_iff 17 7 (fun _ => 0) _ _).2 ⟨?_, ?_, rfl⟩
  · intro e
    cases e <;>
      simp [violated, reorder_two_ten_bit_params, reorder_two_params, set_int_ints, d1, d2,
        d3, d4, d5, d6, d7, d8, d9, d10, d11, d12, d13, d14, d15, d16, d17, d18, d19]
    omega
  · simp [rem_defined, reorder_two_ten_bit_params, reorder_two_params, set_int_ints]

/-- Witness of C19: the defaults with `num_reorder_pics = 2`, `max_num_ref = 2`
and `bitdepth = 10`, on which the first call clears `dyadic_coding` and sets
`frame_bitdepth`. -/
theorem C19_idempotent_witness :
    check_parameters 17 7 (fun _ => 0) (reorder_two_ten_bit_params true) =
      some (Except.ok (normalized (reorder_two_ten_bit_params true))) ∧
    check_parameters 17 7 (fun _ => 0) (normalized (reorder_two_ten_bit_params true)) =
      some (Except.ok (normalized (reorder_two_ten_bit_params true))) ∧
    (∀ f, f ≠ IntField.dyadic_coding → f ≠ IntField.frame_bitdepth →
      (normalized (reorder_two_ten_bit_params true)).ints f =
        (reorder_two_ten_bit_params true).ints f) ∧
    (normalized (reorder_two_ten_bit_params true)).strs =
      (reorder_two_ten_bit_params true).strs ∧
    (normalized (reorder_two_ten_bit_params true)).floats =
      (reorder_two_ten_bit_params true).floats ∧
    (normalized (reorder_two_ten_bit_params true)).intlists =
      (reorder_two_ten_bit_params true).intlists :=
  ⟨check_parameters_reorder_two_ten_bit true,
    C19_idempotent 17 7 (fun _ => 0) (reorder_two_ten_bit_params true) _
      (check_parameters_reorder_two_ten_bit true)⟩

/-! ## C20: the defaults of the table -/

/-- C20: given `MAX_REF_FRAMES > 1`, `MAX_SB_SIZE ≥ 7` and `log2i(1) = 0`, the
parameter structure that `parse_config_params` returns for a command line
without arguments (the defaults of the table, no input file to probe) violates
no check, and `check_parameters` returns it unchanged. -/
theorem C20_defaults_valid (CDEF : Bool) (fs : List Char → Option (List Char)) (depth : Nat)
    (MAX_REF_FRAMES MAX_SB_SIZE : Int) (log2i : Int → Int)
    (h1 : 1 < MAX_REF_FRAMES) (h2 : 7 ≤ MAX_SB_SIZE) (h3 : log2i 1 = 0) :
    parse_config_params CDEF fs depth 1 (command_line []) = some (some (default_params CDEF)) ∧
    (∀ e : Diag, ¬ violated MAX_REF_FRAMES MAX_SB_SIZE log2i (default_params CDEF) e) ∧
    check_parameters MAX_REF_FRAMES MAX_SB_SIZE log2i (default_params CDEF) =
      some (Except.ok (default_params CDEF)) := by
  obtain ⟨d1, d2, d3, d4, d5, d6, d7, d8, d9, d10, d11, d12, d13, d14, d15, d16, d17, d18,
    d19, _⟩ := default_params_checked CDEF
  have hall : ∀ e : Diag, ¬ violated MAX_REF_FRAMES MAX_SB_SIZE log2i (default_params CDEF) e := by
    intro e
    cases e <;>
      simp [violated, d1, d2, d3, d4, d5, d6, d7, d8, d9, d10, d11, d12, d13, d14, d15, d16,
        d17, d18, d19, h3, shl_one] <;> omega
  refine ⟨parse_config_params_pairs CDEF fs depth [] (by simp), hall, ?_⟩
  refine (check_parameters_ok_iff MAX_REF_FRAMES MAX_SB_SIZE log2i _ _).2 ⟨hall, ?_, ?_⟩
  · simp [rem_defined, d7]
  · simp [normalized, d7, d18]

/-- Witness of C20: `MAX_REF_FRAMES = 17`, `MAX_SB_SIZE = 7` and a `log2i` that
is 0 everywhere. -/
theorem C20_defaults_valid_witness :
    parse_config_params true (fun _ => none) 0 1 (command_line []) =
      some (some (default_params true)) ∧
    (∀ e : Diag, ¬ violated 17 7 (fun _ => 0) (default_params true) e) ∧
    check_parameters 17 7 (fun _ => 0) (default_params true) =
      some (Except.ok (default_params true)) :=
  C20_defaults_valid true (fun _ => none) 0 17 7 (fun _ => 0) (by decide) (by decide) rfl

/-! ## C21: the limit on the number of tokens -/

/-- The loop of `read_config_file` stores the tokens of the text in the slots
from `n` on until the slot `MAX_PARAMS` is filled; it has no defined result
when a conversion does not fit before that. -/
theorem read_loop_token_stream : ∀ (fuel : Nat) (f : List Char) (n : Nat)
    (argv : List (Option (List Char))), f.length < fuel → n ≤ MAX_PARAMS + 1 →
    read_loop fuel f n argv =
      if MAX_PARAMS + 1 - n ≤ (token_stream fuel f).1.length then
        some (set_slots argv n ((token_stream fuel f).1.take (MAX_PARAMS + 1 - n)),
          MAX_PARAMS + 1)
      else if (token_stream fuel f).2 = true then
        some (set_slots argv n (token_stream fuel f).1, n + (token_stream fuel f).1.length)
      else none := by
  intro fuel
  induction fuel with
  | zero => intro f n argv h; omega
  | succ k ih =>
    intro f n argv h1 h2
    rw [read_loop]
    by_cases hn : n ≤ MAX_PARAMS
    · rw [if_pos hn]
      have hpos : ¬ MAX_PARAMS + 1 - n ≤ 0 := by omega
      rw [token_stream]
      cases hq : scan_quotes f with
      | none => simp [hpos]
      | some x =>
        obtain ⟨ret2, f1⟩ := x
        obtain ⟨hl1, hz⟩ := scan_quotes_length f f1 ret2 hq
        simp only []
        by_cases h0 : ret2 = 0
        · rw [if_pos h0, if_pos h0]
          obtain ⟨hne, hh⟩ := hz h0
          rcases hw : scan_word f1 with ⟨ret, a, f2⟩
          have hl2 := scan_word_length f1 a f2 ret hw hne hh
          simp only []
          by_cases hr : ret < 1 ∨ ret = -1
          · rw [if_pos hr, if_pos hr]
            simp [hpos, set_slots]
          · rw [if_neg hr, if_neg hr]
            by_cases hs : a.head? = some ';'
            · rw [if_pos hs, if_pos hs]
              cases hl : scan_line f2 with
              | none => simp [hpos]
              | some f3 =>
                have hl3 := scan_line_length f2 f3 hl
                exact ih f3 n argv (by omega) h2
            · rw [if_neg hs, if_neg hs]
              rw [ih f2 (n + 1) _ (by omega) (by omega)]
              have e1 : MAX_PARAMS + 1 - n = (MAX_PARAMS + 1 - (n + 1)) + 1 := by omega
              simp only [List.length_cons]
              rw [e1]
              simp only [Nat.add_le_add_iff_right, List.take_succ_cons, set_slots]
              have e2 : n + ((token_stream k f2).1.length + 1) =
                  n + 1 + (token_stream k f2).1.length := by omega
              rw [e2]
        · rw [if_neg h0, if_neg h0]
          cases hsq : scan_quoted f1 with
          | none => simp [hpos]
          | some y =>
            obtain ⟨ret, a, f2⟩ := y
            simp only []
            by_cases hr : ret < 1 ∨ ret = -1
            · rw [if_pos hr, if_pos hr]
              simp [hpos, set_slots]
            · rw [if_neg hr, if_neg hr]
              have hl2 := scan_quoted_length f1 a f2 ret hsq hr
              have hl3 := scan_close_length f2
              rw [ih (scan_close f2) (n + 1) _ (by omega) (by omega)]
              have e1 : MAX_PARAMS + 1 - n = (MAX_PARAMS + 1 - (n + 1)) + 1 := by omega
              simp only [List.length_cons]
              rw [e1]
              simp only [Nat.add_le_add_iff_right, List.take_succ_cons, set_slots]
              have e2 : n + ((token_stream k (scan_close f2)).1.length + 1) =
                  n + 1 + (token_stream k (scan_close f2)).1.length := by omega
              rw [e2]
    · rw [if_neg hn]
      have e : n = MAX_PARAMS + 1 := by omega
      rw [e]
      simp [set_slots]

/-- The function `read_config_file` on any text: the first `MAX_PARAMS` tokens
of the text when it holds that many, all its tokens when it holds fewer and
every conversion fits, and no defined result otherwise. -/
theorem read_config_file_tokens (f : List Char) :
    read_config_file f =
      if MAX_PARAMS ≤ (tokens f).1.length then
        some (none :: ((tokens f).1.take MAX_PARAMS).map some, MAX_PARAMS + 1)
      else if (tokens f).2 = true then
        some (none :: (tokens f).1.map some ++
          List.replicate (MAX_PARAMS - (tokens f).1.length) none, (tokens f).1.length + 1)
      else none := by
  unfold read_config_file tokens
  rw [read_loop_token_stream _ f 1 _ (by omega) (by omega)]
  have e : MAX_PARAMS + 1 - 1 = MAX_PARAMS := rfl
  have hrep : List.replicate (MAX_PARAMS + 1) (none : Option (List Char)) =
      [none] ++ List.replicate MAX_PARAMS none := rfl
  rw [e]
  by_cases h : MAX_PARAMS ≤ (token_stream (f.length + 1) f).1.length
  · rw [if_pos h, if_pos h, hrep]
    have hl : ((token_stream (f.length + 1) f).1.take MAX_PARAMS).length = MAX_PARAMS := by
      rw [List.length_take]
      omega
    have hs := set_slots_replicate ((token_stream (f.length + 1) f).1.take MAX_PARAMS)
      [none] MAX_PARAMS (by omega)
    simp only [List.length_singleton] at hs
    rw [hs, hl]
    simp
  · rw [if_neg h, if_neg h, hrep]
    have hs := set_slots_replicate (token_stream (f.length + 1) f).1 [none] MAX_PARAMS
      (by omega)
    simp only [List.length_singleton] at hs
    rw [hs]
    by_cases hok : (token_stream (f.length + 1) f).2 = true
    · rw [if_pos hok, if_pos hok]
      simp [Nat.add_comm]
    · rw [if_neg hok, if_neg hok]

/-- Whenever `read_config_file` has a result, the reported count `n` is between
1 and `MAX_PARAMS + 1`, the array has `MAX_PARAMS + 1` slots, and it holds the
first `n - 1` tokens of the text, in order, in the slots `1..n-1` and `NULL` in
every other slot; `n - 1` is the number of tokens of the text or `MAX_PARAMS`,
whichever is smaller. -/
theorem read_config_file_bounds (f : List Char) (argv : List (Option (List Char))) (n : Nat)
    (h : read_config_file f = some (argv, n)) :
    1 ≤ n ∧ n ≤ MAX_PARAMS + 1 ∧ argv.length = MAX_PARAMS + 1 ∧
    n - 1 = min (tokens f).1.length MAX_PARAMS ∧
    argv = none :: ((tokens f).1.take (n - 1)).map some ++
      List.replicate (MAX_PARAMS + 1 - n) none := by
  rw [read_config_file_tokens] at h
  by_cases h1 : MAX_PARAMS ≤ (tokens f).1.length
  · rw [if_pos h1] at h
    simp only [Option.some.injEq, Prod.mk.injEq] at h
    obtain ⟨ha, hn⟩ := h
    rw [← hn, ← ha]
    refine ⟨by omega, by omega, ?_, ?_, ?_⟩
    · simp only [List.length_cons, List.length_map, List.length_take]
      omega
    · simp only [Nat.add_sub_cancel]
      omega
    · simp
  · rw [if_neg h1] at h
    by_cases h2 : (tokens f).2 = true
    · rw [if_pos h2] at h
      simp only [Option.some.injEq, Prod.mk.injEq] at h
      obtain ⟨ha, hn⟩ := h
      rw [← hn, ← ha]
      refine ⟨by omega, by omega, ?_, ?_, ?_⟩
      · simp only [List.length_append, List.length_cons, List.length_map,
          List.length_replicate]
        omega
      · simp only [Nat.add_sub_cancel]
        omega
      · simp only [Nat.add_sub_cancel, List.take_length]
        congr 2
        omega
    · rw [if_neg h2] at h
      exact absurd h (by simp)

/-- The function `read_config_file` has no defined result exactly when a
conversion does not fit in `a` or `b` before `MAX_PARAMS` tokens are read. -/
theorem read_config_file_undefined (f : List Char) :
    read_config_file f = none ↔ (tokens f).1.length < MAX_PARAMS ∧ (tokens f).2 = false := by
  rw [read_config_file_tokens]
  by_cases h1 : MAX_PARAMS ≤ (tokens f).1.length
  · rw [if_pos h1]
    simp
    omega
  · rw [if_neg h1]
    by_cases h2 : (tokens f).2 = true
    · rw [if_pos h2]
      simp [h2]
    · rw [if_neg h2]
      simp only [true_iff]
      exact ⟨by omega, by simpa using h2⟩

set_option maxRecDepth 1000000 in
/-- A text of 250 words, the numbers 0 to 249 in decimal, each followed by a
space: the words 0 to 199 are returned in order, the count is 201 and the
words 200 to 249 are dropped. -/
theorem read_config_file_250_words :
    read_config_file ((List.range 250).map (fun i => Nat.toDigits 10 i ++ [' '])).flatten =
      some (none :: (List.range 200).map (fun i => some (Nat.toDigits 10 i)), 201) := by
  rfl

/-- C21: on the text made of ten double quotes, the conversion
`fscanf(f, " %[\"]", b)` does not fit in `b[10]`: no token is read before, and
`read_config_file` has no defined result, so that neither a count nor a bound
on the slots written is given. -/
theorem C21_quotes_overrun :
    tokens (List.replicate 10 '"') = ([], false) ∧
      read_config_file (List.replicate 10 '"') = none := by
  decide

end Thor
